import Mathlib

/-!
Verification of the reflective protobuf parser and the layer-graph engine of this
repository, as a shallow embedding in Lean.

Part 1 (`Pb` namespace) embeds `modules/protobuf_parser`:
  * `readBinary` / `std::istream` behaviour becomes an explicit `BStream` state
    (data, position, eof/fail bits), following `proto_terms.cpp`;
  * `ProtoValue<T>::readVarint` becomes `readVarint` (bounded loop of 9 iterations
    plus the post-loop fixup, exactly as written in `proto_terms.hpp`);
  * `ProtoValue<T>::read`, `ProtoEnum::read`, `ProtoPackImpl<T>::read` become
    `readScalar`, `readEnum`, `readPack`;
  * `ProtobufMessage::read` (binary and text) becomes the fuel-indexed mutual
    functions `readField` / `msgReadB` / `msgLoop` and `textField` / `textMsgRead` /
    `textMsgLoop`.  Fuel only bounds the number of loop iterations; the C++ `while`
    loops can genuinely diverge on some malformed inputs, so a fuel-out is reported
    as the distinguished result `RErr.fuelErr`.

Part 2 (`Dnn` namespace) embeds `modules/dnn` (`dnn.cpp`, `torch_importer.cpp`):
  the layer graph (`addLayer`, `connect`, `getUnconnectedOutLayers`), the torch
  container importer `fill`, shape inference and the buffer allocator.

Machine integers are modelled as `Nat`/`Int` with explicit truncation
(`% 2 ^ 32`, `toInt32`) where the C++ narrows; fallible code returns `Except`.
C++ undefined behaviour (null dereference, out-of-range indexing) is made
explicit as the distinguished error `.ub` / `.nullDeref`.
-/

namespace Pb

/-- Error outcomes of the parser.  `parseErr` is `CV_Error(StsParseError, …)`,
`assertErr` a failed `CV_Assert`, `notImpl` `CV_Error(StsNotImplemented, …)`,
`ub` marks C++ undefined behaviour made explicit, and `fuelErr` marks fuel
exhaustion of the embedding (possible divergence of the C++ loop). -/
inductive RErr where
  | parseErr (msg : String)
  | assertErr
  | notImpl
  | ub
  | fuelErr
deriving DecidableEq, Repr

/-- The state of a `std::istream` over an in-memory byte buffer: the bytes, the
read position (`tellg` when the stream is good), and the `eofbit`/`failbit`
flags. -/
structure BStream where
  data : List Nat
  pos : Nat
  eofbit : Bool
  failbit : Bool
deriving DecidableEq, Repr

/-- `istream::tellg`: `-1` once the stream has failed, else the position. -/
def tellg (s : BStream) : Int :=
  if s.failbit then -1 else (s.pos : Int)

/-- `readBinary(s, dst, n)` from `proto_terms.cpp`: `s.read((char*)dst, n)`
followed by `CV_Assert(s.gcount() == n || s.gcount() == 0)`.  Returns the bytes
read (`[]` for `gcount = 0`).  A partial read trips the assert.  A read on a
stream with `eofbit`/`failbit` set fails its sentinel: `gcount = 0` and
`failbit` is set. -/
def readBinaryN (n : Nat) (s : BStream) : Except RErr (List Nat × BStream) :=
  if s.eofbit || s.failbit then .ok ([], { s with failbit := true })
  else if n = 0 then .ok ([], s)
  else if s.pos + n ≤ s.data.length then
    .ok ((s.data.drop s.pos).take n, { s with pos := s.pos + n })
  else if s.data.length ≤ s.pos then
    .ok ([], { s with eofbit := true, failbit := true })
  else .error .assertErr

/-- `istream::ignore(n)`: skip up to `n` characters; sets `eofbit` when the end
is reached early.  Nonpositive `n` skips nothing. -/
def ignoreN (n : Int) (s : BStream) : BStream :=
  if s.eofbit || s.failbit then { s with failbit := true }
  else if n ≤ 0 then s
  else if (s.pos : Int) + n ≤ (s.data.length : Int) then
    { s with pos := s.pos + n.toNat }
  else { s with pos := s.data.length, eofbit := true }

/-- The `for` loop of `ProtoValue<T>::readVarint` (`proto_terms.hpp`): at most
`iters` more iterations (the C++ bound is `bytesRead < 9`); `byte` is the byte
currently held in the loop variable.  Returns
`(res, bytesRead, byte, read_next_byte, stream)` at loop exit. -/
def varintLoop : Nat → Nat → Nat → Nat → BStream →
    Except RErr (Nat × Nat × Nat × Bool × BStream)
  | 0, bytesRead, res, byte, s => .ok (res, bytesRead, byte, true, s)
  | iters+1, bytesRead, res, byte, s =>
    let res' := res ||| ((byte &&& 0x7f) <<< (7 * bytesRead))
    if byte &&& 0x80 = 0 then
      .ok (res', bytesRead + 1, byte, false, s)
    else
      match readBinaryN 1 s with
      | .error e => .error e
      | .ok ([], _) => .error (.parseErr "Unexpected end of file")
      | .ok (b :: _, s') => varintLoop iters (bytesRead + 1) res' b s'

/-- `ProtoValue<T>::readVarint(s, dst, maxNumBytes)`: returns the decoded value
after the `memcpy` truncation to `maxNumBytes` bytes, together with the number
of bytes consumed. -/
def readVarint (maxB : Nat) (s : BStream) : Except RErr (Nat × Nat × BStream) :=
  if 8 < maxB then .error .assertErr
  else
    match readBinaryN 1 s with
    | .error e => .error e
    | .ok ([], s₁) => .ok (0, 0, s₁)
    | .ok (b :: _, s₁) =>
      match varintLoop 9 0 0 b s₁ with
      | .error e => .error e
      | .ok (res, bytesRead, byte, rnb, s₂) =>
        if rnb then
          if byte &&& 0x80 = 0 then .ok (res % 2 ^ (8 * maxB), bytesRead + 1, s₂)
          else .error .assertErr
        else .ok (res % 2 ^ (8 * maxB), bytesRead, s₂)

/-- Reinterpret the low 32 bits as a signed `int32_t` (two's complement). -/
def toInt32 (v : Nat) : Int :=
  if v % 2 ^ 32 < 2 ^ 31 then ((v % 2 ^ 32 : Nat) : Int)
  else ((v % 2 ^ 32 : Nat) : Int) - 2 ^ 32

/-- The primitive element types of `ProtoValue<T>`. -/
inductive PType where
  | i32 | u32 | i64 | u64 | f32 | f64 | boolT
deriving DecidableEq, Repr

/-- `sizeof(T)` for each primitive type. -/
def PType.width : PType → Nat
  | .i32 => 4 | .u32 => 4 | .i64 => 8 | .u64 => 8
  | .f32 => 4 | .f64 => 8 | .boolT => 1

/-- The `typeid` dispatch of `ProtoValue<T>::read`: the four integer types go
through `readVarint`; `float`, `double` and `bool` go through `readBinary`. -/
def PType.isVarint : PType → Bool
  | .i32 => true | .u32 => true | .i64 => true | .u64 => true
  | .f32 => false | .f64 => false | .boolT => false

/-- Assemble a little-endian byte list into the raw value it stores. -/
def bytesLE (bs : List Nat) : Nat :=
  bs.foldr (fun b acc => b + 256 * acc) 0

/-- `ProtoValue<T>::read(std::istream&)` for a freshly cloned field (whose value
is the zero default).  Integer types decode a varint of `sizeof(T)` target
width; `float`/`double`/`bool` read `sizeof(T)` raw bytes — the return value of
`readBinary` is ignored there, so a zero-byte read keeps the default value. -/
def readScalar (t : PType) (s : BStream) : Except RErr (Nat × BStream) :=
  if t.isVarint then
    match readVarint t.width s with
    | .error e => .error e
    | .ok (v, _, s') => .ok (v, s')
  else
    match readBinaryN t.width s with
    | .error e => .error e
    | .ok ([], s') => .ok (0, s')
    | .ok (bs, s') => .ok (bytesLE bs, s')

/-- `ProtoValue<std::string>::read`: varint length (as `int32`), negative length
is a `ParseError`, then `CV_Assert(readBinary(…))` — which also fires when
`readBinary` returns `0`. -/
def readStr (s : BStream) : Except RErr (List Nat × BStream) :=
  match readVarint 4 s with
  | .error e => .error e
  | .ok (v, _, s₁) =>
    let len := toInt32 v
    if len < 0 then .error (.parseErr "Negative string length")
    else if len = 0 then .ok ([], s₁)
    else
      match readBinaryN len.toNat s₁ with
      | .error e => .error e
      | .ok ([], _) => .error .assertErr
      | .ok (bs, s₂) => .ok (bs, s₂)

/-- Split a raw byte block into `cnt` groups of `w` little-endian bytes:
the contents of the `std::vector<T>` filled by the block `readBinary` of
`ProtoPackImpl<T>::read`. -/
def chunkifyCnt (w : Nat) : Nat → List Nat → List Nat
  | 0, _ => []
  | c+1, bs => bytesLE (bs.take w) :: chunkifyCnt w c (bs.drop w)

/-- The varint-element loop of `ProtoPackImpl<T>::read`:
`while (s.tellg() < end) { singleValue.read(s); push }` then
`CV_Assert(tellg == end)`.  On a failed stream `tellg` is `-1 < end`, and the
value read is `0` with no progress: the C++ loop diverges, which the fuel makes
explicit. -/
def packVarLoop : Nat → Nat → Int → List Nat → BStream →
    Except RErr (List Nat × BStream)
  | 0, _, _, _, _ => .error .fuelErr
  | fuel+1, w, endPos, acc, s =>
    if tellg s < endPos then
      match readVarint w s with
      | .error e => .error e
      | .ok (v, _, s') => packVarLoop fuel w endPos (acc ++ [v]) s'
    else if tellg s = endPos then .ok (acc, s)
    else .error .assertErr

/-- `ProtoPackImpl<T>::read`: a varint byte count (as `int32`); fixed-width
element types (`float`, `double`, `bool`) check divisibility by `sizeof(T)` and
issue one block `readBinary` guarded by `CV_Assert(readBinary(…))`; varint
element types loop until the end offset is consumed exactly. -/
def readPack (fuel : Nat) (t : PType) (s : BStream) : Except RErr (List Nat × BStream) :=
  match readVarint 4 s with
  | .error e => .error e
  | .ok (v, _, s₁) =>
    let numBytes := toInt32 v
    if t.isVarint then
      packVarLoop fuel t.width (tellg s₁ + numBytes) [] s₁
    else
      if numBytes % (t.width : Int) ≠ 0 then .error .assertErr
      else if numBytes < 0 then .error .ub
      else
        match readBinaryN numBytes.toNat s₁ with
        | .error e => .error e
        | .ok ([], _) => .error .assertErr
        | .ok (bs, s₂) => .ok (chunkifyCnt t.width (numBytes.toNat / t.width) bs, s₂)

/-- `ProtoEnum::read`: packed — read an `int` pack and take its last element
(`operator[](size()-1)` asserts on an empty pack); plain — read one varint
`int32`.  The decoded number must be a declared enum value. -/
def readEnum (fuel : Nat) (packed : Bool) (vals : List (Int × String)) (s : BStream) :
    Except RErr (String × BStream) :=
  match
    (if packed then
      match readPack fuel .i32 s with
      | .error e => .error e
      | .ok ([], _) => .error .assertErr
      | .ok (vs, s₁) => .ok (toInt32 vs.getLast!, s₁)
    else
      match readVarint 4 s with
      | .error e => .error e
      | .ok (v, _, s₁) => .ok (toInt32 v, s₁) :
        Except RErr (Int × BStream)) with
  | .error e => .error e
  | .ok (id, s₁) =>
    match vals.lookup id with
    | some nm => .ok (nm, s₁)
    | none => .error (.parseErr "Unknown enum value")

/-- The prototype field tree of a message (`ProtobufField` subclasses): scalars,
strings, enums, packed repeated fields and nested messages.  A message carries
its field table as `(tag, name, prototype)` triples — the contents of the
`fieldByTag` / `nameByTag` / `fieldByName` maps of `ProtobufMessage`. -/
inductive PField where
  | scalar (t : PType)
  | strF
  | enumF (packed : Bool) (vals : List (Int × String))
  | packF (t : PType)
  | msgF (fields : List (Int × String × PField))

/-- `fieldByTag.find(tag)` together with `nameByTag[tag]`. -/
def lookupTag (ds : List (Int × String × PField)) (tag : Int) : Option (String × PField) :=
  match ds with
  | [] => none
  | (t, nm, f) :: rest => if t = tag then some (nm, f) else lookupTag rest tag

/-- `fieldByName.find(name)`. -/
def lookupName (ds : List (Int × String × PField)) (nm : String) : Option PField :=
  match ds with
  | [] => none
  | (_, n, f) :: rest => if n = nm then some f else lookupName rest nm

/-- A parsed field instance.  Scalars store the raw (little-endian reassembled)
value written by `memcpy`; strings store raw bytes; enums the resolved name;
packs the element values; messages their `readFields` table. -/
inductive PInst where
  | scalarI (t : PType) (v : Nat)
  | strI (bs : List Nat)
  | enumI (nm : String)
  | packI (t : PType) (vs : List Nat)
  | msgI (rf : List (String × List PInst))

/-- The `readFields` map: field name to the list of parsed instances.  Kept as
an association list; all observations go through `rfLookup`. -/
abbrev RF := List (String × List PInst)

/-- `readFields.clear()`. -/
def rfClear (_ : RF) : RF := []

/-- The parse loop's insertion: first occurrence creates a one-element list,
later occurrences `push_back`. -/
def rfInsert (rf : RF) (nm : String) (i : PInst) : RF :=
  match rf with
  | [] => [(nm, [i])]
  | (n, is) :: rest =>
    if n = nm then (n, is ++ [i]) :: rest else (n, is) :: rfInsert rest nm i

/-- `readFields.find(name)`. -/
def rfLookup (rf : RF) (nm : String) : Option (List PInst) :=
  match rf with
  | [] => none
  | (n, is) :: rest => if n = nm then some is else rfLookup rest nm

/-- `parseKey` (`proto_terms.cpp`): read a varint `int32`; if the stream hit
EOF the key is left unset (`none`); otherwise split into tag (`key >> 3`,
arithmetic shift) and wire type (`key & 7`), rejecting tags `≤ 0` and wire
types outside `{0, 1, 2, 5}`. -/
def parseKey (s : BStream) : Except RErr (Option (Int × Int) × BStream) :=
  match readVarint 4 s with
  | .error e => .error e
  | .ok (v, _, s₁) =>
    if s₁.eofbit then .ok (none, s₁)
    else
      let key := toInt32 v
      let tag := Int.fdiv key 8
      let wire := key % 8
      if tag ≤ 0 then .error (.parseErr "Unsupported tag value")
      else if wire ≠ 0 ∧ wire ≠ 1 ∧ wire ≠ 2 ∧ wire ≠ 5 then
        .error (.parseErr "Unsupported wire type")
      else .ok (some (tag, wire), s₁)

/-- The skip branch of `ProtobufMessage::read` for a tag with no prototype:
wire 0 — decode and discard a varint (with the 8-byte `int64` buffer);
wire 1 — `ignore(8)`; wire 2 — varint length then `ignore(length)`;
wire 5 — `ignore(4)`.  (The `if` chain has no final `else`.) -/
def skipField (wire : Int) (s : BStream) : Except RErr BStream :=
  if wire = 0 then
    match readVarint 8 s with
    | .error e => .error e
    | .ok (_, _, s') => .ok s'
  else if wire = 1 then .ok (ignoreN 8 s)
  else if wire = 2 then
    match readVarint 4 s with
    | .error e => .error e
    | .ok (v, _, s') => .ok (ignoreN (toInt32 v) s')
  else if wire = 5 then .ok (ignoreN 4 s)
  else .ok s

/-- `INT_MAX`: the initial `msgEnd` of a top-level message. -/
def INTMAX : Int := 2 ^ 31 - 1

mutual

/-- `ProtobufField::read(std::istream&)` dispatched over the field kind; a
nested message field reads through `ProtobufMessage::read` on a fresh clone
(whose `readFields` starts empty). -/
def readField : Nat → PField → BStream → Except RErr (PInst × BStream)
  | 0, _, _ => .error .fuelErr
  | _+1, .scalar t, s =>
    match readScalar t s with
    | .error e => .error e
    | .ok (v, s') => .ok (.scalarI t v, s')
  | _+1, .strF, s =>
    match readStr s with
    | .error e => .error e
    | .ok (bs, s') => .ok (.strI bs, s')
  | fuel+1, .enumF p vals, s =>
    match readEnum fuel p vals s with
    | .error e => .error e
    | .ok (nm, s') => .ok (.enumI nm, s')
  | fuel+1, .packF t, s =>
    match readPack fuel t s with
    | .error e => .error e
    | .ok (vs, s') => .ok (.packI t vs, s')
  | fuel+1, .msgF ds, s =>
    match msgReadB fuel ds [] s with
    | .error e => .error e
    | .ok (rf, s') => .ok (.msgI rf, s')

/-- `ProtobufMessage::read(std::istream&)`: drop previously read fields, read
the embedded byte length when `tellg != 0`, run the key/field loop, and check
`CV_Assert(!isEmbedded || s.eof() || tellg == msgEnd)` at the end. -/
def msgReadB : Nat → List (Int × String × PField) → RF → BStream →
    Except RErr (RF × BStream)
  | 0, _, _, _ => .error .fuelErr
  | fuel+1, ds, prior, s =>
    let rf0 := rfClear prior
    if tellg s ≠ 0 then
      match readVarint 4 s with
      | .error e => .error e
      | .ok (v, _, s₁) =>
        let msgEnd := tellg s₁ + toInt32 v
        match msgLoop fuel ds msgEnd rf0 s₁ with
        | .error e => .error e
        | .ok (rf, s₂) =>
          if s₂.eofbit || tellg s₂ = msgEnd then .ok (rf, s₂) else .error .assertErr
    else
      match msgLoop fuel ds INTMAX rf0 s with
      | .error e => .error e
      | .ok (rf, s₂) => .ok (rf, s₂)

/-- The `while (s.tellg() < msgEnd)` loop of `ProtobufMessage::read`: parse a
key (breaking on EOF), read a clone of the matching prototype, or skip unknown
tags by wire type. -/
def msgLoop : Nat → List (Int × String × PField) → Int → RF → BStream →
    Except RErr (RF × BStream)
  | 0, _, _, _, _ => .error .fuelErr
  | fuel+1, ds, msgEnd, acc, s =>
    if tellg s < msgEnd then
      match parseKey s with
      | .error e => .error e
      | .ok (none, s₁) => .ok (acc, s₁)
      | .ok (some (tag, wire), s₁) =>
        match lookupTag ds tag with
        | some (nm, f) =>
          match readField fuel f s₁ with
          | .error e => .error e
          | .ok (inst, s₂) => msgLoop fuel ds msgEnd (rfInsert acc nm inst) s₂
        | none =>
          match skipField wire s₁ with
          | .error e => .error e
          | .ok s₂ => msgLoop fuel ds msgEnd acc s₂
    else .ok (acc, s)

end

/-- Parse a top-level message over a byte buffer (stream at position 0). -/
def readTop (fuel : Nat) (ds : List (Int × String × PField)) (prior : RF)
    (data : List Nat) : Except RErr (RF × BStream) :=
  msgReadB fuel ds prior ⟨data, 0, false, false⟩

/-! ### Text-format reading

`valueFromString<T>` converts one token through a `std::stringstream` for the
numeric types; that conversion (including its floating-point cases) is an
external leaf, so the embedding is parameterized over it. -/

/-- The token-to-raw-value conversion `valueFromString<T>` for scalar types. -/
abbrev SVal := PType → String → Except RErr Nat

mutual

/-- `ProtobufField::read(std::vector<std::string>::iterator&)` dispatched over
the field kind.  Scalars and packs consume one token through `valueFromString`
(a pack resizes itself to that single value); strings and enums store the token
verbatim (`ProtoEnum` inherits `ProtoString`'s token reader); messages read a
braced block.  Dereferencing the end iterator is C++ UB (`.ub`). -/
def textField (sv : SVal) : Nat → PField → List String → Except RErr (PInst × List String)
  | 0, _, _ => .error .fuelErr
  | _+1, .scalar t, toks =>
    match toks with
    | [] => .error .ub
    | tok :: rest =>
      match sv t tok with
      | .error e => .error e
      | .ok v => .ok (.scalarI t v, rest)
  | _+1, .strF, toks =>
    match toks with
    | [] => .error .ub
    | tok :: rest => .ok (.strI (tok.toList.map Char.toNat), rest)
  | _+1, .enumF _ _, toks =>
    match toks with
    | [] => .error .ub
    | tok :: rest => .ok (.enumI tok, rest)
  | _+1, .packF t, toks =>
    match toks with
    | [] => .error .ub
    | tok :: rest =>
      match sv t tok with
      | .error e => .error e
      | .ok v => .ok (.packI t [v], rest)
  | fuel+1, .msgF ds, toks =>
    match textMsgRead sv fuel ds [] toks with
    | .error e => .error e
    | .ok (rf, rest) => .ok (.msgI rf, rest)

/-- `ProtobufMessage::read(std::vector<std::string>::iterator&)`: drop
previously read fields, require an opening `{`, then run the name/value
loop. -/
def textMsgRead (sv : SVal) : Nat → List (Int × String × PField) → RF → List String →
    Except RErr (RF × List String)
  | 0, _, _, _ => .error .fuelErr
  | fuel+1, ds, prior, toks =>
    let rf0 := rfClear prior
    match toks with
    | [] => .error .ub
    | tok :: rest =>
      if tok = "\x7b" then textMsgLoop sv fuel ds rf0 rest
      else .error .assertErr

/-- The `while (*tokenIt != "}")` loop: read a field name, look it up by name
(unknown names are `StsNotImplemented` — no skipping in text mode), read the
clone from the following tokens. -/
def textMsgLoop (sv : SVal) : Nat → List (Int × String × PField) → RF → List String →
    Except RErr (RF × List String)
  | 0, _, _, _ => .error .fuelErr
  | fuel+1, ds, acc, toks =>
    match toks with
    | [] => .error .ub
    | tok :: rest =>
      if tok = "\x7d" then .ok (acc, rest)
      else
        match lookupName ds tok with
        | none => .error .notImpl
        | some f =>
          match textField sv fuel f rest with
          | .error e => .error e
          | .ok (inst, rest') => textMsgLoop sv fuel ds (rfInsert acc tok inst) rest'

end

/-! ### Wire-level well-formedness (for the unknown-field round-trip)

A binary message is a concatenation of encoded fields; each field is a varint
key followed by a payload.  The predicates below say when raw bytes form a
terminated varint, when a payload is skippable for a wire type, and when a
payload parses to a given instance under a prototype. -/

/-- The bytes of one terminated varint: every byte but the last has the
continuation bit set, the last has it clear. -/
def IsVarintB : List Nat → Prop
  | [] => False
  | [b] => b < 256 ∧ b &&& 0x80 = 0
  | b :: rest => b < 256 ∧ b &&& 0x80 ≠ 0 ∧ IsVarintB rest

instance instDecIsVarintB : (p : List Nat) → Decidable (IsVarintB p)
  | [] => isFalse (by simp [IsVarintB])
  | [b] => decidable_of_iff (b < 256 ∧ b &&& 0x80 = 0) (by simp [IsVarintB])
  | b :: c :: rest =>
    have : Decidable (IsVarintB (c :: rest)) := instDecIsVarintB (c :: rest)
    decidable_of_iff (b < 256 ∧ b &&& 0x80 ≠ 0 ∧ IsVarintB (c :: rest))
      (by simp [IsVarintB])

/-- The value carried by varint bytes: 7 data bits per byte, little-endian. -/
def varintValB : List Nat → Nat
  | [] => 0
  | b :: rest => (b &&& 0x7f) + 128 * varintValB rest

/-- A payload that the skip branch of `ProtobufMessage::read` consumes exactly,
per wire type: 0 — a terminated varint of at most 10 bytes; 1 — 8 bytes;
2 — a varint length `L` (< 2³¹) followed by exactly `L` bytes; 5 — 4 bytes. -/
def SkipWF (wire : Int) (p : List Nat) : Prop :=
  (wire = 0 ∧ IsVarintB p ∧ p.length ≤ 10) ∨
  (wire = 1 ∧ p.length = 8) ∨
  (wire = 2 ∧ ∃ lb q, p = lb ++ q ∧ IsVarintB lb ∧ lb.length ≤ 9 ∧
      varintValB lb < 2 ^ 31 ∧ q.length = varintValB lb) ∨
  (wire = 5 ∧ p.length = 4)

/-- `ReadsTo f payload inst`: reading prototype `f` anywhere (at a nonzero
stream position, with clear stream flags) consumes exactly `payload` and
produces `inst`, given enough fuel. -/
def ReadsTo (f : PField) (payload : List Nat) (inst : PInst) : Prop :=
  ∃ K, ∀ fuel, K ≤ fuel → ∀ (s : BStream) (rest : List Nat),
    1 ≤ s.pos → s.eofbit = false → s.failbit = false →
    s.data.drop s.pos = payload ++ rest →
    readField fuel f s = .ok (inst, { s with pos := s.pos + payload.length })

/-- One encoded field of a binary message: its key bytes and payload, tagged
known (with the instance its prototype parses to) or unknown. -/
inductive Chunk where
  | known (keyB : List Nat) (payload : List Nat) (inst : PInst)
  | unk (keyB : List Nat) (payload : List Nat)

/-- The wire bytes of a chunk. -/
def Chunk.bytes : Chunk → List Nat
  | .known kb p _ => kb ++ p
  | .unk kb p => kb ++ p

/-- The wire bytes of a field sequence. -/
def chunksBytes (cs : List Chunk) : List Nat :=
  (cs.map Chunk.bytes).flatten

/-- The key value, tag and wire type encoded by a chunk's key bytes. -/
def Chunk.keyB : Chunk → List Nat
  | .known kb _ _ => kb
  | .unk kb _ => kb

def Chunk.keyVal (c : Chunk) : Nat := varintValB c.keyB
def Chunk.tag (c : Chunk) : Int := ((c.keyVal / 8 : Nat) : Int)
def Chunk.wire (c : Chunk) : Int := ((c.keyVal % 8 : Nat) : Int)

/-- Well-formedness of a chunk against a field table: the key is a terminated
varint whose value fits `int32` and is at least 8 (tag ≥ 1) with a supported
wire type; a known chunk's tag resolves to a prototype that parses the payload
to the stored instance; an unknown chunk's tag has no prototype and its payload
is skippable for its wire type. -/
def ChunkWF (ds : List (Int × String × PField)) : Chunk → Prop
  | .known kb payload inst =>
      IsVarintB kb ∧ kb.length ≤ 9 ∧ varintValB kb < 2 ^ 31 ∧ 8 ≤ varintValB kb ∧
      (varintValB kb % 8 = 0 ∨ varintValB kb % 8 = 1 ∨ varintValB kb % 8 = 2 ∨
        varintValB kb % 8 = 5) ∧
      (match lookupTag ds ((varintValB kb / 8 : Nat) : Int) with
       | some (_, f) => ReadsTo f payload inst
       | none => False)
  | .unk kb payload =>
      IsVarintB kb ∧ kb.length ≤ 9 ∧ varintValB kb < 2 ^ 31 ∧ 8 ≤ varintValB kb ∧
      lookupTag ds ((varintValB kb / 8 : Nat) : Int) = none ∧
      SkipWF ((varintValB kb % 8 : Nat) : Int) payload

/-- The `readFields` effect of one chunk: known chunks append their instance
under the field's name, unknown chunks contribute nothing. -/
def applyChunk (ds : List (Int × String × PField)) (acc : RF) : Chunk → RF
  | .known kb _ inst =>
      match lookupTag ds ((varintValB kb / 8 : Nat) : Int) with
      | some (nm, _) => rfInsert acc nm inst
      | none => acc
  | .unk _ _ => acc

/-- The `readFields` produced by a chunk sequence. -/
def foldChunks (ds : List (Int × String × PField)) (acc : RF) (cs : List Chunk) : RF :=
  cs.foldl (applyChunk ds) acc

end Pb

namespace Dnn

/-! ## The layer-graph engine (`modules/dnn/src/dnn.cpp`) and the torch
container importer (`modules/dnn/src/torch/torch_importer.cpp`). -/

/-- Error outcomes: `configErr` is `CV_Error(StsBadArg/StsError)` from graph
operations, `notFound` `StsObjectNotFound`, `internalErr` `StsInternal`,
`factoryErr` a failing layer factory / `getMemoryShapes`, `nullDeref` and `ub`
mark C++ undefined behaviour made explicit, `fuelErr` fuel exhaustion. -/
inductive NErr where
  | configErr
  | notFound
  | assertErr
  | nullDeref
  | notImpl
  | internalErr
  | factoryErr
  | ub
  | fuelErr
deriving DecidableEq, Repr

/-- A `DictValue` of `LayerParams`. -/
inductive DVal where
  | i (v : Int)
  | s (v : String)
  | b (v : Bool)
deriving DecidableEq, Repr

/-- The `LayerParams` dictionary. -/
abbrev Params := List (String × DVal)

/-- `params.has(key)` / `params.get(key)` lookup. -/
def pGet (ps : Params) (k : String) : Option DVal :=
  match ps with
  | [] => none
  | (k', v) :: rest => if k' = k then some v else pGet rest k

/-- `params.set(key, value)` (map semantics: replace or add). -/
def pSet (ps : Params) (k : String) (v : DVal) : Params :=
  match ps with
  | [] => [(k, v)]
  | (k', v') :: rest => if k' = k then (k, v) :: rest else (k', v') :: pSet rest k v

/-- `params.get<int>(key)`: missing key or wrong kind is a `CV_Error`. -/
def pGetInt (ps : Params) (k : String) : Except NErr Int :=
  match pGet ps k with
  | some (.i v) => .ok v
  | _ => .error .configErr

/-- `LayerPin`: producer layer id and output index; default `(-1, -1)`. -/
structure Pin where
  lid : Int
  oid : Int
deriving DecidableEq, Repr

def Pin.default : Pin := ⟨-1, -1⟩

/-- `LayerPin::valid()`. -/
def Pin.valid (p : Pin) : Bool := 0 ≤ p.lid && 0 ≤ p.oid

/-- A `cv::Mat` for allocation purposes: its shape and the identity of its
backing storage (`Mat::create` allocates fresh storage, `Mat::reshape` shares
it). -/
structure MatM where
  shp : List Nat
  sid : Nat
deriving DecidableEq, Repr

/-- A default-constructed `Mat()`: empty shape, null storage. -/
def MatM.empty : MatM := ⟨[], 0⟩

/-- `total(shape)`: the element count. -/
def totalOf (shp : List Nat) : Nat := shp.prod

/-- `LayerData`: one record of the

`id → LayerData` graph map. -/
structure LayerData where
  id : Int
  name : String
  type : String
  params : Params
  inputBlobsId : List Pin
  inputLayersId : List Int
  requiredOutputs : List Int
  outputBlobs : List MatM
  inputBlobs : List Pin
  internals : List MatM
  flag : Bool
deriving DecidableEq, Repr

/-- The `LayerData(id, name, type, params)` constructor. -/
def LayerData.mkNew (id : Int) (name ty : String) (params : Params) : LayerData :=
  ⟨id, name, ty, params, [], [], [], [], [], [], false⟩

/-- `std::set<int>::insert` on a sorted duplicate-free list. -/
def setInsert (xs : List Int) (x : Int) : List Int :=
  match xs with
  | [] => [x]
  | y :: rest =>
    if x < y then x :: y :: rest
    else if x = y then y :: rest
    else y :: setInsert rest x

/-- `std::map` find over a key-sorted association list. -/
def mapFind {α : Type} (m : List (Int × α)) (k : Int) : Option α :=
  match m with
  | [] => none
  | (k', v) :: rest => if k' = k then some v else mapFind rest k

/-- `std::map::insert`: no effect when the key exists, else insert in key
order. -/
def mapInsert {α : Type} (m : List (Int × α)) (k : Int) (v : α) : List (Int × α) :=
  match m with
  | [] => [(k, v)]
  | (k', v') :: rest =>
    if k < k' then (k, v) :: (k', v') :: rest
    else if k = k' then (k', v') :: rest
    else (k', v') :: mapInsert rest k v

/-- Assignment through `operator[]` to an existing or fresh key. -/
def mapSet {α : Type} (m : List (Int × α)) (k : Int) (v : α) : List (Int × α) :=
  match m with
  | [] => [(k, v)]
  | (k', v') :: rest =>
    if k < k' then (k, v) :: (k', v') :: rest
    else if k = k' then (k', v) :: rest
    else (k', v') :: mapSet rest k v

/-- `Net::Impl`: the graph, the name index, the id counter and the allocation
flag. -/
structure NetImpl where
  layers : List (Int × LayerData)
  layerNameToId : List (String × Int)
  lastLayerId : Int
  netWasAllocated : Bool
  netOutputs : List Int
deriving Repr

/-- The synthetic input layer installed by `Net::Impl::Impl()`. -/
def inputLayerData : LayerData := LayerData.mkNew 0 "_input" "__NetInputLayer__" []

/-- A freshly constructed `Net::Impl`: the input layer at id 0 and
`lastLayerId = 1`. -/
def freshNet : NetImpl :=
  ⟨[(0, inputLayerData)], [("_input", 0)], 1, false, []⟩

/-- `Impl::getLayerId(name)`: `-1` when absent. -/
def getLayerIdName (n : NetImpl) (name : String) : Int :=
  match n.layerNameToId.lookup name with
  | some i => i
  | none => -1

/-- `Net::addLayer`: reject names containing `'.'`, reject names already
mapped, then assign `++lastLayerId`. -/
def addLayer (n : NetImpl) (name ty : String) (params : Params) :
    Except NErr (Int × NetImpl) :=
  if '.' ∈ name.toList then .error .configErr
  else if 0 ≤ getLayerIdName n name then .error .configErr
  else
    let id := n.lastLayerId + 1
    .ok (id, { n with
      lastLayerId := id,
      layerNameToId := n.layerNameToId ++ [(name, id)],
      layers := mapInsert n.layers id (LayerData.mkNew id name ty params) })

/-- `Impl::addLayerInput`: grow the input pin vector as needed; rebinding a
valid pin to a different pin is `CV_Error` ("already was connected"). -/
def addLayerInput (ld : LayerData) (inNum : Nat) (frm : Pin) : Except NErr LayerData :=
  if ld.inputBlobsId.length ≤ inNum then
    let padded := ld.inputBlobsId ++
      List.replicate (inNum + 1 - ld.inputBlobsId.length) Pin.default
    .ok { ld with inputBlobsId := padded.set inNum frm }
  else
    let stored := ld.inputBlobsId.getD inNum Pin.default
    if stored.valid ∧ stored ≠ frm then .error .configErr
    else .ok { ld with inputBlobsId := ld.inputBlobsId.set inNum frm }

/-- `Impl::connect(outLayerId, outNum, inLayerId, inNum)`: record the pin on
the consumer, add `outNum` to the producer's `requiredOutputs`. -/
def connect (n : NetImpl) (outId outNum inId : Int) (inNum : Nat) :
    Except NErr NetImpl :=
  match mapFind n.layers outId with
  | none => .error .notFound
  | some _ =>
    match mapFind n.layers inId with
    | none => .error .notFound
    | some ldInp =>
      match addLayerInput ldInp inNum ⟨outId, outNum⟩ with
      | .error e => .error e
      | .ok ldInp' =>
        let layers₁ := mapSet n.layers inId ldInp'
        match mapFind layers₁ outId with
        | none => .error .notFound
        | some ldOut =>
          let ldOut' := { ldOut with requiredOutputs := setInsert ldOut.requiredOutputs outNum }
          .ok { n with layers := mapSet layers₁ outId ldOut' }

/-- `Net::getUnconnectedOutLayers`: ids with empty `requiredOutputs`, in map
(key) order. -/
def getUnconnectedOutLayers (n : NetImpl) : List Int :=
  n.layers.filterMap (fun p => if p.2.requiredOutputs = [] then some p.1 else none)

/-- `Impl::computeNetOutputLayers`. -/
def computeNetOutputLayers (n : NetImpl) : NetImpl :=
  { n with netOutputs := getUnconnectedOutLayers n }

/-! ### The torch container importer (`TorchImporter::fill`) -/

/-- A node of the legacy serialized module tree: leaves carry a nonempty
`apiType`; containers a `thName` from the closed container set. -/
inductive Module where
  | mk (thName : String) (apiType : String) (params : Params) (children : List Module)

def Module.thName : Module → String | .mk t _ _ _ => t
def Module.apiType : Module → String | .mk _ a _ _ => a
def Module.params : Module → Params | .mk _ _ p _ => p
def Module.children : Module → List Module | .mk _ _ _ c => c

/-- Importer state: the net being built, the `(emittedLayerId, sourceModule)`
history, and the name counter of `generateLayerName`. -/
structure ImpState where
  net : NetImpl
  addedModules : List (Int × Module)
  moduleCounter : Nat

/-- `generateLayerName(label)`: `"l" + ++moduleCounter + "_" + label`. -/
def generateLayerName (st : ImpState) (label : String) : String × ImpState :=
  let c := st.moduleCounter + 1
  ("l" ++ toString c ++ "_" ++ label, { st with moduleCounter := c })

/-- The first history entry whose module is a `Pooling` leaf carrying the same
`indices_blob_id`; `( -1, null )` when none matches. -/
def findPoolPartner (ams : List (Int × Module)) (blobId : Int) : Int × Option Module :=
  match ams with
  | [] => (-1, none)
  | (id, m) :: rest =>
    if m.apiType = "Pooling" ∧ pGet m.params "indices_blob_id" = some (.i blobId) then
      (id, some m)
    else findPoolPartner rest blobId

/-- `net.connect(ids[i], 0, target, i)` for successive `i`. -/
def connectList (n : NetImpl) (ids : List Int) (target : Int) (i : Nat) :
    Except NErr NetImpl :=
  match ids with
  | [] => .ok n
  | lid :: rest =>
    match connect n lid 0 target i with
    | .error e => .error e
    | .ok n' => connectList n' rest target (i + 1)

mutual

/-- `TorchImporter::fill(module, addedModules, prevLayerId, prevOutNum)`,
dispatching on the container kind exactly as the C++ `if` chain does.  The
copy of the partner pooling parameters in the `SpatialMaxUnpooling` branch
dereferences the partner pointer before the `CV_Assert(first != -1)` guard;
a missing partner therefore surfaces as `.nullDeref`. -/
def fill : Nat → Option Module → ImpState → Int → Int → Except NErr (Int × ImpState)
  | 0, _, _, _, _ => .error .fuelErr
  | _+1, none, st, prevLayerId, _ => .ok (prevLayerId, st)
  | fuel+1, some m, st, prevLayerId, prevOutNum =>
    if m.apiType ≠ "" then
      let (nm, st₁) := generateLayerName st m.apiType
      match addLayer st₁.net nm m.apiType m.params with
      | .error e => .error e
      | .ok (newLayerId, net₁) =>
        match connect net₁ prevLayerId prevOutNum newLayerId 0 with
        | .error e => .error e
        | .ok net₂ =>
          .ok (newLayerId,
            { st₁ with
                net := net₂,
                addedModules := st₁.addedModules ++ [(newLayerId, m)] })
    else if m.thName = "Sequential" then
      fillSeq fuel m.children st prevLayerId prevOutNum
    else if m.thName = "Concat" then
      match pGetInt m.params "dimension" with
      | .error e => .error e
      | .ok dim =>
        let (splitNm, st₁) := generateLayerName st "torchSplit"
        match addLayer st₁.net splitNm "Split" [] with
        | .error e => .error e
        | .ok (splitId, net₁) =>
          let (mergeNm, st₂) := generateLayerName ({ st₁ with net := net₁ }) "torchMerge"
          match addLayer st₂.net mergeNm "Concat" [("axis", .i (dim - 1))] with
          | .error e => .error e
          | .ok (mergeId, net₂) =>
            match connect net₂ prevLayerId prevOutNum splitId 0 with
            | .error e => .error e
            | .ok net₃ =>
              match fillMergeLoop fuel m.children ({ st₂ with net := net₃ })
                  splitId mergeId 0 with
              | .error e => .error e
              | .ok st₄ =>
                .ok (mergeId,
                  { st₄ with addedModules := st₄.addedModules ++ [(mergeId, m)] })
    else if m.thName = "Parallel" then
      match pGetInt m.params "inputDimension" with
      | .error e => .error e
      | .ok inDim =>
        match pGetInt m.params "outputDimension" with
        | .error e => .error e
        | .ok outDim =>
          let (splitNm, st₁) := generateLayerName st "torchSplit"
          match addLayer st₁.net splitNm "Slice" [("axis", .i (inDim - 1))] with
          | .error e => .error e
          | .ok (splitId, net₁) =>
            let (mergeNm, st₂) := generateLayerName ({ st₁ with net := net₁ }) "torchMerge"
            match addLayer st₂.net mergeNm "Concat" [("axis", .i (outDim - 1))] with
            | .error e => .error e
            | .ok (mergeId, net₂) =>
              let (reshNm, st₃) := generateLayerName ({ st₂ with net := net₂ }) "torchReshape"
              match addLayer st₃.net reshNm "Reshape"
                  [("axis", .i (inDim - 1)), ("num_axes", .i 1)] with
              | .error e => .error e
              | .ok (reshapeId, net₃) =>
                match connect net₃ prevLayerId prevOutNum splitId 0 with
                | .error e => .error e
                | .ok net₄ =>
                  match fillParallelLoop fuel m.children ({ st₃ with net := net₄ })
                      splitId reshapeId mergeId 0 with
                  | .error e => .error e
                  | .ok st₅ =>
                    .ok (mergeId,
                      { st₅ with addedModules := st₅.addedModules ++ [(mergeId, m)] })
    else if m.thName = "ConcatTable" then
      let (splitNm, st₁) := generateLayerName st "torchSplit"
      match addLayer st₁.net splitNm "Split" [] with
      | .error e => .error e
      | .ok (splitId, net₁) =>
        match connect net₁ prevLayerId prevOutNum splitId 0 with
        | .error e => .error e
        | .ok net₂ =>
          let st₂ := { st₁ with
                         net := net₂,
                         addedModules := st₁.addedModules ++ [(splitId, m)] }
          fillCTLoop fuel m.children st₂ splitId 0 none
    else if m.thName = "JoinTable" then
      let ids := getUnconnectedOutLayers st.net
      match pGetInt m.params "dimension" with
      | .error e => .error e
      | .ok dim =>
        let (mergeNm, st₁) := generateLayerName st "torchMerge"
        match addLayer st₁.net mergeNm "Concat" [("axis", .i (dim - 1))] with
        | .error e => .error e
        | .ok (mergeId, net₁) =>
          let st₂ := { st₁ with
                         net := net₁,
                         addedModules := st₁.addedModules ++ [(mergeId, m)] }
          match connectList st₂.net ids mergeId 0 with
          | .error e => .error e
          | .ok net₂ => .ok (mergeId, { st₂ with net := net₂ })
    else if m.thName = "CAddTable" then
      let (nm, st₁) := generateLayerName st "torchCAddTable"
      let ids := getUnconnectedOutLayers st₁.net
      match addLayer st₁.net nm "Eltwise" [("operation", .s "sum")] with
      | .error e => .error e
      | .ok (id, net₁) =>
        match connectList net₁ ids id 0 with
        | .error e => .error e
        | .ok net₂ =>
          .ok (id, { st₁ with
                       net := net₂,
                       addedModules := st₁.addedModules ++ [(id, m)] })
    else if m.thName = "SpatialMaxUnpooling" then
      match pGet m.params "indices_blob_id" with
      | some (.i blobId) =>
        let pool := findPoolPartner st.addedModules blobId
        match pool.2 with
        | none => .error .nullDeref
        | some pm =>
          match pGetInt pm.params "kernel_h", pGetInt pm.params "kernel_w",
                pGetInt pm.params "stride_h", pGetInt pm.params "stride_w",
                pGetInt pm.params "pad_h", pGetInt pm.params "pad_w" with
          | .ok kh, .ok kw, .ok sh, .ok sw, .ok ph, .ok pw =>
            let params' :=
              pSet (pSet (pSet (pSet (pSet (pSet m.params
                "pool_k_h" (.i kh)) "pool_k_w" (.i kw))
                "pool_stride_h" (.i sh)) "pool_stride_w" (.i sw))
                "pool_pad_h" (.i ph)) "pool_pad_w" (.i pw)
            let (nm, st₁) := generateLayerName st "torchMaxUnpooling"
            match addLayer st₁.net nm "MaxUnpool" params' with
            | .error e => .error e
            | .ok (id, net₁) =>
              match connect net₁ prevLayerId 0 id 0 with
              | .error e => .error e
              | .ok net₂ =>
                if pool.1 = -1 then .error .assertErr
                else
                  match connect net₂ pool.1 1 id 1 with
                  | .error e => .error e
                  | .ok net₃ => .ok (id, { st₁ with net := net₃ })
          | _, _, _, _, _, _ => .error .configErr
      | _ => .error .assertErr
    else .error .internalErr

/-- The `Sequential` fold: fill children left to right, resetting
`prevOutNum` to 0 after the first child. -/
def fillSeq : Nat → List Module → ImpState → Int → Int → Except NErr (Int × ImpState)
  | 0, _, _, _, _ => .error .fuelErr
  | _+1, [], st, prevLayerId, _ => .ok (prevLayerId, st)
  | fuel+1, m :: rest, st, prevLayerId, prevOutNum =>
    match fill fuel (some m) st prevLayerId prevOutNum with
    | .error e => .error e
    | .ok (newPrev, st') => fillSeq fuel rest st' newPrev 0

/-- The `Concat` child loop: fill child `i` from split output `i`, wire its
output 0 into merge input `i`. -/
def fillMergeLoop : Nat → List Module → ImpState → Int → Int → Nat → Except NErr ImpState
  | 0, _, _, _, _, _ => .error .fuelErr
  | _+1, [], st, _, _, _ => .ok st
  | fuel+1, m :: rest, st, splitId, mergeId, i =>
    match fill fuel (some m) st splitId (Int.ofNat i) with
    | .error e => .error e
    | .ok (newId, st') =>
      match connect st'.net newId 0 mergeId i with
      | .error e => .error e
      | .ok net' => fillMergeLoop fuel rest ({ st' with net := net' }) splitId mergeId (i + 1)

/-- The `Parallel` child loop: wire split output `i` into reshape input `i`,
fill child `i` from reshape output `i`, wire its output 0 into merge
input `i`. -/
def fillParallelLoop : Nat → List Module → ImpState → Int → Int → Int → Nat →
    Except NErr ImpState
  | 0, _, _, _, _, _, _ => .error .fuelErr
  | _+1, [], st, _, _, _, _ => .ok st
  | fuel+1, m :: rest, st, splitId, reshapeId, mergeId, i =>
    match connect st.net splitId (Int.ofNat i) reshapeId i with
    | .error e => .error e
    | .ok net₁ =>
      match fill fuel (some m) ({ st with net := net₁ }) reshapeId (Int.ofNat i) with
      | .error e => .error e
      | .ok (newId, st') =>
        match connect st'.net newId 0 mergeId i with
        | .error e => .error e
        | .ok net₂ =>
          fillParallelLoop fuel rest ({ st' with net := net₂ }) splitId reshapeId mergeId (i + 1)

/-- The `ConcatTable` child loop: fill each child from split output `i`; the
returned id is the last child's (reading it with no children is uninitialized —
`.ub`). -/
def fillCTLoop : Nat → List Module → ImpState → Int → Nat → Option Int →
    Except NErr (Int × ImpState)
  | 0, _, _, _, _, _ => .error .fuelErr
  | _+1, [], st, _, _, lastId =>
    match lastId with
    | some id => .ok (id, st)
    | none => .error .ub
  | fuel+1, m :: rest, st, splitId, i, _ =>
    match fill fuel (some m) st splitId (Int.ofNat i) with
    | .error e => .error e
    | .ok (newId, st') => fillCTLoop fuel rest st' splitId (i + 1) (some newId)

end

/-! ### Shape inference and allocation (`Net::Impl`) -/

/-- One record of the `LayersShapesMap`: input, output, internal shapes and the
in-place intent returned by `getMemoryShapes`. -/
structure LayerShapes where
  inS : List (List Nat)
  outS : List (List Nat)
  internalS : List (List Nat)
  inplace : Bool
deriving DecidableEq, Repr

def LayerShapes.empty : LayerShapes := ⟨[], [], [], false⟩

/-- The memoization map of shape inference. -/
abbrev ShapeMap := List (Int × LayerShapes)

/-- `inOutShapes[id]` (read side of `operator[]`). -/
def msGet (m : ShapeMap) (id : Int) : LayerShapes :=
  (mapFind m id).getD LayerShapes.empty

/-- Write to `inOutShapes[id]`. -/
def msSet (m : ShapeMap) (id : Int) (v : LayerShapes) : ShapeMap :=
  mapSet m id v

/-- The behaviour of `layer->getMemoryShapes(in, requiredOutputs, out, internal)`
for a layer of a given type and parameters.  Layer kernels live outside the
covered core (the layer factory is a consumed interface), so the embedding is
parameterized by this function; `none` models a failing factory. -/
abbrev ShapeFn : Type :=
  String → Params → List (List Nat) → Nat → Option (List (List Nat) × List (List Nat) × Bool)

mutual

/-- `Impl::getLayerShapesRecursively(id, inOutShapes)`. -/
def gLSR (sf : ShapeFn) : Nat → NetImpl → Int → ShapeMap → Except NErr ShapeMap
  | 0, _, _, _ => .error .fuelErr
  | fuel+1, net, id, m =>
    match mapFind net.layers id with
    | none => .error .ub
    | some ld =>
      match (if (msGet m id).inS = [] then gatherIns sf fuel net ld.inputBlobsId id m
             else .ok m) with
      | .error e => .error e
      | .ok m₁ =>
        let is := (msGet m₁ id).inS
        match sf ld.type ld.params is ld.requiredOutputs.length with
        | none => .error .factoryErr
        | some (os, ints, inp) => .ok (msSet m₁ id ⟨is, os, ints, inp⟩)

/-- The input-collection loop of `getLayerShapesRecursively`: recurse into each
producer whose output shapes are not yet memoized, then append the producer's
output shape at the pin index to this layer's input shapes. -/
def gatherIns (sf : ShapeFn) : Nat → NetImpl → List Pin → Int → ShapeMap → Except NErr ShapeMap
  | 0, _, _, _, _ => .error .fuelErr
  | _+1, _, [], _, m => .ok m
  | fuel+1, net, pin :: rest, id, m =>
    match (if (mapFind m pin.lid).isNone ∨ (msGet m pin.lid).outS = [] then
            gLSR sf fuel net pin.lid m
           else .ok m) with
    | .error e => .error e
    | .ok m₁ =>
      if pin.oid < 0 then .error .ub
      else
        match (msGet m₁ pin.lid).outS.get? pin.oid.toNat with
        | none => .error .ub
        | some shp =>
          gatherIns sf fuel net rest id
            (msSet m₁ id { msGet m₁ id with inS := (msGet m₁ id).inS ++ [shp] })

end

/-- The per-layer loop of `Impl::getLayersShapes`. -/
def gLSList (sf : ShapeFn) (fuel : Nat) (net : NetImpl) :
    List Int → ShapeMap → Except NErr ShapeMap
  | [], m => .ok m
  | id :: rest, m =>
    match gLSR sf fuel net id m with
    | .error e => .error e
    | .ok m' => gLSList sf fuel net rest m'

/-- `Impl::getLayersShapes(netInputShapes, inOutShapes)`: seed layer 0's input
shapes, then infer every layer in map order. -/
def getLayersShapes (sf : ShapeFn) (fuel : Nat) (net : NetImpl)
    (netInputShapes : List (List Nat)) : Except NErr ShapeMap :=
  gLSList sf fuel net (net.layers.map Prod.fst)
    (msSet [] 0 { LayerShapes.empty with inS := netInputShapes })

/-- Allocation state: the net plus a fresh-storage counter (each `Mat::create`
yields a distinct backing storage). -/
structure ASt where
  net : NetImpl
  nextSid : Nat
deriving Repr

/-- `*(ld.inputBlobs[i])`: follow a stored `Mat*` to the producer's output
tensor. -/
def derefPin (n : NetImpl) (p : Pin) : Option MatM :=
  if p.lid < 0 ∨ p.oid < 0 then none
  else
    match mapFind n.layers p.lid with
    | none => none
    | some ld => ld.outputBlobs.get? p.oid.toNat

/-- `std::vector::resize` with default-constructed `Mat`s. -/
def resizeBlobs (bs : List MatM) (n : Nat) : List MatM :=
  if n ≤ bs.length then bs.take n
  else bs ++ List.replicate (n - bs.length) MatM.empty

/-- The output-allocation loop of `Impl::allocateLayer`: for each inferred
output shape, if the recorded shape differs — alias the input (in-place, with
the element-count assert) or `Mat::create` a fresh tensor; otherwise leave the
tensor untouched. -/
def allocOutputs (net : NetImpl) (inplace : Bool) (inputPins : List Pin) :
    List (List Nat) → List MatM → Nat → Nat → Except NErr (List MatM × Nat)
  | [], blobs, sid, _ => .ok (blobs, sid)
  | shp :: rest, blobs, sid, i =>
    if (blobs.getD i MatM.empty).shp ≠ shp then
      if inplace then
        if inputPins.length ≠ blobs.length then .error .assertErr
        else
          match derefPin net (inputPins.getD i Pin.default) with
          | none => .error .ub
          | some mat =>
            if totalOf mat.shp ≠ totalOf shp then .error .assertErr
            else allocOutputs net inplace inputPins rest (blobs.set i ⟨shp, mat.sid⟩) sid (i + 1)
      else allocOutputs net inplace inputPins rest (blobs.set i ⟨shp, sid⟩) (sid + 1) (i + 1)
    else allocOutputs net inplace inputPins rest blobs sid (i + 1)

/-- The internal-buffer loop of `Impl::allocateLayer`: allocate when the shape
differs and the target element count is nonzero. -/
def allocInternals : List (List Nat) → List MatM → Nat → Nat → List MatM × Nat
  | [], blobs, sid, _ => (blobs, sid)
  | shp :: rest, blobs, sid, i =>
    if (blobs.getD i MatM.empty).shp ≠ shp ∧ totalOf shp ≠ 0 then
      allocInternals rest (blobs.set i ⟨shp, sid⟩) (sid + 1) (i + 1)
    else allocInternals rest blobs sid (i + 1)

mutual

/-- `Impl::allocateLayer(lid, layersShapes)`: skip when flagged, record parent
ids, allocate parents first, bind input pointers, size outputs and internals
against the inferred shapes, `finalize` (a consumed layer-kernel interface,
modelled as leaving the tensors as sized), set the flag. -/
def allocLayer : Nat → ShapeMap → Int → ASt → Except NErr ASt
  | 0, _, _, _ => .error .fuelErr
  | fuel+1, shapes, lid, st =>
    match mapFind st.net.layers lid with
    | none => .error .ub
    | some ld =>
      if ld.flag then .ok st
      else
        let parents := ld.inputBlobsId.foldl (fun acc p => setInsert acc p.lid) ld.inputLayersId
        let st₁ := { st with net :=
          { st.net with layers := mapSet st.net.layers lid ({ ld with inputLayersId := parents }) } }
        match allocParents fuel shapes parents st₁ with
        | .error e => .error e
        | .ok st₂ =>
          match mapFind st₂.net.layers lid with
          | none => .error .ub
          | some ld₂ =>
            if ¬ ld₂.inputBlobsId.all Pin.valid then .error .assertErr
            else
              match mapFind shapes lid with
              | none => .error .assertErr
              | some lsh =>
                if lsh.outS.length < ld₂.requiredOutputs.length then .error .assertErr
                else
                  let resized := resizeBlobs ld₂.outputBlobs (max 1 lsh.outS.length)
                  match allocOutputs st₂.net lsh.inplace ld₂.inputBlobsId
                      lsh.outS resized st₂.nextSid 0 with
                  | .error e => .error e
                  | .ok (outBlobs, sid₁) =>
                    let (intBlobs, sid₂) := allocInternals lsh.internalS
                      (resizeBlobs ld₂.internals lsh.internalS.length) sid₁ 0
                    let ld₃ := { ld₂ with inputBlobs := ld₂.inputBlobsId,
                                          outputBlobs := outBlobs,
                                          internals := intBlobs,
                                          flag := true }
                    .ok { net := { st₂.net with layers := mapSet st₂.net.layers lid ld₃ },
                          nextSid := sid₂ }

/-- The parent recursion of `allocateLayer`. -/
def allocParents : Nat → ShapeMap → List Int → ASt → Except NErr ASt
  | 0, _, _, _ => .error .fuelErr
  | _+1, _, [], st => .ok st
  | fuel+1, shapes, pid :: rest, st =>
    match allocLayer fuel shapes pid st with
    | .error e => .error e
    | .ok st' => allocParents fuel shapes rest st'

end

/-- The per-layer loop of `Impl::allocateLayers`. -/
def allocAll (fuel : Nat) (shapes : ShapeMap) : List Int → ASt → Except NErr ASt
  | [], st => .ok st
  | lid :: rest, st =>
    match allocLayer fuel shapes lid st with
    | .error e => .error e
    | .ok st' => allocAll fuel shapes rest st'

/-- Clear every layer's allocation flag. -/
def clearFlags (n : NetImpl) : NetImpl :=
  { n with layers := n.layers.map (fun p => (p.1, { p.2 with flag := false })) }

/-- `Impl::allocateLayers()`: clear flags, take the network input shapes from
layer 0's output blobs (asserting they exist and are nonempty), infer all
shapes, then allocate every layer in id order. -/
def allocLayers (sf : ShapeFn) (fuel : Nat) (st : ASt) : Except NErr ASt :=
  let net₀ := clearFlags st.net
  match mapFind net₀.layers 0 with
  | none => .error .ub
  | some l0 =>
    if l0.outputBlobs = [] then .error .assertErr
    else if ¬ l0.outputBlobs.all (fun m => totalOf m.shp ≠ 0) then .error .assertErr
    else
      match getLayersShapes sf fuel net₀ (l0.outputBlobs.map MatM.shp) with
      | .error e => .error e
      | .ok shapes => allocAll fuel shapes (net₀.layers.map Prod.fst) ({ st with net := net₀ })

/-- `Impl::setUpNet()`: a no-op once `netWasAllocated` is set. -/
def setUpNet (sf : ShapeFn) (fuel : Nat) (st : ASt) : Except NErr ASt :=
  if st.net.netWasAllocated then .ok st
  else
    match allocLayers sf fuel st with
    | .error e => .error e
    | .ok st' =>
      .ok { st' with net := { computeNetOutputLayers st'.net with netWasAllocated := true } }

end Dnn

/-! ## Lemmas and theorems -/

namespace Pb

/-! ### Bit-level helpers -/

theorem and_7f_eq_mod (b : Nat) : b &&& 0x7f = b % 128 := by
  have h : (0x7f : Nat) = 2 ^ 7 - 1 := by norm_num
  rw [h, Nat.and_pow_two_sub_one_eq_mod]

theorem and_80_eq (b : Nat) : b &&& 0x80 = (b.testBit 7).toNat * 128 := by
  have h : (0x80 : Nat) = 2 ^ 7 := by norm_num
  rw [h, Nat.and_two_pow]

theorem and_80_eq_zero_iff (b : Nat) : b &&& 0x80 = 0 ↔ b.testBit 7 = false := by
  rw [and_80_eq]
  cases h : b.testBit 7 <;> simp

theorem lor_shift {res m k : Nat} (h : res < 2 ^ k) :
    res ||| (m <<< k) = res + m * 2 ^ k := by
  apply Nat.eq_of_testBit_eq
  intro i
  rw [Nat.testBit_lor, Nat.testBit_shiftLeft,
    show res + m * 2 ^ k = 2 ^ k * m + res by ring,
    Nat.testBit_mul_pow_two_add m h i]
  by_cases hik : i < k
  · simp [hik, Nat.not_le.mpr hik]
  · have hki : k ≤ i := Nat.not_lt.mp hik
    have : res.testBit i = false :=
      Nat.testBit_lt_two_pow (lt_of_lt_of_le h (Nat.pow_le_pow_right (by norm_num) hki))
    simp [this, hik, hki, GE.ge]

/-! ### Stream-primitive specifications -/

theorem readBinaryN_ok {s : BStream} {bs rest : List Nat} {n : Nat}
    (he : s.eofbit = false) (hf : s.failbit = false)
    (hd : s.data.drop s.pos = bs ++ rest) (hn : bs.length = n) (h0 : 0 < n) :
    readBinaryN n s = .ok (bs, { s with pos := s.pos + n }) := by
  have hlen : s.data.length - s.pos = n + rest.length := by
    have := List.length_drop s.pos s.data
    rw [hd] at this
    simp at this
    omega
  have hpos : s.pos ≤ s.data.length := by
    by_contra hc
    have : s.data.drop s.pos = [] := List.drop_eq_nil_iff.mpr (by omega)
    rw [hd] at this
    have : bs = [] := by
      cases bs with
      | nil => rfl
      | cons a t => simp at this
    omega
  have hle : s.pos + n ≤ s.data.length := by omega
  have htake : (s.data.drop s.pos).take n = bs := by
    rw [hd, ← hn, List.take_left]
  unfold readBinaryN
  rw [he, hf]
  simp only [Bool.or_self, Bool.false_eq_true, if_false]
  rw [if_neg (by omega), if_pos hle, htake]

theorem readBinaryN_end {s : BStream} {n : Nat}
    (he : s.eofbit = false) (hf : s.failbit = false)
    (hd : s.data.length ≤ s.pos) (h0 : 0 < n) :
    readBinaryN n s = .ok ([], { s with eofbit := true, failbit := true }) := by
  unfold readBinaryN
  rw [he, hf]
  simp only [Bool.or_self, Bool.false_eq_true, if_false]
  rw [if_neg (by omega)]
  by_cases hc : s.pos + n ≤ s.data.length
  · omega
  · rw [if_neg hc, if_pos hd]

theorem ignoreN_ok {s : BStream} {n : Int}
    (he : s.eofbit = false) (hf : s.failbit = false) (h0 : 0 < n)
    (hle : (s.pos : Int) + n ≤ (s.data.length : Int)) :
    ignoreN n s = { s with pos := s.pos + n.toNat } := by
  unfold ignoreN
  rw [he, hf]
  simp only [Bool.or_self, Bool.false_eq_true, if_false]
  rw [if_neg (by omega), if_pos hle]

theorem tellg_clean {s : BStream} (hf : s.failbit = false) : tellg s = (s.pos : Int) := by
  unfold tellg
  rw [hf]
  simp

end Pb

namespace Pb


end Pb

namespace Pb

theorem isVarintB_single {b : Nat} : IsVarintB [b] ↔ b < 256 ∧ b &&& 0x80 = 0 := by
  simp [IsVarintB]

theorem isVarintB_cons {b c : Nat} {rest : List Nat} :
    IsVarintB (b :: c :: rest) ↔ b < 256 ∧ b &&& 0x80 ≠ 0 ∧ IsVarintB (c :: rest) := by
  simp [IsVarintB]

theorem isVarintB_ne_nil {p : List Nat} (h : IsVarintB p) : p ≠ [] := by
  intro hc
  rw [hc] at h
  simp [IsVarintB] at h

theorem varintLoop_succ (iters bytesRead res byte : Nat) (s : BStream) :
    varintLoop (iters + 1) bytesRead res byte s =
      (if byte &&& 0x80 = 0 then
        .ok (res ||| ((byte &&& 0x7f) <<< (7 * bytesRead)), bytesRead + 1, byte, false, s)
      else
        match readBinaryN 1 s with
        | .error e => .error e
        | .ok ([], _) => .error (.parseErr "Unexpected end of file")
        | .ok (b :: _, s') => varintLoop iters (bytesRead + 1)
            (res ||| ((byte &&& 0x7f) <<< (7 * bytesRead))) b s') := rfl

theorem varintLoop_fits : ∀ (p : List Nat) (b k res : Nat) (s : BStream) (rest : List Nat),
    s.eofbit = false → s.failbit = false →
    IsVarintB (b :: p) → k + p.length + 1 ≤ 9 → res < 2 ^ (7 * k) →
    s.data.drop s.pos = p ++ rest →
    ∃ lb, varintLoop (9 - k) k res b s =
      .ok (res + 2 ^ (7 * k) * varintValB (b :: p), k + p.length + 1, lb, false,
        { s with pos := s.pos + p.length }) := by
  intro p
  induction p with
  | nil =>
    intro b k res s rest he hf hb hk hres _
    obtain ⟨hb256, hb80⟩ := isVarintB_single.mp hb
    obtain ⟨j, hj⟩ : ∃ j, 9 - k = j + 1 := ⟨8 - k, by omega⟩
    refine ⟨b, ?_⟩
    rw [hj, varintLoop_succ, if_pos hb80, lor_shift hres]
    have hval : varintValB [b] = b &&& 0x7f := by simp [varintValB]
    rw [hval]
    have hs : ({ s with pos := s.pos + 0 } : BStream) = s := by simp
    simp only [List.length_nil, Nat.add_zero, hs]
    congr 2
    ring
  | cons c p' ih =>
    intro b k res s rest he hf hb hk hres hd
    obtain ⟨hb256, hb80, hrest⟩ := isVarintB_cons.mp hb
    obtain ⟨j, hj⟩ : ∃ j, 9 - k = j + 1 := ⟨8 - k, by omega⟩
    rw [hj, varintLoop_succ, if_neg hb80]
    have hread : readBinaryN 1 s = .ok ([c], { s with pos := s.pos + 1 }) :=
      readBinaryN_ok he hf (by rw [hd]; rfl) rfl (by norm_num)
    rw [hread]
    have hres' : res ||| ((b &&& 0x7f) <<< (7 * k)) = res + (b &&& 0x7f) * 2 ^ (7 * k) :=
      lor_shift hres
    have hlt : res + (b &&& 0x7f) * 2 ^ (7 * k) < 2 ^ (7 * (k + 1)) := by
      have h1 : b &&& 0x7f < 128 := by rw [and_7f_eq_mod]; omega
      have h2 : 2 ^ (7 * (k + 1)) = 2 ^ (7 * k) * 128 := by
        rw [show 7 * (k + 1) = 7 * k + 7 by ring, pow_add]
        norm_num
      nlinarith
    have hd' : ({ s with pos := s.pos + 1 } : BStream).data.drop
        ({ s with pos := s.pos + 1 } : BStream).pos = p' ++ rest := by
      show s.data.drop (s.pos + 1) = p' ++ rest
      rw [← List.drop_drop, hd]
      rfl
    obtain ⟨lb, hloop⟩ := ih c (k + 1) _ ({ s with pos := s.pos + 1 }) rest he hf hrest
      (by simp at hk ⊢; omega) (hres' ▸ hlt) hd'
    have hj2 : j = 9 - (k + 1) := by omega
    rw [hj2]
    refine ⟨lb, ?_⟩
    change varintLoop (9 - (k + 1)) (k + 1) (res ||| ((b &&& 0x7f) <<< (7 * k))) c
      ({ s with pos := s.pos + 1 }) = _
    rw [hres'] at hloop ⊢
    rw [hloop]
    have hval : varintValB (b :: c :: p') = (b &&& 0x7f) + 128 * varintValB (c :: p') := rfl
    congr 2
    all_goals first
      | (rw [hval, show 7 * (k + 1) = 7 * k + 7 by ring, pow_add]; ring)
      | (simp; omega)

end Pb

namespace Pb

/-- The overflow case: 10 varint bytes; the loop exhausts its 9 iterations with
the terminator byte read but unprocessed (its data bits are discarded). -/
theorem varintLoop_ten : ∀ (p : List Nat) (b k res : Nat) (s : BStream) (rest : List Nat),
    s.eofbit = false → s.failbit = false →
    IsVarintB (b :: p) → k + p.length + 1 = 10 → res < 2 ^ (7 * k) →
    s.data.drop s.pos = p ++ rest →
    ∃ lb, lb &&& 0x80 = 0 ∧ varintLoop (9 - k) k res b s =
      .ok (res + 2 ^ (7 * k) * varintValB ((b :: p).dropLast), 9, lb, true,
        { s with pos := s.pos + p.length }) := by
  intro p
  induction p with
  | nil =>
    intro b k res s rest he hf hb hk hres _
    obtain ⟨hb256, hb80⟩ := isVarintB_single.mp hb
    have hk9 : k = 9 := by simp at hk; omega
    subst hk9
    refine ⟨b, hb80, ?_⟩
    show Except.ok (res, 9, b, true, s) = _
    have hs : ({ s with pos := s.pos + 0 } : BStream) = s := by simp
    simp [List.dropLast_single, varintValB, hs]
  | cons c p' ih =>
    intro b k res s rest he hf hb hk hres hd
    obtain ⟨hb256, hb80, hrest⟩ := isVarintB_cons.mp hb
    obtain ⟨j, hj⟩ : ∃ j, 9 - k = j + 1 := ⟨8 - k, by simp at hk; omega⟩
    rw [hj, varintLoop_succ, if_neg hb80]
    have hread : readBinaryN 1 s = .ok ([c], { s with pos := s.pos + 1 }) :=
      readBinaryN_ok he hf (by rw [hd]; rfl) rfl (by norm_num)
    rw [hread]
    have hres' : res ||| ((b &&& 0x7f) <<< (7 * k)) = res + (b &&& 0x7f) * 2 ^ (7 * k) :=
      lor_shift hres
    have hlt : res + (b &&& 0x7f) * 2 ^ (7 * k) < 2 ^ (7 * (k + 1)) := by
      have h1 : b &&& 0x7f < 128 := by rw [and_7f_eq_mod]; omega
      have h2 : 2 ^ (7 * (k + 1)) = 2 ^ (7 * k) * 128 := by
        rw [show 7 * (k + 1) = 7 * k + 7 by ring, pow_add]
        norm_num
      nlinarith
    have hd' : ({ s with pos := s.pos + 1 } : BStream).data.drop
        ({ s with pos := s.pos + 1 } : BStream).pos = p' ++ rest := by
      show s.data.drop (s.pos + 1) = p' ++ rest
      rw [← List.drop_drop, hd]
      rfl
    obtain ⟨lb, hlb, hloop⟩ := ih c (k + 1) _ ({ s with pos := s.pos + 1 }) rest he hf hrest
      (by simp at hk ⊢; omega) (hres' ▸ hlt) hd'
    have hj2 : j = 9 - (k + 1) := by simp at hk; omega
    rw [hj2]
    refine ⟨lb, hlb, ?_⟩
    change varintLoop (9 - (k + 1)) (k + 1) (res ||| ((b &&& 0x7f) <<< (7 * k))) c
      ({ s with pos := s.pos + 1 }) = _
    rw [hres'] at hloop ⊢
    rw [hloop]
    have hdl : (b :: c :: p').dropLast = b :: (c :: p').dropLast := List.dropLast_cons₂
    have hval : varintValB (b :: (c :: p').dropLast) =
        (b &&& 0x7f) + 128 * varintValB ((c :: p').dropLast) := rfl
    congr 2
    all_goals first
      | (rw [hdl, hval, show 7 * (k + 1) = 7 * k + 7 by ring, pow_add]; ring)
      | (simp; omega)

/-- The truncation case: every remaining byte carries the continuation bit and
the stream ends, within the loop's iteration budget. -/
theorem varintLoop_eof : ∀ (p : List Nat) (b k res : Nat) (s : BStream),
    s.eofbit = false → s.failbit = false →
    b &&& 0x80 ≠ 0 → (∀ x ∈ p, x &&& 0x80 ≠ 0) →
    k + p.length + 1 ≤ 9 →
    s.data.drop s.pos = p →
    varintLoop (9 - k) k res b s = .error (.parseErr "Unexpected end of file") := by
  intro p
  induction p with
  | nil =>
    intro b k res s he hf hb80 _ hk hd
    obtain ⟨j, hj⟩ : ∃ j, 9 - k = j + 1 := ⟨8 - k, by omega⟩
    rw [hj, varintLoop_succ, if_neg hb80]
    have hend : s.data.length ≤ s.pos := by
      have := List.drop_eq_nil_iff.mp hd
      omega
    rw [readBinaryN_end he hf hend (by norm_num)]
  | cons c p' ih =>
    intro b k res s he hf hb80 hall hk hd
    obtain ⟨j, hj⟩ : ∃ j, 9 - k = j + 1 := ⟨8 - k, by simp at hk; omega⟩
    rw [hj, varintLoop_succ, if_neg hb80]
    have hread : readBinaryN 1 s = .ok ([c], { s with pos := s.pos + 1 }) :=
      readBinaryN_ok he hf (by rw [hd]; rfl) rfl (by norm_num)
    rw [hread]
    have hd' : ({ s with pos := s.pos + 1 } : BStream).data.drop
        ({ s with pos := s.pos + 1 } : BStream).pos = p' := by
      show s.data.drop (s.pos + 1) = p'
      rw [← List.drop_drop, hd]
      rfl
    have hj2 : j = 9 - (k + 1) := by simp at hk; omega
    rw [hj2]
    change varintLoop (9 - (k + 1)) (k + 1) (res ||| ((b &&& 0x7f) <<< (7 * k))) c
      ({ s with pos := s.pos + 1 }) = _
    exact ih c (k + 1) _ _ he hf (hall c (by simp)) (fun x hx => hall x (by simp [hx]))
      (by simp at hk ⊢; omega) hd'

/-- `readVarint` on well-formed varint bytes of length ≤ 10: consumes exactly
them; the value collects 7 bits from each of the first nine bytes (a tenth
byte's data bits are discarded by the C++ loop bound), truncated by the
`memcpy` width. -/
theorem readVarint_spec {maxB : Nat} (hmax : maxB ≤ 8) {p rest : List Nat} {s : BStream}
    (hp : IsVarintB p) (hlen : p.length ≤ 10)
    (he : s.eofbit = false) (hf : s.failbit = false)
    (hd : s.data.drop s.pos = p ++ rest) :
    readVarint maxB s = .ok (varintValB (p.take 9) % 2 ^ (8 * maxB), p.length,
      { s with pos := s.pos + p.length }) := by
  obtain ⟨b, p', rfl⟩ : ∃ b p', p = b :: p' := by
    cases p with
    | nil => exact absurd rfl (isVarintB_ne_nil hp)
    | cons b p' => exact ⟨b, p', rfl⟩
  have hread : readBinaryN 1 s = .ok ([b], { s with pos := s.pos + 1 }) :=
    readBinaryN_ok he hf (by rw [hd]; rfl) rfl (by norm_num)
  have hd' : ({ s with pos := s.pos + 1 } : BStream).data.drop
      ({ s with pos := s.pos + 1 } : BStream).pos = p' ++ rest := by
    show s.data.drop (s.pos + 1) = p' ++ rest
    rw [← List.drop_drop, hd]
    rfl
  have hmatch : readVarint maxB s =
      (match varintLoop (9 - 0) 0 0 b ({ s with pos := s.pos + 1 }) with
       | .error e => .error e
       | .ok (res, bytesRead, byte, rnb, s₂) =>
         if rnb then
           if byte &&& 0x80 = 0 then .ok (res % 2 ^ (8 * maxB), bytesRead + 1, s₂)
           else .error .assertErr
         else .ok (res % 2 ^ (8 * maxB), bytesRead, s₂)) := by
    unfold readVarint
    rw [if_neg (by omega), hread]
  rw [hmatch]
  by_cases hcase : p'.length + 1 ≤ 9
  · obtain ⟨lb, hloop⟩ := varintLoop_fits p' b 0 0 ({ s with pos := s.pos + 1 }) rest
      he hf hp (by omega) (by norm_num) hd'
    rw [hloop]
    have htake : (b :: p').take 9 = b :: p' := List.take_of_length_le (by simp; omega)
    have hpos : s.pos + 1 + p'.length = s.pos + (p'.length + 1) := by omega
    simp [htake, hpos]
  · have hten : p'.length + 1 = 10 := by simp at hlen; omega
    obtain ⟨lb, hlb, hloop⟩ := varintLoop_ten p' b 0 0 ({ s with pos := s.pos + 1 }) rest
      he hf hp (by omega) (by norm_num) hd'
    rw [hloop]
    have htake : (b :: p').take 9 = (b :: p').dropLast := by
      rw [List.dropLast_eq_take]
      congr 1
      simp
      omega
    have hpos : s.pos + 1 + p'.length = s.pos + (b :: p').length := by simp; omega
    have hcnt : (b :: p').length = 9 + 1 := by simp; omega
    simp [hlb, htake, hpos, hcnt]

/-- `readVarint` on a stream that ends inside a varint (1–9 continuation bytes
then EOF) raises `ParseError("Unexpected end of file")`. -/
theorem readVarint_eof {maxB : Nat} (hmax : maxB ≤ 8) {p : List Nat} {s : BStream}
    (hne : p ≠ []) (hlen : p.length ≤ 9) (hcont : ∀ b ∈ p, b &&& 0x80 ≠ 0)
    (he : s.eofbit = false) (hf : s.failbit = false)
    (hd : s.data.drop s.pos = p) :
    readVarint maxB s = .error (.parseErr "Unexpected end of file") := by
  obtain ⟨b, p', rfl⟩ : ∃ b p', p = b :: p' := by
    cases p with
    | nil => exact absurd rfl hne
    | cons b p' => exact ⟨b, p', rfl⟩
  have hread : readBinaryN 1 s = .ok ([b], { s with pos := s.pos + 1 }) :=
    readBinaryN_ok he hf (by rw [hd]; rfl) rfl (by norm_num)
  have hd' : ({ s with pos := s.pos + 1 } : BStream).data.drop
      ({ s with pos := s.pos + 1 } : BStream).pos = p' := by
    show s.data.drop (s.pos + 1) = p'
    rw [← List.drop_drop, hd]
    rfl
  have hmatch : readVarint maxB s =
      (match varintLoop (9 - 0) 0 0 b ({ s with pos := s.pos + 1 }) with
       | .error e => .error e
       | .ok (res, bytesRead, byte, rnb, s₂) =>
         if rnb then
           if byte &&& 0x80 = 0 then .ok (res % 2 ^ (8 * maxB), bytesRead + 1, s₂)
           else .error .assertErr
         else .ok (res % 2 ^ (8 * maxB), bytesRead, s₂)) := by
    unfold readVarint
    rw [if_neg (by omega), hread]
  rw [hmatch]
  rw [varintLoop_eof p' b 0 0 ({ s with pos := s.pos + 1 }) he hf (hcont b (by simp))
    (fun x hx => hcont x (by simp [hx])) (by simp at hlen ⊢; omega) hd']

end Pb

namespace Pb

theorem readBinaryN_inv {n : Nat} {s s' : BStream} {bs : List Nat}
    (h : readBinaryN n s = .ok (bs, s')) : s'.pos ≤ s.pos + n ∧ s'.data = s.data := by
  unfold readBinaryN at h
  split_ifs at h with h1 h2 h3 h4
  · simp only [Except.ok.injEq, Prod.mk.injEq] at h
    obtain ⟨-, h6⟩ := h
    subst h6
    exact ⟨by simp, rfl⟩
  · simp only [Except.ok.injEq, Prod.mk.injEq] at h
    obtain ⟨-, h6⟩ := h
    subst h6
    exact ⟨by omega, rfl⟩
  · simp only [Except.ok.injEq, Prod.mk.injEq] at h
    obtain ⟨-, h6⟩ := h
    subst h6
    exact ⟨by simp, rfl⟩
  · simp only [Except.ok.injEq, Prod.mk.injEq] at h
    obtain ⟨-, h6⟩ := h
    subst h6
    exact ⟨by simp, rfl⟩

theorem varintLoop_consumed : ∀ (iters k res byte : Nat) (s : BStream)
    (res' k' b' : Nat) (rnb : Bool) (s' : BStream),
    varintLoop iters k res byte s = .ok (res', k', b', rnb, s') →
    (rnb = true → k' ≤ k + iters) ∧ k' ≤ k + iters + 1 ∧ s'.pos ≤ s.pos + iters := by
  intro iters
  induction iters with
  | zero =>
    intro k res byte s res' k' b' rnb s' h
    simp only [varintLoop, Except.ok.injEq, Prod.mk.injEq] at h
    obtain ⟨-, h2, -, h4, h5⟩ := h
    subst h2
    subst h5
    exact ⟨fun _ => by omega, by omega, by omega⟩
  | succ i ih =>
    intro k res byte s res' k' b' rnb s' h
    rw [varintLoop_succ] at h
    by_cases hb : byte &&& 0x80 = 0
    · rw [if_pos hb] at h
      simp only [Except.ok.injEq, Prod.mk.injEq] at h
      obtain ⟨-, hk, -, hrnb, hs⟩ := h
      subst hk
      subst hs
      subst hrnb
      exact ⟨fun hc => by simp at hc, by omega, by omega⟩
    · rw [if_neg hb] at h
      cases hr : readBinaryN 1 s with
      | error e => rw [hr] at h; exact absurd h (by simp)
      | ok out =>
        obtain ⟨bsr, s₁⟩ := out
        rw [hr] at h
        cases bsr with
        | nil => exact absurd h (by simp)
        | cons b2 tl =>
          have hinv := readBinaryN_inv hr
          have := ih (k + 1) _ b2 s₁ res' k' b' rnb s' h
          refine ⟨fun hc => ?_, ?_, ?_⟩
          · have := this.1 hc
            omega
          · omega
          · omega

theorem readVarint_consumed {maxB : Nat} {s s' : BStream} {v n : Nat}
    (h : readVarint maxB s = .ok (v, n, s')) : n ≤ 10 ∧ s'.pos ≤ s.pos + 10 := by
  unfold readVarint at h
  by_cases hm : 8 < maxB
  · rw [if_pos hm] at h
    exact absurd h (by simp)
  · rw [if_neg hm] at h
    cases hr : readBinaryN 1 s with
    | error e => rw [hr] at h; exact absurd h (by simp)
    | ok out =>
      obtain ⟨bsr, s₁⟩ := out
      have hinv := readBinaryN_inv hr
      rw [hr] at h
      cases bsr with
      | nil =>
        have h' : (Except.ok (0, 0, s₁) : Except RErr (Nat × Nat × BStream)) =
            .ok (v, n, s') := h
        simp only [Except.ok.injEq, Prod.mk.injEq] at h'
        obtain ⟨-, hn, hs⟩ := h'
        subst hn
        subst hs
        exact ⟨by omega, by omega⟩
      | cons b tl =>
        have h' : (match varintLoop 9 0 0 b s₁ with
            | .error e => (.error e : Except RErr (Nat × Nat × BStream))
            | .ok (res, bytesRead, byte, rnb, s₂) =>
              if rnb then
                if byte &&& 0x80 = 0 then .ok (res % 2 ^ (8 * maxB), bytesRead + 1, s₂)
                else .error .assertErr
              else .ok (res % 2 ^ (8 * maxB), bytesRead, s₂)) = .ok (v, n, s') := h
        cases hl : varintLoop 9 0 0 b s₁ with
        | error e => rw [hl] at h'; exact absurd h' (by simp)
        | ok out2 =>
          obtain ⟨res, k', b', rnb, s₂⟩ := out2
          have hc := varintLoop_consumed 9 0 0 b s₁ res k' b' rnb s₂ hl
          rw [hl] at h'
          cases rnb with
          | true =>
            by_cases hb : b' &&& 0x80 = 0
            · simp only [if_pos hb, if_pos] at h'
              have h'' : (Except.ok (res % 2 ^ (8 * maxB), k' + 1, s₂) :
                  Except RErr (Nat × Nat × BStream)) = .ok (v, n, s') := h'
              simp only [Except.ok.injEq, Prod.mk.injEq] at h''
              obtain ⟨-, hn, hs⟩ := h''
              subst hn
              subst hs
              have := hc.1 rfl
              omega
            · have h'' : (Except.error RErr.assertErr :
                  Except RErr (Nat × Nat × BStream)) = .ok (v, n, s') := by
                rw [← h']
                simp [hb]
              exact absurd h'' (by simp)
          | false =>
            have h'' : (Except.ok (res % 2 ^ (8 * maxB), k', s₂) :
                Except RErr (Nat × Nat × BStream)) = .ok (v, n, s') := h'
            simp only [Except.ok.injEq, Prod.mk.injEq] at h''
            obtain ⟨-, hn, hs⟩ := h''
            subst hn
            subst hs
            omega

end Pb

namespace Pb

/-- C2 — counterexample.  The stream of ten `0x80` bytes ends while the
continuation bit of the last byte read is still set, yet `readVarint` fails
with the `CV_Assert(!read_next_byte)` assertion (`StsAssert`), not with
`ParseError("Unexpected end of file")`: the claim's error clause is false as
stated. -/
theorem c2_counterexample :
    (∀ b ∈ List.replicate 10 0x80, b &&& 0x80 ≠ 0) ∧
    readVarint 8 ⟨List.replicate 10 0x80, 0, false, false⟩ = .error .assertErr ∧
    (∀ msg, (RErr.assertErr : RErr) ≠ .parseErr msg) := by
  refine ⟨by decide, rfl, fun msg h => RErr.noConfusion h⟩

/-- C2 (amended): varint decoding reads at most 10 bytes, 7 data bits per byte
with the top bit as continuation marker; the single byte `0x00` decodes to 0; a
10-byte encoding of `2^63 − 1` decodes to `2^63 − 1`; a stream that ends within
the first nine bytes while the continuation bit of the last byte read is set
fails with `ParseError("Unexpected end of file")`; but when a tenth byte is
read and its continuation bit is still set, the failure is the
`CV_Assert(!read_next_byte)` assertion instead of a `ParseError`. -/
theorem c2_varint_decoding :
    (∀ (maxB : Nat) (s : BStream) (v n : Nat) (s' : BStream),
      readVarint maxB s = .ok (v, n, s') → n ≤ 10 ∧ s'.pos ≤ s.pos + 10) ∧
    readVarint 8 ⟨[0x00], 0, false, false⟩ = .ok (0, 1, ⟨[0x00], 1, false, false⟩) ∧
    readVarint 8 ⟨[0xFF, 0xFF, 0xFF, 0xFF, 0xFF, 0xFF, 0xFF, 0xFF, 0xFF, 0x00], 0, false, false⟩ =
      .ok (2 ^ 63 - 1, 10,
        ⟨[0xFF, 0xFF, 0xFF, 0xFF, 0xFF, 0xFF, 0xFF, 0xFF, 0xFF, 0x00], 10, false, false⟩) ∧
    (∀ (pre p : List Nat) (maxB : Nat), maxB ≤ 8 → p ≠ [] → p.length ≤ 9 →
      (∀ b ∈ p, b &&& 0x80 ≠ 0) →
      readVarint maxB ⟨pre ++ p, pre.length, false, false⟩ =
        .error (.parseErr "Unexpected end of file")) ∧
    readVarint 8 ⟨List.replicate 10 0x80, 0, false, false⟩ = .error .assertErr := by
  refine ⟨fun maxB s v n s' h => readVarint_consumed h, rfl, rfl, ?_, rfl⟩
  intro pre p maxB h1 h2 h3 h4
  exact readVarint_eof h1 h2 h3 h4 rfl rfl (List.drop_left pre p)

theorem c2_varint_decoding_witness :
    ((1 : Nat) ≤ 10 ∧ (1 : Nat) ≤ 0 + 10) ∧
    readVarint 8 ⟨[0x81, 0x80], 0, false, false⟩ =
      .error (.parseErr "Unexpected end of file") :=
  ⟨c2_varint_decoding.1 8 ⟨[0x00], 0, false, false⟩ 0 1 ⟨[0x00], 1, false, false⟩ rfl,
   c2_varint_decoding.2.2.2.1 [] [0x81, 0x80] 8 (by norm_num) (by simp) (by simp)
     (by decide)⟩

/-- C3 — counterexample.  On the wire bytes `80 01` a bool field read
(`readBinary` of `sizeof(bool)` = 1 byte) consumes 1 byte, while decoding a
varint there consumes 2 bytes: a bool field is not decoded as a varint. -/
theorem c3_counterexample :
    readScalar .boolT ⟨[0x80, 0x01], 0, false, false⟩ =
      .ok (0x80, ⟨[0x80, 0x01], 1, false, false⟩) ∧
    readVarint (PType.boolT).width ⟨[0x80, 0x01], 0, false, false⟩ =
      .ok (0x80, 2, ⟨[0x80, 0x01], 2, false, false⟩) ∧
    (1 : Nat) ≠ 2 :=
  ⟨rfl, rfl, by decide⟩

/-- C3 (amended): a binary scalar read decodes a varint for the integer types
`i32`/`u32`/`i64`/`u64`, a 4-byte fixed read for `f32`, an 8-byte fixed read
for `f64` — and for `bool` a fixed single-byte raw read (`readBinary` of
`sizeof(bool)`), not a varint decode; a successful bool read consumes exactly
one byte, the size of the canonical varint encoding of a bool value. -/
theorem c3_scalar_reads :
    (∀ (t : PType), (t = .i32 ∨ t = .u32 ∨ t = .i64 ∨ t = .u64) →
      ∀ (s : BStream) (p rest : List Nat), IsVarintB p → p.length ≤ 10 →
      s.eofbit = false → s.failbit = false → s.data.drop s.pos = p ++ rest →
      readScalar t s = .ok (varintValB (p.take 9) % 2 ^ (8 * t.width),
        { s with pos := s.pos + p.length })) ∧
    (∀ (s : BStream) (bs rest : List Nat), bs.length = 4 →
      s.eofbit = false → s.failbit = false → s.data.drop s.pos = bs ++ rest →
      readScalar .f32 s = .ok (bytesLE bs, { s with pos := s.pos + 4 })) ∧
    (∀ (s : BStream) (bs rest : List Nat), bs.length = 8 →
      s.eofbit = false → s.failbit = false → s.data.drop s.pos = bs ++ rest →
      readScalar .f64 s = .ok (bytesLE bs, { s with pos := s.pos + 8 })) ∧
    (∀ (s : BStream) (b : Nat) (rest : List Nat),
      s.eofbit = false → s.failbit = false → s.data.drop s.pos = b :: rest →
      readScalar .boolT s = .ok (b, { s with pos := s.pos + 1 })) := by
  refine ⟨?_, ?_, ?_, ?_⟩
  · intro t ht s p rest hp hlen he hf hd
    have hw : t.isVarint = true := by
      rcases ht with rfl | rfl | rfl | rfl <;> rfl
    have hmax : t.width ≤ 8 := by
      rcases ht with rfl | rfl | rfl | rfl <;> norm_num [PType.width]
    unfold readScalar
    rw [hw]
    simp only [if_pos]
    rw [readVarint_spec hmax hp hlen he hf hd]
  · intro s bs rest hlen he hf hd
    unfold readScalar
    have hread : readBinaryN 4 s = .ok (bs, { s with pos := s.pos + 4 }) :=
      readBinaryN_ok he hf hd hlen (by norm_num)
    show (match readBinaryN 4 s with
      | Except.error e => (Except.error e : Except RErr (Nat × BStream))
      | Except.ok ([], s') => Except.ok (0, s')
      | Except.ok (bs, s') => Except.ok (bytesLE bs, s')) = _
    rw [hread]
    cases bs with
    | nil => simp at hlen
    | cons x xs => rfl
  · intro s bs rest hlen he hf hd
    unfold readScalar
    have hread : readBinaryN 8 s = .ok (bs, { s with pos := s.pos + 8 }) :=
      readBinaryN_ok he hf hd hlen (by norm_num)
    show (match readBinaryN 8 s with
      | Except.error e => (Except.error e : Except RErr (Nat × BStream))
      | Except.ok ([], s') => Except.ok (0, s')
      | Except.ok (bs, s') => Except.ok (bytesLE bs, s')) = _
    rw [hread]
    cases bs with
    | nil => simp at hlen
    | cons x xs => rfl
  · intro s b rest he hf hd
    unfold readScalar
    have hread : readBinaryN 1 s = .ok ([b], { s with pos := s.pos + 1 }) :=
      readBinaryN_ok he hf (by rw [hd]; rfl) rfl (by norm_num)
    show (match readBinaryN 1 s with
      | Except.error e => (Except.error e : Except RErr (Nat × BStream))
      | Except.ok ([], s') => Except.ok (0, s')
      | Except.ok (bs, s') => Except.ok (bytesLE bs, s')) = _
    rw [hread]
    show Except.ok (bytesLE [b], _) = _
    simp [bytesLE]

theorem c3_scalar_reads_witness :
    readScalar .i32 ⟨[0x96, 0x01], 0, false, false⟩ =
      .ok (150, ⟨[0x96, 0x01], 2, false, false⟩) ∧
    readScalar .f32 ⟨[1, 2, 3, 4], 0, false, false⟩ =
      .ok (0x04030201, ⟨[1, 2, 3, 4], 4, false, false⟩) ∧
    readScalar .boolT ⟨[1], 0, false, false⟩ = .ok (1, ⟨[1], 1, false, false⟩) := by
  refine ⟨?_, ?_, ?_⟩
  · have h := c3_scalar_reads.1 .i32 (Or.inl rfl) ⟨[0x96, 0x01], 0, false, false⟩
      [0x96, 0x01] [] (by decide) (by decide) rfl rfl rfl
    simpa using h
  · have h := c3_scalar_reads.2.1 ⟨[1, 2, 3, 4], 0, false, false⟩ [1, 2, 3, 4] []
      rfl rfl rfl rfl
    simpa using h
  · have h := c3_scalar_reads.2.2.2 ⟨[1], 0, false, false⟩ 1 [] rfl rfl rfl
    simpa using h

/-- C5 — the code at the failing input.  Reading a packed field whose declared
payload length is 0: for the varint element types the loop body never runs and
the result is the empty list; but for the fixed-width element types `f32`,
`f64` and `bool` the guard `CV_Assert(readBinary(s, &begin, numBytes))` fails,
because a zero-byte `readBinary` returns 0 — the parse aborts instead of
yielding an empty list. -/
theorem c5_packed_length_zero :
    readPack 9 .f32 ⟨[0x00], 0, false, false⟩ = .error .assertErr ∧
    readPack 9 .f64 ⟨[0x00], 0, false, false⟩ = .error .assertErr ∧
    readPack 9 .boolT ⟨[0x00], 0, false, false⟩ = .error .assertErr ∧
    readPack 9 .i32 ⟨[0x00], 0, false, false⟩ = .ok ([], ⟨[0x00], 1, false, false⟩) ∧
    readPack 9 .u32 ⟨[0x00], 0, false, false⟩ = .ok ([], ⟨[0x00], 1, false, false⟩) ∧
    readPack 9 .i64 ⟨[0x00], 0, false, false⟩ = .ok ([], ⟨[0x00], 1, false, false⟩) ∧
    readPack 9 .u64 ⟨[0x00], 0, false, false⟩ = .ok ([], ⟨[0x00], 1, false, false⟩) :=
  ⟨rfl, rfl, rfl, rfl, rfl, rfl, rfl⟩

end Pb

namespace Pb

/-- C4 — counterexample.  An embedded message whose declared byte length runs
past the end of the stream: the key loop breaks on EOF and the final
`CV_Assert(!isEmbedded || s.eof() || tellg == msgEnd)` passes through its
`s.eof()` disjunct, so the read returns normally with the stream position (2)
different from the end offset (2 + 5 = 7) and no error is raised. -/
theorem c4_counterexample :
    msgReadB 3 [] [] ⟨[0, 5], 1, false, false⟩ = .ok ([], ⟨[0, 5], 2, true, true⟩) ∧
    readVarint 4 ⟨[0, 5], 1, false, false⟩ = .ok (5, 1, ⟨[0, 5], 2, false, false⟩) ∧
    (2 : Int) ≠ 2 + 5 :=
  ⟨rfl, rfl, by decide⟩

/-- C4 (amended): for every embedded (non-top-level) message, the binary read
first consumes a varint byte length and computes an end offset; at a normal
return either the stream position equals that end offset exactly or the stream
has reached end-of-file; a mismatch with the stream not at EOF fails the final
`CV_Assert` (an assertion error, not a `ParseError`). -/
theorem c4_embedded_end_offset :
    ∀ (fuel : Nat) (ds : List (Int × String × PField)) (prior : RF) (s : BStream)
      (rf : RF) (s' : BStream),
      tellg s ≠ 0 → msgReadB fuel ds prior s = .ok (rf, s') →
      ∃ (v n : Nat) (s₁ : BStream), readVarint 4 s = .ok (v, n, s₁) ∧
        (s'.eofbit = true ∨ tellg s' = tellg s₁ + toInt32 v) := by
  intro fuel ds prior s rf s' hne h
  cases fuel with
  | zero => exact absurd h (by simp [msgReadB])
  | succ f =>
    have h' : (if tellg s ≠ 0 then
        match readVarint 4 s with
        | .error e => (.error e : Except RErr (RF × BStream))
        | .ok (v, _, s₁) =>
          match msgLoop f ds (tellg s₁ + toInt32 v) (rfClear prior) s₁ with
          | .error e => .error e
          | .ok (rf, s₂) =>
            if s₂.eofbit || tellg s₂ = tellg s₁ + toInt32 v then .ok (rf, s₂)
            else .error .assertErr
      else
        match msgLoop f ds INTMAX (rfClear prior) s with
        | .error e => .error e
        | .ok (rf, s₂) => .ok (rf, s₂)) = .ok (rf, s') := h
    rw [if_pos hne] at h'
    cases hv : readVarint 4 s with
    | error e => rw [hv] at h'; exact absurd h' (by simp)
    | ok out =>
      obtain ⟨v, n, s₁⟩ := out
      rw [hv] at h'
      refine ⟨v, n, s₁, rfl, ?_⟩
      have h'' : (match msgLoop f ds (tellg s₁ + toInt32 v) (rfClear prior) s₁ with
          | Except.error e => (Except.error e : Except RErr (RF × BStream))
          | Except.ok (rf, s₂) =>
            if s₂.eofbit || tellg s₂ = tellg s₁ + toInt32 v then Except.ok (rf, s₂)
            else Except.error RErr.assertErr) = .ok (rf, s') := h'
      cases hl : msgLoop f ds (tellg s₁ + toInt32 v) (rfClear prior) s₁ with
      | error e => rw [hl] at h''; exact absurd h'' (by simp)
      | ok out2 =>
        obtain ⟨rf₂, s₂⟩ := out2
        rw [hl] at h''
        have h3 : (if s₂.eofbit || tellg s₂ = tellg s₁ + toInt32 v then Except.ok (rf₂, s₂)
            else (Except.error RErr.assertErr : Except RErr (RF × BStream))) =
            .ok (rf, s') := h''
        by_cases hcond : (s₂.eofbit || tellg s₂ = tellg s₁ + toInt32 v) = true
        · rw [if_pos hcond] at h3
          simp only [Except.ok.injEq, Prod.mk.injEq] at h3
          obtain ⟨-, hs⟩ := h3
          subst hs
          rcases Bool.or_eq_true_iff.mp hcond with h1 | h1
          · exact Or.inl h1
          · exact Or.inr (of_decide_eq_true h1)
        · rw [if_neg hcond] at h3
          exact absurd h3 (by simp)

theorem c4_embedded_end_offset_witness :
    ∃ (v n : Nat) (s₁ : BStream),
      readVarint 4 ⟨[0, 3, 8, 0x96, 1], 1, false, false⟩ = .ok (v, n, s₁) ∧
      ((⟨[0, 3, 8, 0x96, 1], 5, false, false⟩ : BStream).eofbit = true ∨
        tellg ⟨[0, 3, 8, 0x96, 1], 5, false, false⟩ = tellg s₁ + toInt32 v) :=
  c4_embedded_end_offset 9 [(1, "x", .scalar .i32)] [] ⟨[0, 3, 8, 0x96, 1], 1, false, false⟩
    [("x", [.scalarI .i32 150])] ⟨[0, 3, 8, 0x96, 1], 5, false, false⟩ (by decide) rfl

/-- C10: both read entry points clear the previously read field instances
before parsing, so the parse outcome does not depend on any prior
`readFields` state; in particular parsing `s₁` and then `s₂` leaves the
message in exactly the state produced by parsing `s₂` alone. -/
theorem c10_reparse_independent :
    (∀ (fuel : Nat) (ds : List (Int × String × PField)) (prior prior' : RF) (s : BStream),
      msgReadB fuel ds prior s = msgReadB fuel ds prior' s) ∧
    (∀ (sv : SVal) (fuel : Nat) (ds : List (Int × String × PField)) (prior prior' : RF)
      (toks : List String),
      textMsgRead sv fuel ds prior toks = textMsgRead sv fuel ds prior' toks) ∧
    (∀ (fuel₁ fuel₂ : Nat) (ds : List (Int × String × PField)) (rf₀ rf₁ : RF)
      (s₁ s₂ : BStream) (out₁ : BStream),
      msgReadB fuel₁ ds rf₀ s₁ = .ok (rf₁, out₁) →
      msgReadB fuel₂ ds rf₁ s₂ = msgReadB fuel₂ ds [] s₂) := by
  refine ⟨fun fuel ds prior prior' s => ?_, fun sv fuel ds prior prior' toks => ?_,
    fun fuel₁ fuel₂ ds rf₀ rf₁ s₁ s₂ out₁ _ => ?_⟩
  · cases fuel <;> rfl
  · cases fuel <;> rfl
  · cases fuel₂ <;> rfl

theorem c10_reparse_independent_witness :
    msgReadB 9 [(1, "x", .scalar .i32)] [("x", [.scalarI .i32 7])] ⟨[8, 1], 0, false, false⟩ =
      msgReadB 9 [(1, "x", .scalar .i32)] [] ⟨[8, 1], 0, false, false⟩ :=
  c10_reparse_independent.2.2 9 9 [(1, "x", .scalar .i32)] [] [("x", [.scalarI .i32 7])]
    ⟨[8, 7], 0, false, false⟩ ⟨[8, 1], 0, false, false⟩ ⟨[8, 7], 2, true, true⟩ rfl

end Pb

namespace Pb

theorem chunksBytes_cons (c : Chunk) (cs : List Chunk) :
    chunksBytes (c :: cs) = c.bytes ++ chunksBytes cs := by
  simp [chunksBytes]

theorem chunksBytes_nil : chunksBytes [] = [] := rfl

theorem foldChunks_cons (ds : List (Int × String × PField)) (acc : RF) (c : Chunk)
    (cs : List Chunk) :
    foldChunks ds acc (c :: cs) = foldChunks ds (applyChunk ds acc c) cs := rfl

theorem foldChunks_append (ds : List (Int × String × PField)) (acc : RF)
    (l₁ l₂ : List Chunk) :
    foldChunks ds acc (l₁ ++ l₂) = foldChunks ds (foldChunks ds acc l₁) l₂ :=
  List.foldl_append _ _ _ _

/-- `parseKey` at end of stream: the varint read sets `eofbit`, the key is left
unset. -/
theorem parseKey_eof {s : BStream} (he : s.eofbit = false) (hf : s.failbit = false)
    (hend : s.data.length ≤ s.pos) :
    parseKey s = .ok (none, { s with eofbit := true, failbit := true }) := by
  have hv : readVarint 4 s = .ok (0, 0, { s with eofbit := true, failbit := true }) := by
    unfold readVarint
    rw [if_neg (by norm_num), readBinaryN_end he hf hend (by norm_num)]
  unfold parseKey
  rw [hv]
  rfl

/-- `parseKey` on a well-formed key varint. -/
theorem parseKey_spec {s : BStream} {kb rest : List Nat}
    (hk : IsVarintB kb) (hl : kb.length ≤ 9) (hv31 : varintValB kb < 2 ^ 31)
    (hv8 : 8 ≤ varintValB kb)
    (hw : varintValB kb % 8 = 0 ∨ varintValB kb % 8 = 1 ∨ varintValB kb % 8 = 2 ∨
      varintValB kb % 8 = 5)
    (he : s.eofbit = false) (hf : s.failbit = false)
    (hd : s.data.drop s.pos = kb ++ rest) :
    parseKey s = .ok (some (((varintValB kb / 8 : Nat) : Int),
      ((varintValB kb % 8 : Nat) : Int)), { s with pos := s.pos + kb.length }) := by
  have hv : readVarint 4 s = .ok (varintValB kb, kb.length, { s with pos := s.pos + kb.length }) := by
    have := readVarint_spec (by norm_num : (4 : Nat) ≤ 8) hk (by omega) he hf hd
    rw [List.take_of_length_le (by omega)] at this
    rw [this]
    congr 1
    have : varintValB kb % 2 ^ (8 * 4) = varintValB kb :=
      Nat.mod_eq_of_lt (by norm_num at hv31 ⊢; omega)
    rw [this]
  have h32 : toInt32 (varintValB kb) = ((varintValB kb : Nat) : Int) := by
    unfold toInt32
    rw [Nat.mod_eq_of_lt (by norm_num at hv31 ⊢; omega), if_pos (by exact_mod_cast hv31)]
  have htag : Int.fdiv ((varintValB kb : Nat) : Int) 8 = ((varintValB kb / 8 : Nat) : Int) := by
    exact_mod_cast (Int.ofNat_fdiv (varintValB kb) 8).symm
  have hwire : ((varintValB kb : Nat) : Int) % 8 = ((varintValB kb % 8 : Nat) : Int) := by
    exact_mod_cast (Int.natCast_mod (varintValB kb) 8).symm
  have h' : parseKey s = (if ({ s with pos := s.pos + kb.length } : BStream).eofbit then
      .ok (none, { s with pos := s.pos + kb.length })
    else
      let key := toInt32 (varintValB kb)
      let tag := Int.fdiv key 8
      let wire := key % 8
      if tag ≤ 0 then .error (.parseErr "Unsupported tag value")
      else if wire ≠ 0 ∧ wire ≠ 1 ∧ wire ≠ 2 ∧ wire ≠ 5 then
        .error (.parseErr "Unsupported wire type")
      else .ok (some (tag, wire), { s with pos := s.pos + kb.length })) := by
    unfold parseKey
    rw [hv]
  rw [h']
  have heof : ({ s with pos := s.pos + kb.length } : BStream).eofbit = false := he
  rw [if_neg (by rw [heof]; simp)]
  simp only [h32, htag, hwire]
  rw [if_neg (by
    have : 1 ≤ varintValB kb / 8 := by omega
    have : (1 : Int) ≤ ((varintValB kb / 8 : Nat) : Int) := by exact_mod_cast this
    omega)]
  rw [if_neg (by
    rcases hw with h | h | h | h <;> rw [h] <;> simp)]

end Pb

namespace Pb

/-- The unknown-field skip consumes exactly a skippable payload: a discarded
varint for wire 0, 8 bytes for wire 1, a varint length `L` then `L` bytes for
wire 2, 4 bytes for wire 5. -/
theorem skipField_spec {wire : Int} {p rest : List Nat} {s : BStream}
    (hw : SkipWF wire p) (he : s.eofbit = false) (hf : s.failbit = false)
    (hd : s.data.drop s.pos = p ++ rest) :
    skipField wire s = .ok ({ s with pos := s.pos + p.length }) := by
  have hlen : p.length + rest.length ≤ s.data.length - s.pos := by
    have := List.length_drop s.pos s.data
    rw [hd] at this
    simp at this
    omega
  rcases hw with ⟨hw0, hp, hl⟩ | ⟨hw1, hp⟩ | ⟨hw2, lb, q, rfl, hlb, hll, hlv, hq⟩ | ⟨hw5, hp⟩
  · subst hw0
    unfold skipField
    rw [if_pos rfl, readVarint_spec (by norm_num) hp hl he hf hd]
  · subst hw1
    unfold skipField
    rw [if_neg (by norm_num), if_pos rfl]
    have hpos : s.pos + (8 : Int).toNat = s.pos + p.length := by
      rw [hp]
      rfl
    rw [ignoreN_ok he hf (by norm_num) (by push_cast; omega), hpos]
  · subst hw2
    unfold skipField
    rw [if_neg (by norm_num), if_neg (by norm_num), if_pos rfl]
    have hd2 : s.data.drop s.pos = lb ++ (q ++ rest) := by rw [hd]; simp
    rw [readVarint_spec (by norm_num) hlb (by omega) he hf hd2]
    have hval : varintValB lb % 2 ^ (8 * 4) = varintValB lb :=
      Nat.mod_eq_of_lt (by norm_num at hlv ⊢; omega)
    have h32 : toInt32 (varintValB (lb.take 9) % 2 ^ (8 * 4)) = ((varintValB lb : Nat) : Int) := by
      rw [List.take_of_length_le (by omega), hval]
      unfold toInt32
      rw [Nat.mod_eq_of_lt (by norm_num at hlv ⊢; omega), if_pos (by exact_mod_cast hlv)]
    show Except.ok (ignoreN (toInt32 (varintValB (lb.take 9) % 2 ^ (8 * 4)))
      ({ s with pos := s.pos + lb.length })) = _
    rw [h32]
    by_cases hz : varintValB lb = 0
    · have hq0 : q = [] := List.eq_nil_of_length_eq_zero (by omega)
      subst hq0
      have : ignoreN ((varintValB lb : Nat) : Int) ({ s with pos := s.pos + lb.length }) =
          { s with pos := s.pos + lb.length } := by
        unfold ignoreN
        rw [hz]
        simp [he, hf]
      rw [this]
      simp [hz, List.length_append] <;> omega
    · have hig : ignoreN ((varintValB lb : Nat) : Int) ({ s with pos := s.pos + lb.length }) =
          { s with pos := s.pos + lb.length + varintValB lb } := by
      
        have := ignoreN_ok (s := { s with pos := s.pos + lb.length })
          (n := ((varintValB lb : Nat) : Int)) he hf (by exact_mod_cast Nat.pos_of_ne_zero hz)
          (by
            show ((s.pos + lb.length : Nat) : Int) + _ ≤ _
            push_cast
            simp at hlen
            omega)
        rw [this]
        congr 1
      rw [hig]
      congr 1
      simp [List.length_append] <;> omega
  · subst hw5
    unfold skipField
    rw [if_neg (by norm_num), if_neg (by norm_num), if_neg (by norm_num), if_pos rfl]
    have hpos : s.pos + (4 : Int).toNat = s.pos + p.length := by
      rw [hp]
      rfl
    rw [ignoreN_ok he hf (by norm_num) (by push_cast; omega), hpos]

/-- A well-formed varint payload is parsed by an integer scalar prototype to
its (truncated) value: the `ReadsTo` fact needed to build known chunks. -/
theorem readsTo_scalar {t : PType} {p : List Nat} {v : Nat}
    (ht : t.isVarint = true) (hp : IsVarintB p) (hl : p.length ≤ 10)
    (hv : varintValB (p.take 9) % 2 ^ (8 * t.width) = v) :
    ReadsTo (.scalar t) p (.scalarI t v) := by
  refine ⟨1, fun fuel hfuel s rest hpos he hf hd => ?_⟩
  obtain ⟨f, rfl⟩ : ∃ f, fuel = f + 1 := ⟨fuel - 1, by omega⟩
  have hmax : t.width ≤ 8 := by cases t <;> norm_num [PType.width]
  have hs : readScalar t s = .ok (v, { s with pos := s.pos + p.length }) := by
    unfold readScalar
    rw [ht]
    simp only [if_pos]
    rw [readVarint_spec hmax hp hl he hf hd, hv]
  show (match readScalar t s with
    | Except.error e => (Except.error e : Except RErr (PInst × BStream))
    | Except.ok (v, s') => Except.ok (.scalarI t v, s')) = _
  rw [hs]

end Pb

namespace Pb

theorem msgLoop_succ (f : Nat) (ds : List (Int × String × PField)) (msgEnd : Int)
    (acc : RF) (s : BStream) :
    msgLoop (f + 1) ds msgEnd acc s =
      (if tellg s < msgEnd then
        match parseKey s with
        | .error e => (.error e : Except RErr (RF × BStream))
        | .ok (none, s₁) => .ok (acc, s₁)
        | .ok (some (tag, wire), s₁) =>
          match lookupTag ds tag with
          | some (nm, fld) =>
            match readField f fld s₁ with
            | .error e => .error e
            | .ok (inst, s₂) => msgLoop f ds msgEnd (rfInsert acc nm inst) s₂
          | none =>
            match skipField wire s₁ with
            | .error e => .error e
            | .ok s₂ => msgLoop f ds msgEnd acc s₂
      else .ok (acc, s)) := rfl

/-- The key/field loop of a top-level message read over a well-formed encoded
field sequence: each known chunk is parsed by its prototype and appended to
`readFields`, each unknown chunk is skipped by wire type, and the loop ends by
hitting EOF on the key read after the last chunk. -/
theorem msgLoop_chunks (ds : List (Int × String × PField)) :
    ∀ (cs : List Chunk) (acc : RF) (s : BStream),
    (∀ c ∈ cs, ChunkWF ds c) →
    s.eofbit = false → s.failbit = false →
    s.data.drop s.pos = chunksBytes cs →
    s.pos ≤ s.data.length →
    ((s.data.length : Int) < INTMAX) →
    ∃ K, ∀ fuel, K ≤ fuel →
      msgLoop fuel ds INTMAX acc s =
        .ok (foldChunks ds acc cs,
          ⟨s.data, s.pos + (chunksBytes cs).length, true, true⟩) := by
  intro cs
  induction cs with
  | nil =>
    intro acc s hWF he hf hd hple hlen
    refine ⟨1, fun fuel hfuel => ?_⟩
    obtain ⟨f, rfl⟩ : ∃ f, fuel = f + 1 := ⟨fuel - 1, by omega⟩
    have hend : s.data.length ≤ s.pos := by
      have := List.drop_eq_nil_iff.mp (by rw [hd]; rfl)
      omega
    have hlt : tellg s < INTMAX := by
      rw [tellg_clean hf]
      have : (s.pos : Int) ≤ (s.data.length : Int) := by exact_mod_cast hple
      omega
    rw [msgLoop_succ, if_pos hlt, parseKey_eof he hf hend]
    show Except.ok (acc, ({ s with eofbit := true, failbit := true } : BStream)) = _
    simp [chunksBytes_nil, foldChunks]
  | cons c cs' ih =>
    intro acc s hWF he hf hd hple hlen
    have hcWF := hWF c (by simp)
    have hcsWF : ∀ x ∈ cs', ChunkWF ds x := fun x hx => hWF x (by simp [hx])
    rw [chunksBytes_cons] at hd
    have hrem : c.bytes.length + (chunksBytes cs').length = s.data.length - s.pos := by
      have := List.length_drop s.pos s.data
      rw [hd] at this
      simp at this
      omega
    cases c with
    | known kb payload inst =>
      obtain ⟨hkb, hkl, hv31, hv8, hwire, hmatch⟩ := hcWF
      cases hlk : lookupTag ds ((varintValB kb / 8 : Nat) : Int) with
      | none => rw [hlk] at hmatch; exact hmatch.elim
      | some nf =>
        obtain ⟨nm, fld⟩ := nf
        rw [hlk] at hmatch
        obtain ⟨Kf, hKf⟩ := hmatch
        have hkb_ne : kb ≠ [] := isVarintB_ne_nil hkb
        have hbytes : (Chunk.known kb payload inst).bytes = kb ++ payload := rfl
        rw [hbytes] at hd hrem
        have hdd : s.data.drop s.pos = kb ++ (payload ++ chunksBytes cs') := by
          rw [hd]
          simp
        have hkb_len : 1 ≤ kb.length := by
          cases kb with
          | nil => exact absurd rfl hkb_ne
          | cons a b => simp
        have hdrop1 : s.data.drop (s.pos + kb.length) = payload ++ chunksBytes cs' := by
          rw [← List.drop_drop, hdd]
          exact List.drop_left kb _
        have hdrop2 : s.data.drop (s.pos + kb.length + payload.length) = chunksBytes cs' := by
          rw [← List.drop_drop, hdrop1]
          exact List.drop_left payload _
        have hrem' : kb.length + payload.length + (chunksBytes cs').length ≤
            s.data.length - s.pos := by
          simp at hrem
          omega
        obtain ⟨Kt, hKt⟩ := ih (rfInsert acc nm inst)
          ⟨s.data, s.pos + kb.length + payload.length, false, false⟩ hcsWF rfl rfl
          hdrop2 (by simp; omega) hlen
        refine ⟨Kf + Kt + 1, fun fuel hfuel => ?_⟩
        obtain ⟨f, rfl⟩ : ∃ f, fuel = f + 1 := ⟨fuel - 1, by omega⟩
        have hlt : tellg s < INTMAX := by
          rw [tellg_clean hf]
          have : (s.pos : Int) ≤ (s.data.length : Int) := by exact_mod_cast hple
          omega
        rw [msgLoop_succ, if_pos hlt, parseKey_spec hkb hkl hv31 hv8 hwire he hf hdd]
        show (match lookupTag ds ((varintValB kb / 8 : Nat) : Int) with
          | some (nm, fld) =>
            match readField f fld ({ s with pos := s.pos + kb.length }) with
            | Except.error e => (Except.error e : Except RErr (RF × BStream))
            | Except.ok (inst, s₂) => msgLoop f ds INTMAX (rfInsert acc nm inst) s₂
          | none =>
            match skipField ((varintValB kb % 8 : Nat) : Int)
                ({ s with pos := s.pos + kb.length }) with
            | Except.error e => Except.error e
            | Except.ok s₂ => msgLoop f ds INTMAX acc s₂) = _
        rw [hlk]
        have hrf : readField f fld ({ s with pos := s.pos + kb.length }) =
            .ok (inst, ⟨s.data, s.pos + kb.length + payload.length, false, false⟩) := by
          have := hKf f (by omega) ({ s with pos := s.pos + kb.length })
            (chunksBytes cs') (by simp; omega) he hf (by exact hdrop1)
          rw [this]
          simp [he, hf]
        show (match readField f fld ({ s with pos := s.pos + kb.length }) with
          | Except.error e => (Except.error e : Except RErr (RF × BStream))
          | Except.ok (inst, s₂) => msgLoop f ds INTMAX (rfInsert acc nm inst) s₂) = _
        rw [hrf]
        show msgLoop f ds INTMAX (rfInsert acc nm inst)
          ⟨s.data, s.pos + kb.length + payload.length, false, false⟩ = _
        rw [hKt f (by omega)]
        have happ : applyChunk ds acc (Chunk.known kb payload inst) = rfInsert acc nm inst := by
          show (match lookupTag ds ((varintValB kb / 8 : Nat) : Int) with
            | some (nm, _) => rfInsert acc nm inst
            | none => acc) = rfInsert acc nm inst
          rw [hlk]
        have hposeq : s.pos + kb.length + payload.length + (chunksBytes cs').length =
            s.pos + (chunksBytes (Chunk.known kb payload inst :: cs')).length := by
          rw [chunksBytes_cons]
          simp [Chunk.bytes]
          omega
        rw [foldChunks_cons, happ, hposeq]
    | unk kb payload =>
      obtain ⟨hkb, hkl, hv31, hv8, hlknone, hskip⟩ := hcWF
      have hkb_ne : kb ≠ [] := isVarintB_ne_nil hkb
      have hbytes : (Chunk.unk kb payload).bytes = kb ++ payload := rfl
      rw [hbytes] at hd hrem
      have hdd : s.data.drop s.pos = kb ++ (payload ++ chunksBytes cs') := by
        rw [hd]
        simp
      have hkb_len : 1 ≤ kb.length := by
        cases kb with
        | nil => exact absurd rfl hkb_ne
        | cons a b => simp
      have hdrop1 : s.data.drop (s.pos + kb.length) = payload ++ chunksBytes cs' := by
        rw [← List.drop_drop, hdd]
        exact List.drop_left kb _
      have hdrop2 : s.data.drop (s.pos + kb.length + payload.length) = chunksBytes cs' := by
        rw [← List.drop_drop, hdrop1]
        exact List.drop_left payload _
      have hrem' : kb.length + payload.length + (chunksBytes cs').length ≤
          s.data.length - s.pos := by
        simp at hrem
        omega
      have hwire : varintValB kb % 8 = 0 ∨ varintValB kb % 8 = 1 ∨
          varintValB kb % 8 = 2 ∨ varintValB kb % 8 = 5 := by
        rcases hskip with ⟨h0, -⟩ | ⟨h1, -⟩ | ⟨h2, -⟩ | ⟨h5, -⟩
        · left; exact_mod_cast h0
        · right; left; exact_mod_cast h1
        · right; right; left; exact_mod_cast h2
        · right; right; right; exact_mod_cast h5
      obtain ⟨Kt, hKt⟩ := ih acc
        ⟨s.data, s.pos + kb.length + payload.length, false, false⟩ hcsWF rfl rfl
        hdrop2 (by simp; omega) hlen
      refine ⟨Kt + 1, fun fuel hfuel => ?_⟩
      obtain ⟨f, rfl⟩ : ∃ f, fuel = f + 1 := ⟨fuel - 1, by omega⟩
      have hlt : tellg s < INTMAX := by
        rw [tellg_clean hf]
        have : (s.pos : Int) ≤ (s.data.length : Int) := by exact_mod_cast hple
        omega
      rw [msgLoop_succ, if_pos hlt, parseKey_spec hkb hkl hv31 hv8 hwire he hf hdd]
      show (match lookupTag ds ((varintValB kb / 8 : Nat) : Int) with
        | some (nm, fld) =>
          match readField f fld ({ s with pos := s.pos + kb.length }) with
          | Except.error e => (Except.error e : Except RErr (RF × BStream))
          | Except.ok (inst, s₂) => msgLoop f ds INTMAX (rfInsert acc nm inst) s₂
        | none =>
          match skipField ((varintValB kb % 8 : Nat) : Int)
              ({ s with pos := s.pos + kb.length }) with
          | Except.error e => Except.error e
          | Except.ok s₂ => msgLoop f ds INTMAX acc s₂) = _
      rw [hlknone]
      have hsk : skipField ((varintValB kb % 8 : Nat) : Int)
          ({ s with pos := s.pos + kb.length }) =
          .ok (⟨s.data, s.pos + kb.length + payload.length, false, false⟩) := by
        have := skipField_spec (s := { s with pos := s.pos + kb.length }) hskip he hf hdrop1
        rw [this]
        simp [he, hf]
      show (match skipField ((varintValB kb % 8 : Nat) : Int)
          ({ s with pos := s.pos + kb.length }) with
        | Except.error e => (Except.error e : Except RErr (RF × BStream))
        | Except.ok s₂ => msgLoop f ds INTMAX acc s₂) = _
      rw [hsk]
      show msgLoop f ds INTMAX acc
        ⟨s.data, s.pos + kb.length + payload.length, false, false⟩ = _
      rw [hKt f (by omega)]
      have happ : applyChunk ds acc (Chunk.unk kb payload) = acc := rfl
      have hposeq : s.pos + kb.length + payload.length + (chunksBytes cs').length =
          s.pos + (chunksBytes (Chunk.unk kb payload :: cs')).length := by
        rw [chunksBytes_cons]
        simp [Chunk.bytes]
        omega
      rw [foldChunks_cons, happ, hposeq]

end Pb

namespace Pb

theorem chunksBytes_append (l₁ l₂ : List Chunk) :
    chunksBytes (l₁ ++ l₂) = chunksBytes l₁ ++ chunksBytes l₂ := by
  simp [chunksBytes]

/-- Evaluate a top-level read over a well-formed chunk sequence. -/
theorem readTop_chunks (ds : List (Int × String × PField)) (cs : List Chunk)
    (hWF : ∀ c ∈ cs, ChunkWF ds c)
    (hlen : ((chunksBytes cs).length : Int) < INTMAX) :
    ∃ K, ∀ fuel, K ≤ fuel →
      readTop fuel ds [] (chunksBytes cs) =
        .ok (foldChunks ds [] cs,
          ⟨chunksBytes cs, (chunksBytes cs).length, true, true⟩) := by
  obtain ⟨K, hK⟩ := msgLoop_chunks ds cs [] ⟨chunksBytes cs, 0, false, false⟩ hWF rfl rfl
    rfl (by simp) hlen
  refine ⟨K + 1, fun fuel hfuel => ?_⟩
  obtain ⟨f, rfl⟩ : ∃ f, fuel = f + 1 := ⟨fuel - 1, by omega⟩
  show (match msgLoop f ds INTMAX (rfClear []) ⟨chunksBytes cs, 0, false, false⟩ with
    | Except.error e => (Except.error e : Except RErr (RF × BStream))
    | Except.ok (rf, s₂) => Except.ok (rf, s₂)) = _
  rw [show rfClear [] = ([] : RF) from rfl, hK f (by omega)]
  simp

/-- C1: a binary message containing a field key whose tag has no prototype
parses successfully — the field is skipped according to its wire type (varint:
decode and discard; 64-bit: skip 8 bytes; length-delimited: read a varint
length `L` then skip `L` bytes; 32-bit: skip 4 bytes; this is the content of
`SkipWF`) — and the parsed values of every known field equal those obtained
from the same message with the unknown-tag field removed. -/
theorem c1_unknown_field_roundtrip
    (ds : List (Int × String × PField)) (cs₁ cs₂ : List Chunk) (kb up : List Nat)
    (h₁ : ∀ c ∈ cs₁, ChunkWF ds c) (h₂ : ∀ c ∈ cs₂, ChunkWF ds c)
    (hu : ChunkWF ds (.unk kb up))
    (hlen : ((chunksBytes (cs₁ ++ .unk kb up :: cs₂)).length : Int) < INTMAX) :
    ∃ K, ∀ fuel, K ≤ fuel → ∃ rf₁ rf₂ s₁ s₂,
      readTop fuel ds [] (chunksBytes (cs₁ ++ .unk kb up :: cs₂)) = .ok (rf₁, s₁) ∧
      readTop fuel ds [] (chunksBytes (cs₁ ++ cs₂)) = .ok (rf₂, s₂) ∧
      rf₁ = rf₂ ∧
      (∀ nm, rfLookup rf₁ nm = rfLookup rf₂ nm) := by
  have hWFA : ∀ c ∈ cs₁ ++ Chunk.unk kb up :: cs₂, ChunkWF ds c := by
    intro c hc
    rcases List.mem_append.mp hc with h | h
    · exact h₁ c h
    · rcases List.mem_cons.mp h with rfl | h
      · exact hu
      · exact h₂ c h
  have hWFB : ∀ c ∈ cs₁ ++ cs₂, ChunkWF ds c := by
    intro c hc
    rcases List.mem_append.mp hc with h | h
    · exact h₁ c h
    · exact h₂ c h
  have hlenB : ((chunksBytes (cs₁ ++ cs₂)).length : Int) < INTMAX := by
    have hA : (chunksBytes (cs₁ ++ Chunk.unk kb up :: cs₂)).length =
        (chunksBytes cs₁).length + ((Chunk.unk kb up).bytes.length +
          (chunksBytes cs₂).length) := by
      rw [chunksBytes_append, chunksBytes_cons]
      simp
    have hB : (chunksBytes (cs₁ ++ cs₂)).length =
        (chunksBytes cs₁).length + (chunksBytes cs₂).length := by
      rw [chunksBytes_append]
      simp
    have : (chunksBytes (cs₁ ++ cs₂)).length ≤
        (chunksBytes (cs₁ ++ Chunk.unk kb up :: cs₂)).length := by omega
    have h2 : ((chunksBytes (cs₁ ++ cs₂)).length : Int) ≤
        ((chunksBytes (cs₁ ++ Chunk.unk kb up :: cs₂)).length : Int) := by exact_mod_cast this
    omega
  obtain ⟨KA, hKA⟩ := readTop_chunks ds (cs₁ ++ Chunk.unk kb up :: cs₂) hWFA hlen
  obtain ⟨KB, hKB⟩ := readTop_chunks ds (cs₁ ++ cs₂) hWFB hlenB
  refine ⟨KA + KB, fun fuel hfuel => ?_⟩
  have hfold : foldChunks ds [] (cs₁ ++ Chunk.unk kb up :: cs₂) =
      foldChunks ds [] (cs₁ ++ cs₂) := by
    rw [foldChunks_append, foldChunks_append, foldChunks_cons]
    rfl
  refine ⟨foldChunks ds [] (cs₁ ++ Chunk.unk kb up :: cs₂),
    foldChunks ds [] (cs₁ ++ cs₂), _, _, hKA fuel (by omega), hKB fuel (by omega),
    hfold, fun nm => by rw [hfold]⟩

end Pb

namespace Pb

theorem c1_unknown_field_roundtrip_witness :
    ∃ K, ∀ fuel, K ≤ fuel → ∃ rf₁ rf₂ s₁ s₂,
      readTop fuel [((1 : Int), "x", PField.scalar PType.i32)] []
          (chunksBytes ([Chunk.known [8] [150, 1] (PInst.scalarI PType.i32 150)] ++
            Chunk.unk [21] [1, 2, 3, 4] :: [])) = .ok (rf₁, s₁) ∧
      readTop fuel [((1 : Int), "x", PField.scalar PType.i32)] []
          (chunksBytes ([Chunk.known [8] [150, 1] (PInst.scalarI PType.i32 150)] ++ [])) =
        .ok (rf₂, s₂) ∧
      rf₁ = rf₂ ∧ (∀ nm, rfLookup rf₁ nm = rfLookup rf₂ nm) := by
  apply c1_unknown_field_roundtrip
  · intro c hc
    simp only [List.mem_singleton] at hc
    subst hc
    refine ⟨by decide, by decide, by decide, by decide, by decide, ?_⟩
    show ReadsTo (PField.scalar PType.i32) [150, 1] (PInst.scalarI PType.i32 150)
    exact readsTo_scalar rfl (by decide) (by decide) (by decide)
  · intro c hc
    simp at hc
  · refine ⟨by decide, by decide, by decide, by decide, rfl, ?_⟩
    show SkipWF ((varintValB [21] % 8 : Nat) : Int) [1, 2, 3, 4]
    right; right; right
    exact ⟨by decide, rfl⟩
  · decide

end Pb

namespace Dnn

theorem lookup_append_some (l : List (String × Int)) (nm : String) (i : Int)
    (h : ∀ p ∈ l, 0 ≤ p.2) (hi : 0 ≤ i) :
    ∃ j, (l ++ [(nm, i)]).lookup nm = some j ∧ 0 ≤ j := by
  induction l with
  | nil => exact ⟨i, by simp, hi⟩
  | cons p rest ih =>
    obtain ⟨k, v⟩ := p
    by_cases hp : k = nm
    · refine ⟨v, ?_, h (k, v) (by simp)⟩
      simp [List.lookup, hp]
    · obtain ⟨j, hj, hj0⟩ := ih (fun q hq => h q (by simp [hq]))
      refine ⟨j, ?_, hj0⟩
      simp only [List.cons_append, List.lookup,
        show (nm == k) = false from beq_eq_false_iff_ne.mpr fun he => hp he.symm]
      exact hj

/-- The net produced by the first `addLayer` on a fresh net. -/
def c6net : NetImpl :=
  ⟨[(0, inputLayerData), (2, LayerData.mkNew 2 "a" "t" [])],
   [("_input", 0), ("a", 2)], 2, false, []⟩

/-- C6 counterexample: on a freshly constructed net the first successful
`addLayer` returns id 2, not 1 — `Impl::Impl()` leaves `lastLayerId = 1`
and `addLayer` pre-increments. -/
theorem c6_counterexample :
    addLayer freshNet "a" "t" [] = Except.ok (2, c6net) ∧ (2 : Int) ≠ 1 :=
  ⟨rfl, by decide⟩

end Dnn

namespace Dnn

/-- C6 (corrected): `addLayer` rejects a name containing `'.'` and a name
already mapped with a configuration error; a successful call assigns the
pre-incremented `lastLayerId`, so across any sequence of successful calls on
one net the returned ids strictly increase and re-adding an existing name
fails; id 0 is the synthetic input layer — but the first layer added to a
fresh net receives id 2, not 1, because `Impl::Impl()` leaves
`lastLayerId = 1`. -/
theorem c6_add_layer (n : NetImpl) (name ty : String) (ps : Params) (id : Int)
    (n' : NetImpl)
    (hids : ∀ p ∈ n.layerNameToId, 0 ≤ p.2)
    (hlast : 0 ≤ n.lastLayerId)
    (h : addLayer n name ty ps = Except.ok (id, n')) :
    id = n.lastLayerId + 1 ∧ n'.lastLayerId = id ∧
    (∀ p ∈ n'.layerNameToId, 0 ≤ p.2) ∧ 0 ≤ n'.lastLayerId ∧
    (∀ (m : NetImpl) nm₂ ty₂ ps₂, '.' ∈ nm₂.toList →
        addLayer m nm₂ ty₂ ps₂ = Except.error NErr.configErr) ∧
    (∀ ty₂ ps₂, addLayer n' name ty₂ ps₂ = Except.error NErr.configErr) ∧
    (∀ nm₂ ty₂ ps₂ id₂ n₂, addLayer n' nm₂ ty₂ ps₂ = Except.ok (id₂, n₂) → id < id₂) ∧
    mapFind freshNet.layers 0 = some inputLayerData ∧
    (n = freshNet → id = 2) := by
  unfold addLayer at h
  split_ifs at h with h1 h2
  have hok : (Except.ok (n.lastLayerId + 1,
      { n with
          lastLayerId := n.lastLayerId + 1,
          layerNameToId := n.layerNameToId ++ [(name, n.lastLayerId + 1)],
          layers := mapInsert n.layers (n.lastLayerId + 1)
            (LayerData.mkNew (n.lastLayerId + 1) name ty ps) }) :
      Except NErr (Int × NetImpl)) = Except.ok (id, n') := h
  rw [Except.ok.injEq, Prod.mk.injEq] at hok
  obtain ⟨hid, hn'⟩ := hok
  subst hid
  subst hn'
  refine ⟨rfl, rfl, ?_, show (0:Int) ≤ n.lastLayerId + 1 by omega, ?_, ?_, ?_, rfl, ?_⟩
  · intro p hp
    rcases List.mem_append.mp hp with hp | hp
    · exact hids p hp
    · rw [List.mem_singleton] at hp
      subst hp
      simp only
      omega
  · intro m nm₂ ty₂ ps₂ hdot
    unfold addLayer
    rw [if_pos hdot]
  · intro ty₂ ps₂
    unfold addLayer
    rw [if_neg h1]
    obtain ⟨j, hj, hj0⟩ := lookup_append_some n.layerNameToId name (n.lastLayerId + 1)
      hids (by omega)
    have hgl : getLayerIdName
        { n with
            lastLayerId := n.lastLayerId + 1,
            layerNameToId := n.layerNameToId ++ [(name, n.lastLayerId + 1)],
            layers := mapInsert n.layers (n.lastLayerId + 1)
              (LayerData.mkNew (n.lastLayerId + 1) name ty ps) } name = j := by
      unfold getLayerIdName
      simp only
      rw [hj]
    rw [if_pos (by rw [hgl]; exact hj0)]
  · intro nm₂ ty₂ ps₂ id₂ n₂ h₂
    unfold addLayer at h₂
    split_ifs at h₂
    have hok₂ : (Except.ok (n.lastLayerId + 1 + 1, _) :
        Except NErr (Int × NetImpl)) = Except.ok (id₂, n₂) := h₂
    rw [Except.ok.injEq, Prod.mk.injEq] at hok₂
    omega
  · intro hf
    subst hf
    rfl

end Dnn

namespace Dnn

theorem c6_add_layer_witness :
    (∀ p ∈ freshNet.layerNameToId, 0 ≤ p.2) ∧ 0 ≤ freshNet.lastLayerId ∧
    addLayer freshNet "a" "t" [] = Except.ok (2, c6net) ∧
    ((2 : Int) = freshNet.lastLayerId + 1 ∧ c6net.lastLayerId = 2 ∧
     (∀ p ∈ c6net.layerNameToId, 0 ≤ p.2) ∧ 0 ≤ c6net.lastLayerId ∧
     (∀ (m : NetImpl) nm₂ ty₂ ps₂, '.' ∈ nm₂.toList →
         addLayer m nm₂ ty₂ ps₂ = Except.error NErr.configErr) ∧
     (∀ ty₂ ps₂, addLayer c6net "a" ty₂ ps₂ = Except.error NErr.configErr) ∧
     (∀ nm₂ ty₂ ps₂ id₂ n₂, addLayer c6net nm₂ ty₂ ps₂ = Except.ok (id₂, n₂) →
        (2 : Int) < id₂) ∧
     mapFind freshNet.layers 0 = some inputLayerData ∧
     (freshNet = freshNet → (2 : Int) = 2)) := by
  have hids : ∀ p ∈ freshNet.layerNameToId, 0 ≤ p.2 := by
    intro p hp
    rw [show freshNet.layerNameToId = [("_input", 0)] from rfl, List.mem_singleton] at hp
    subst hp
    decide
  have hlast : (0 : Int) ≤ freshNet.lastLayerId := by decide
  have h : addLayer freshNet "a" "t" [] = Except.ok (2, c6net) := rfl
  exact ⟨hids, hlast, h, c6_add_layer freshNet "a" "t" [] 2 c6net hids hlast h⟩

end Dnn

namespace Dnn

/-- C9: when a `SpatialMaxUnpooling` node's `indices_blob_id` matches no
previously emitted `Pooling` layer, `TorchImporter::fill` does NOT fail with a
structured error: it dereferences the null partner-module pointer while
copying the kernel/stride/pad parameters, because that copy precedes the
`CV_Assert(poolingLayer.first != -1)` guard — undefined behaviour, modelled
as `.nullDeref`. -/
theorem c9_unpool_missing_partner (fuel : Nat) (st : ImpState)
    (prev prevOut : Int) (ps : Params) (blobId : Int)
    (hps : pGet ps "indices_blob_id" = some (DVal.i blobId))
    (hnone : (findPoolPartner st.addedModules blobId).2 = none) :
    fill (fuel + 1) (some (Module.mk "SpatialMaxUnpooling" "" ps [])) st prev prevOut =
      Except.error NErr.nullDeref := by
  simp [fill, Module.apiType, Module.thName, Module.params, hps, hnone]

end Dnn

namespace Dnn

theorem c9_unpool_missing_partner_witness :
    pGet [("indices_blob_id", DVal.i 5)] "indices_blob_id" = some (DVal.i 5) ∧
    (findPoolPartner (ImpState.mk freshNet [] 0).addedModules 5).2 = none ∧
    fill 1 (some (Module.mk "SpatialMaxUnpooling" "" [("indices_blob_id", DVal.i 5)] []))
      (ImpState.mk freshNet [] 0) 0 0 = Except.error NErr.nullDeref :=
  ⟨rfl, rfl, c9_unpool_missing_partner 0 (ImpState.mk freshNet [] 0) 0 0
    [("indices_blob_id", DVal.i 5)] 5 rfl rfl⟩

end Dnn

namespace Dnn

/-- Unfolding `fill` on a leaf module (nonempty `apiType`): generate a name,
add the layer, connect it to the previous pin. -/
theorem fill_leaf (f : Nat) (t a nm : String) (ps : Params) (net : NetImpl)
    (ams : List (Int × Module)) (mc : Nat) (prev prevOut : Int) (ha : a ≠ "")
    (hnm : nm = "l" ++ toString (mc + 1) ++ "_" ++ a) :
    fill (f + 1) (some (Module.mk t a ps [])) (ImpState.mk net ams mc) prev prevOut =
      (match addLayer net nm a ps with
       | Except.error e => Except.error e
       | Except.ok (id, net₁) =>
         match connect net₁ prev prevOut id 0 with
         | Except.error e => Except.error e
         | Except.ok net₂ =>
           Except.ok (id, ImpState.mk net₂
             (ams ++ [(id, Module.mk t a ps [])])
             (mc + 1))) := by
  subst hnm
  simp [fill, Module.apiType, Module.params, generateLayerName, ha]

end Dnn

namespace Dnn

/-! ### C8: the `Sequential [ ConcatTable [A, B], CAddTable ]` import, with
generic leaf modules A and B. -/

/-- A leaf module: nonempty `apiType`, no children. -/
def c8mA (t a : String) (ps : Params) : Module := Module.mk t a ps []

def c8ct (tA aA : String) (pA : Params) (tB aB : String) (pB : Params) : Module :=
  Module.mk "ConcatTable" "" [] [c8mA tA aA pA, c8mA tB aB pB]

def c8cadd : Module := Module.mk "CAddTable" "" [] []

def c8seq (tA aA : String) (pA : Params) (tB aB : String) (pB : Params) : Module :=
  Module.mk "Sequential" "" [] [c8ct tA aA pA tB aB pB, c8cadd]

def c8inputLD : LayerData :=
  ⟨0, "_input", "__NetInputLayer__", [], [], [], [0], [], [], [], false⟩

def c8splitLD0 : LayerData :=
  ⟨2, "l1_torchSplit", "Split", [], [⟨0, 0⟩], [], [], [], [], [], false⟩

def c8splitLD1 : LayerData :=
  ⟨2, "l1_torchSplit", "Split", [], [⟨0, 0⟩], [], [0], [], [], [], false⟩

def c8splitLD2 : LayerData :=
  ⟨2, "l1_torchSplit", "Split", [], [⟨0, 0⟩], [], [0, 1], [], [], [], false⟩

def c8aLD (aA : String) (pA : Params) : LayerData :=
  ⟨3, "l2_" ++ aA, aA, pA, [⟨2, 0⟩], [], [], [], [], [], false⟩

def c8aLD1 (aA : String) (pA : Params) : LayerData :=
  ⟨3, "l2_" ++ aA, aA, pA, [⟨2, 0⟩], [], [0], [], [], [], false⟩

def c8bLD (aB : String) (pB : Params) : LayerData :=
  ⟨4, "l3_" ++ aB, aB, pB, [⟨2, 1⟩], [], [], [], [], [], false⟩

def c8bLD1 (aB : String) (pB : Params) : LayerData :=
  ⟨4, "l3_" ++ aB, aB, pB, [⟨2, 1⟩], [], [0], [], [], [], false⟩

def c8eltLD : LayerData :=
  ⟨5, "l4_torchCAddTable", "Eltwise", [("operation", DVal.s "sum")],
   [⟨3, 0⟩, ⟨4, 0⟩], [], [], [], [], [], false⟩

/-- The net after the ConcatTable's Split is added and connected. -/
def c8netA : NetImpl :=
  ⟨[(0, c8inputLD), (2, c8splitLD0)], [("_input", 0), ("l1_torchSplit", 2)], 2, false, []⟩

/-- The net after leaf A is added and fed from Split output 0. -/
def c8netAc (aA : String) (pA : Params) : NetImpl :=
  ⟨[(0, c8inputLD), (2, c8splitLD1), (3, c8aLD aA pA)],
   [("_input", 0), ("l1_torchSplit", 2), ("l2_" ++ aA, 3)], 3, false, []⟩

/-- The net after both leaves are in place — the CAddTable moment. -/
def c8netMid (aA : String) (pA : Params) (aB : String) (pB : Params) : NetImpl :=
  ⟨[(0, c8inputLD), (2, c8splitLD2), (3, c8aLD aA pA), (4, c8bLD aB pB)],
   [("_input", 0), ("l1_torchSplit", 2), ("l2_" ++ aA, 3), ("l3_" ++ aB, 4)],
   4, false, []⟩

/-- The final net: the Eltwise(sum) layer consumes A's and B's outputs. -/
def c8netFin (aA : String) (pA : Params) (aB : String) (pB : Params) : NetImpl :=
  ⟨[(0, c8inputLD), (2, c8splitLD2), (3, c8aLD1 aA pA), (4, c8bLD1 aB pB), (5, c8eltLD)],
   [("_input", 0), ("l1_torchSplit", 2), ("l2_" ++ aA, 3), ("l3_" ++ aB, 4),
    ("l4_torchCAddTable", 5)],
   5, false, []⟩

def c8stMid (tA aA : String) (pA : Params) (tB aB : String) (pB : Params) : ImpState :=
  ⟨c8netMid aA pA aB pB,
   [(2, c8ct tA aA pA tB aB pB), (3, c8mA tA aA pA), (4, c8mA tB aB pB)], 3⟩

def c8stFin (tA aA : String) (pA : Params) (tB aB : String) (pB : Params) : ImpState :=
  ⟨c8netFin aA pA aB pB,
   [(2, c8ct tA aA pA tB aB pB), (3, c8mA tA aA pA), (4, c8mA tB aB pB), (5, c8cadd)], 4⟩

theorem c8_addLayerA (aA : String) (pA : Params) (hdA : '.' ∉ aA.toList) :
    addLayer c8netA ("l2_" ++ aA) aA pA =
      Except.ok (3, ⟨[(0, c8inputLD), (2, c8splitLD0),
          (3, LayerData.mkNew 3 ("l2_" ++ aA) aA pA)],
        [("_input", 0), ("l1_torchSplit", 2), ("l2_" ++ aA, 3)], 3, false, []⟩) := by
  unfold addLayer
  rw [if_neg (show ¬('.' ∈ ("l2_" ++ aA).toList) from by
    intro h
    rw [show ("l2_" ++ aA).toList = 'l' :: '2' :: '_' :: aA.toList from rfl] at h
    simp at h
    exact hdA h)]
  rw [if_neg (show ¬((0:Int) ≤ getLayerIdName c8netA ("l2_" ++ aA)) from by
    rw [show getLayerIdName c8netA ("l2_" ++ aA) = -1 from rfl]
    decide)]
  rfl

theorem c8_addLayerB (aA aB : String) (pA pB : Params) (hdB : '.' ∉ aB.toList) :
    addLayer (c8netAc aA pA) ("l3_" ++ aB) aB pB =
      Except.ok (4, ⟨[(0, c8inputLD), (2, c8splitLD1), (3, c8aLD aA pA),
          (4, LayerData.mkNew 4 ("l3_" ++ aB) aB pB)],
        [("_input", 0), ("l1_torchSplit", 2), ("l2_" ++ aA, 3), ("l3_" ++ aB, 4)],
        4, false, []⟩) := by
  unfold addLayer
  rw [if_neg (show ¬('.' ∈ ("l3_" ++ aB).toList) from by
    intro h
    rw [show ("l3_" ++ aB).toList = 'l' :: '3' :: '_' :: aB.toList from rfl] at h
    simp at h
    exact hdB h)]
  rw [if_neg (show ¬((0:Int) ≤ getLayerIdName (c8netAc aA pA) ("l3_" ++ aB)) from by
    rw [show getLayerIdName (c8netAc aA pA) ("l3_" ++ aB) = -1 from rfl]
    decide)]
  rfl

end Dnn

namespace Dnn

theorem c8_fillA (f : Nat) (tA aA : String) (pA : Params)
    (tB aB : String) (pB : Params)
    (haA : aA ≠ "") (hdA : '.' ∉ aA.toList) :
    fill (f + 1 + 1) (some (c8mA tA aA pA))
        (ImpState.mk c8netA [(2, c8ct tA aA pA tB aB pB)] 1) 2 (Int.ofNat 0) =
      Except.ok (3, ImpState.mk (c8netAc aA pA)
        [(2, c8ct tA aA pA tB aB pB), (3, c8mA tA aA pA)] 2) := by
  show fill (f + 1 + 1) (some (Module.mk tA aA pA []))
      (ImpState.mk c8netA [(2, c8ct tA aA pA tB aB pB)] 1) 2 (Int.ofNat 0) = _
  rw [fill_leaf (f + 1) tA aA ("l2_" ++ aA) pA
    c8netA [(2, c8ct tA aA pA tB aB pB)] 1 2 (Int.ofNat 0) haA rfl]
  rw [c8_addLayerA aA pA hdA]
  rfl

theorem c8_fillB (f : Nat) (tA aA : String) (pA : Params)
    (tB aB : String) (pB : Params)
    (haB : aB ≠ "") (hdB : '.' ∉ aB.toList) :
    fill (f + 1) (some (c8mA tB aB pB))
        (ImpState.mk (c8netAc aA pA)
          [(2, c8ct tA aA pA tB aB pB), (3, c8mA tA aA pA)] 2) 2 (Int.ofNat 1) =
      Except.ok (4, ImpState.mk (c8netMid aA pA aB pB)
        [(2, c8ct tA aA pA tB aB pB), (3, c8mA tA aA pA), (4, c8mA tB aB pB)] 3) := by
  show fill (f + 1) (some (Module.mk tB aB pB []))
      (ImpState.mk (c8netAc aA pA)
        [(2, c8ct tA aA pA tB aB pB), (3, c8mA tA aA pA)] 2) 2 (Int.ofNat 1) = _
  rw [fill_leaf f tB aB ("l3_" ++ aB) pB (c8netAc aA pA)
    [(2, c8ct tA aA pA tB aB pB), (3, c8mA tA aA pA)] 2 2 (Int.ofNat 1) haB rfl]
  rw [c8_addLayerB aA aB pA pB hdB]
  rfl

end Dnn

namespace Dnn

theorem c8_fill_ct (f : Nat) (tA aA : String) (pA : Params) (tB aB : String) (pB : Params)
    (haA : aA ≠ "") (haB : aB ≠ "") (hdA : '.' ∉ aA.toList) (hdB : '.' ∉ aB.toList) :
    fill (f + 4) (some (c8ct tA aA pA tB aB pB)) (ImpState.mk freshNet [] 0) 0 0 =
      Except.ok (4, c8stMid tA aA pA tB aB pB) := by
  have h0 : fill (f + 4) (some (c8ct tA aA pA tB aB pB)) (ImpState.mk freshNet [] 0) 0 0 =
      fillCTLoop (f + 3) [c8mA tA aA pA, c8mA tB aB pB]
        (ImpState.mk c8netA [(2, c8ct tA aA pA tB aB pB)] 1) 2 0 none := rfl
  have h1 : fillCTLoop (f + 3) [c8mA tA aA pA, c8mA tB aB pB]
      (ImpState.mk c8netA [(2, c8ct tA aA pA tB aB pB)] 1) 2 0 none =
      (match fill (f + 1 + 1) (some (c8mA tA aA pA))
          (ImpState.mk c8netA [(2, c8ct tA aA pA tB aB pB)] 1) 2 (Int.ofNat 0) with
       | Except.error e => Except.error e
       | Except.ok (newId, st') =>
         fillCTLoop (f + 2) [c8mA tB aB pB] st' 2 1 (some newId)) := rfl
  rw [h0, h1, c8_fillA f tA aA pA tB aB pB haA hdA]
  have h2 : (match (Except.ok (3, ImpState.mk (c8netAc aA pA)
        [(2, c8ct tA aA pA tB aB pB), (3, c8mA tA aA pA)] 2) :
          Except NErr (Int × ImpState)) with
       | Except.error e => Except.error e
       | Except.ok (newId, st') =>
         fillCTLoop (f + 2) [c8mA tB aB pB] st' 2 1 (some newId)) =
      (match fill (f + 1) (some (c8mA tB aB pB))
          (ImpState.mk (c8netAc aA pA)
            [(2, c8ct tA aA pA tB aB pB), (3, c8mA tA aA pA)] 2) 2 (Int.ofNat 1) with
       | Except.error e => Except.error e
       | Except.ok (newId, st') =>
         fillCTLoop (f + 1) [] st' 2 2 (some newId)) := rfl
  rw [h2, c8_fillB f tA aA pA tB aB pB haB hdB]
  rfl

theorem c8_fill_cadd (f : Nat) (tA aA : String) (pA : Params) (tB aB : String) (pB : Params) :
    fill (f + 1) (some c8cadd) (c8stMid tA aA pA tB aB pB) 4 0 =
      Except.ok (5, c8stFin tA aA pA tB aB pB) := by
  with_unfolding_all rfl

end Dnn

namespace Dnn

/-- C8: importing `Sequential [ ConcatTable [A, B], CAddTable ]` (A, B arbitrary
leaf modules whose `apiType` is nonempty, dot-free) produces a flat graph: a
Split layer (id 2) fed by the input, leaves A (id 3) and B (id 4) fed from
Split outputs 0 and 1, and an Eltwise layer (id 5) with `operation = "sum"`
whose inputs are exactly `(3,0)` and `(4,0)` — precisely the layers with empty
`requiredOutputs` at the moment the CAddTable node is processed, each taken at
output 0. -/
theorem c8_caddtable_import (f : Nat) (tA aA : String) (pA : Params)
    (tB aB : String) (pB : Params)
    (haA : aA ≠ "") (haB : aB ≠ "") (hdA : '.' ∉ aA.toList) (hdB : '.' ∉ aB.toList) :
    fill (f + 4) (some (c8ct tA aA pA tB aB pB)) (ImpState.mk freshNet [] 0) 0 0 =
      Except.ok (4, c8stMid tA aA pA tB aB pB) ∧
    fill (f + 6) (some (c8seq tA aA pA tB aB pB)) (ImpState.mk freshNet [] 0) 0 0 =
      Except.ok (5, c8stFin tA aA pA tB aB pB) ∧
    getUnconnectedOutLayers (c8stMid tA aA pA tB aB pB).net = [3, 4] ∧
    (mapFind (c8stFin tA aA pA tB aB pB).net.layers 2).map LayerData.type = some "Split" ∧
    (mapFind (c8stFin tA aA pA tB aB pB).net.layers 3).map LayerData.inputBlobsId =
      some [⟨2, 0⟩] ∧
    (mapFind (c8stFin tA aA pA tB aB pB).net.layers 3).map LayerData.type = some aA ∧
    (mapFind (c8stFin tA aA pA tB aB pB).net.layers 4).map LayerData.inputBlobsId =
      some [⟨2, 1⟩] ∧
    (mapFind (c8stFin tA aA pA tB aB pB).net.layers 4).map LayerData.type = some aB ∧
    (mapFind (c8stFin tA aA pA tB aB pB).net.layers 5).map LayerData.type = some "Eltwise" ∧
    (mapFind (c8stFin tA aA pA tB aB pB).net.layers 5).map LayerData.params =
      some [("operation", DVal.s "sum")] ∧
    (mapFind (c8stFin tA aA pA tB aB pB).net.layers 5).map LayerData.inputBlobsId =
      some ((getUnconnectedOutLayers (c8stMid tA aA pA tB aB pB).net).map
        (fun i => Pin.mk i 0)) := by
  have hseq : fill (f + 6) (some (c8seq tA aA pA tB aB pB)) (ImpState.mk freshNet [] 0) 0 0 =
      Except.ok (5, c8stFin tA aA pA tB aB pB) := by
    have h0 : fill (f + 6) (some (c8seq tA aA pA tB aB pB))
        (ImpState.mk freshNet [] 0) 0 0 =
        (match fill (f + 4) (some (c8ct tA aA pA tB aB pB))
            (ImpState.mk freshNet [] 0) 0 0 with
         | Except.error e => Except.error e
         | Except.ok (p, st') => fillSeq (f + 4) [c8cadd] st' p 0) := rfl
    rw [h0, c8_fill_ct f tA aA pA tB aB pB haA haB hdA hdB]
    have h1 : (match (Except.ok (4, c8stMid tA aA pA tB aB pB) :
          Except NErr (Int × ImpState)) with
         | Except.error e => Except.error e
         | Except.ok (p, st') => fillSeq (f + 4) [c8cadd] st' p 0) =
        (match fill (f + 2 + 1) (some c8cadd) (c8stMid tA aA pA tB aB pB) 4 0 with
         | Except.error e => Except.error e
         | Except.ok (p, st') => fillSeq (f + 3) [] st' p 0) := rfl
    rw [h1, c8_fill_cadd (f + 2) tA aA pA tB aB pB]
    rfl
  refine ⟨c8_fill_ct f tA aA pA tB aB pB haA haB hdA hdB, hseq, ?_, ?_, ?_, ?_, ?_, ?_,
    ?_, ?_, ?_⟩
  all_goals with_unfolding_all rfl

end Dnn

namespace Dnn

theorem c8_caddtable_import_witness :
    ("ReLU" : String) ≠ "" ∧ ("Sigmoid" : String) ≠ "" ∧
    ('.' ∉ ("ReLU" : String).toList) ∧ ('.' ∉ ("Sigmoid" : String).toList) ∧
    (fill (0 + 4) (some (c8ct "nn.ReLU" "ReLU" [] "nn.Sigmoid" "Sigmoid" [])) (ImpState.mk freshNet [] 0) 0 0 =
      Except.ok (4, c8stMid "nn.ReLU" "ReLU" [] "nn.Sigmoid" "Sigmoid" []) ∧
    fill (0 + 6) (some (c8seq "nn.ReLU" "ReLU" [] "nn.Sigmoid" "Sigmoid" [])) (ImpState.mk freshNet [] 0) 0 0 =
      Except.ok (5, c8stFin "nn.ReLU" "ReLU" [] "nn.Sigmoid" "Sigmoid" []) ∧
    getUnconnectedOutLayers (c8stMid "nn.ReLU" "ReLU" [] "nn.Sigmoid" "Sigmoid" []).net = [3, 4] ∧
    (mapFind (c8stFin "nn.ReLU" "ReLU" [] "nn.Sigmoid" "Sigmoid" []).net.layers 2).map LayerData.type = some "Split" ∧
    (mapFind (c8stFin "nn.ReLU" "ReLU" [] "nn.Sigmoid" "Sigmoid" []).net.layers 3).map LayerData.inputBlobsId =
      some [⟨2, 0⟩] ∧
    (mapFind (c8stFin "nn.ReLU" "ReLU" [] "nn.Sigmoid" "Sigmoid" []).net.layers 3).map LayerData.type = some "ReLU" ∧
    (mapFind (c8stFin "nn.ReLU" "ReLU" [] "nn.Sigmoid" "Sigmoid" []).net.layers 4).map LayerData.inputBlobsId =
      some [⟨2, 1⟩] ∧
    (mapFind (c8stFin "nn.ReLU" "ReLU" [] "nn.Sigmoid" "Sigmoid" []).net.layers 4).map LayerData.type = some "Sigmoid" ∧
    (mapFind (c8stFin "nn.ReLU" "ReLU" [] "nn.Sigmoid" "Sigmoid" []).net.layers 5).map LayerData.type = some "Eltwise" ∧
    (mapFind (c8stFin "nn.ReLU" "ReLU" [] "nn.Sigmoid" "Sigmoid" []).net.layers 5).map LayerData.params =
      some [("operation", DVal.s "sum")] ∧
    (mapFind (c8stFin "nn.ReLU" "ReLU" [] "nn.Sigmoid" "Sigmoid" []).net.layers 5).map LayerData.inputBlobsId =
      some ((getUnconnectedOutLayers (c8stMid "nn.ReLU" "ReLU" [] "nn.Sigmoid" "Sigmoid" []).net).map
        (fun i => Pin.mk i 0))) :=
  ⟨by decide, by decide, by decide, by decide,
   c8_caddtable_import 0 "nn.ReLU" "ReLU" [] "nn.Sigmoid" "Sigmoid" []
     (by decide) (by decide) (by decide) (by decide)⟩

end Dnn

namespace Dnn

/-! ### C7 groundwork: `std::map` and `std::set` lemmas over the sorted
association lists. -/

theorem mapFind_mem_isSome {α : Type} {m : List (Int × α)} {k : Int}
    (h : k ∈ m.map Prod.fst) : (mapFind m k).isSome := by
  induction m with
  | nil => simp at h
  | cons p rest ih =>
    obtain ⟨k', v⟩ := p
    by_cases hk : k' = k
    · simp [mapFind, hk]
    · simp only [List.map_cons, List.mem_cons] at h
      rcases h with h | h
    -- h : k = k' contradicts hk
      · exact absurd h.symm hk
      · simp only [mapFind, if_neg hk]
        exact ih h

theorem mapFind_mapSet_eq {α : Type} (m : List (Int × α)) (k : Int) (v : α) :
    mapFind (mapSet m k v) k = some v := by
  induction m with
  | nil => simp [mapSet, mapFind]
  | cons p rest ih =>
    obtain ⟨k', v'⟩ := p
    by_cases h1 : k < k'
    · simp [mapSet, mapFind, h1]
    · by_cases h2 : k = k'
      · simp [mapSet, mapFind, h1, h2]
      · simp only [mapSet, if_neg h1, if_neg h2, mapFind]
        rw [if_neg (fun he => h2 he.symm)]
        exact ih

/-- Keys pairwise increasing: the `std::map` representation invariant. -/
def SortedK {α : Type} (m : List (Int × α)) : Prop :=
  (m.map Prod.fst).Pairwise (· < ·)

theorem sortedK_cons {α : Type} {k : Int} {v : α} {rest : List (Int × α)}
    (h : SortedK ((k, v) :: rest)) :
    (∀ q ∈ rest, k < q.1) ∧ SortedK rest := by
  rw [SortedK, List.map_cons, List.pairwise_cons] at h
  exact ⟨fun q hq => h.1 q.1 (List.mem_map_of_mem Prod.fst hq), h.2⟩

theorem mapFind_some_mem_keys {α : Type} {m : List (Int × α)} {k : Int} {v : α}
    (h : mapFind m k = some v) : k ∈ m.map Prod.fst := by
  induction m with
  | nil => simp [mapFind] at h
  | cons p rest ih =>
    obtain ⟨k', v'⟩ := p
    by_cases h2 : k' = k
    · simp [h2]
    · simp only [mapFind, if_neg h2] at h
      simp only [List.map_cons, List.mem_cons]
      exact Or.inr (ih h)

theorem mapSet_self {α : Type} {m : List (Int × α)} {k : Int} {v : α}
    (hs : SortedK m) (h : mapFind m k = some v) : mapSet m k v = m := by
  induction m with
  | nil => simp [mapFind] at h
  | cons p rest ih =>
    obtain ⟨k', v'⟩ := p
    obtain ⟨hlt, hrest⟩ := sortedK_cons hs
    by_cases h2 : k' = k
    · subst h2
      have h' : v' = v := by simpa [mapFind] using h
      rw [← h']
      simp [mapSet]
    · simp only [mapFind, if_neg h2] at h
      have hk : k' < k := by
        obtain ⟨q, hq, hqk⟩ := List.mem_map.mp (mapFind_some_mem_keys h)
        have := hlt q hq
        omega
      simp only [mapSet, if_neg (by omega : ¬ k < k'),
        if_neg (show ¬ k = k' from fun he => h2 he.symm)]
      rw [ih hrest h]

theorem mapSet_keys {α : Type} {m : List (Int × α)} {k : Int} {v w : α}
    (hs : SortedK m) (h : mapFind m k = some w) :
    (mapSet m k v).map Prod.fst = m.map Prod.fst := by
  induction m with
  | nil => simp [mapFind] at h
  | cons p rest ih =>
    obtain ⟨k', v'⟩ := p
    obtain ⟨hlt, hrest⟩ := sortedK_cons hs
    by_cases h2 : k' = k
    · subst h2
      simp [mapSet]
    · simp only [mapFind, if_neg h2] at h
      have hk : k' < k := by
        obtain ⟨q, hq, hqk⟩ := List.mem_map.mp (mapFind_some_mem_keys h)
        have := hlt q hq
        omega
      simp only [mapSet, if_neg (by omega : ¬ k < k'),
        if_neg (show ¬ k = k' from fun he => h2 he.symm), List.map_cons]
      rw [ih hrest h]

theorem mapFind_mapSet_ne {α : Type} (m : List (Int × α)) (k k' : Int) (v : α)
    (h : k' ≠ k) : mapFind (mapSet m k v) k' = mapFind m k' := by
  induction m with
  | nil => simp [mapSet, mapFind, if_neg (show ¬ k = k' from fun he => h he.symm)]
  | cons p rest ih =>
    obtain ⟨kq, vq⟩ := p
    by_cases h1 : k < kq
    · simp only [mapSet, if_pos h1, mapFind]
      rw [if_neg (fun he => h he.symm)]
    · by_cases h2 : k = kq
      · simp only [mapSet, if_neg h1, if_pos h2, mapFind]
        subst h2
        rw [if_neg (fun he => h he.symm), if_neg (fun he => h he.symm)]
      · simp only [mapSet, if_neg h1, if_neg h2, mapFind]
        by_cases h3 : kq = k'
        · rw [if_pos h3, if_pos h3]
        · rw [if_neg h3, if_neg h3]
          exact ih

end Dnn

namespace Dnn

/-! ### `setInsert` stability: re-folding the same pins is a no-op. -/

theorem setInsert_setInsert (l : List Int) (x : Int) :
    setInsert (setInsert l x) x = setInsert l x := by
  induction l with
  | nil => simp [setInsert]
  | cons y r ih =>
    by_cases h1 : x < y
    · simp [setInsert, h1, lt_irrefl]
    · by_cases h2 : x = y
      · simp [setInsert, h1, h2]
      · simp only [setInsert, if_neg h1, if_neg h2]
        rw [ih]

theorem setInsert_stable_insert {l : List Int} {x : Int} (y : Int)
    (h : setInsert l x = l) : setInsert (setInsert l y) x = setInsert l y := by
  induction l with
  | nil => simp [setInsert] at h
  | cons z r ih =>
    by_cases hx1 : x < z
    · exfalso
      have hlen : (setInsert (z :: r) x).length = (z :: r).length := by rw [h]
      simp [setInsert, hx1] at hlen
    · by_cases hx2 : x = z
      · subst hx2
        by_cases hy1 : y < x
        · simp [setInsert, hy1, show ¬ x < y by omega, show ¬ x = y by omega, lt_irrefl]
        · by_cases hy2 : y = x
          · simpa [setInsert, hy1, hy2, lt_irrefl] using h
          · simp [setInsert, hy1, hy2, lt_irrefl]
      · have hr : setInsert r x = r := by
          have := h
          simp only [setInsert, if_neg hx1, if_neg hx2, List.cons.injEq] at this
          exact this.2
        by_cases hy1 : y < z
        · simp [setInsert, hy1, hx1, hx2,
            show ¬ x < y by omega, show ¬ x = y by omega, hr]
        · by_cases hy2 : y = z
          · simp only [setInsert, if_neg hy1, if_pos hy2]
            exact h
          · simp only [setInsert, if_neg hy1, if_neg hy2, if_neg hx1, if_neg hx2]
            rw [ih hr]

end Dnn

namespace Dnn

/-- The `addLayerInput`-recording fold of `allocateLayer`:
`for pin in inputBlobsId: inputLayersId.insert(pin.lid)`. -/
def lidFold (ps : List Pin) (acc : List Int) : List Int :=
  ps.foldl (fun a p => setInsert a p.lid) acc

theorem setInsert_stable_fold (ps : List Pin) :
    ∀ (acc : List Int) (x : Int), setInsert acc x = acc →
      setInsert (lidFold ps acc) x = lidFold ps acc := by
  induction ps with
  | nil => intro acc x h; exact h
  | cons q rest ih =>
    intro acc x h
    exact ih (setInsert acc q.lid) x (setInsert_stable_insert q.lid h)

theorem lidFold_stable_mem (ps : List Pin) :
    ∀ (acc : List Int), ∀ p ∈ ps, setInsert (lidFold ps acc) p.lid = lidFold ps acc := by
  induction ps with
  | nil => intro acc p hp; simp at hp
  | cons q rest ih =>
    intro acc p hp
    rcases List.mem_cons.mp hp with rfl | hp
    · exact setInsert_stable_fold rest (setInsert acc p.lid) p.lid
        (setInsert_setInsert acc p.lid)
    · exact ih (setInsert acc q.lid) p hp

theorem lidFold_noop (ps : List Pin) (R : List Int)
    (h : ∀ p ∈ ps, setInsert R p.lid = R) : lidFold ps R = R := by
  induction ps with
  | nil => rfl
  | cons q rest ih =>
    show lidFold rest (setInsert R q.lid) = R
    rw [h q (by simp)]
    exact ih (fun p hp => h p (List.mem_cons_of_mem _ hp))

theorem lidFold_idem (ps : List Pin) (acc : List Int) :
    lidFold ps (lidFold ps acc) = lidFold ps acc :=
  lidFold_noop ps (lidFold ps acc) (lidFold_stable_mem ps acc)

end Dnn

namespace Dnn

theorem resizeBlobs_len (bs : List MatM) (n : Nat) : (resizeBlobs bs n).length = n := by
  unfold resizeBlobs
  split_ifs with h
  · simp [h]
  · simp
    omega

theorem resizeBlobs_self {bs : List MatM} {n : Nat} (h : bs.length = n) :
    resizeBlobs bs n = bs := by
  unfold resizeBlobs
  rw [if_pos (le_of_eq h.symm), ← h, List.take_length]

/-- Re-running the output loop on blobs whose recorded shapes already match the
inferred shapes touches nothing: same tensors, same storage counter. -/
theorem allocOutputs_noop (net : NetImpl) (inp : Bool) (pins : List Pin) :
    ∀ (shps : List (List Nat)) (blobs : List MatM) (sid i : Nat),
      (∀ j, j < shps.length → (blobs.getD (i + j) MatM.empty).shp = shps.getD j []) →
      allocOutputs net inp pins shps blobs sid i = .ok (blobs, sid) := by
  intro shps
  induction shps with
  | nil => intro blobs sid i h; rfl
  | cons shp rest ih =>
    intro blobs sid i h
    have h0 : (blobs.getD i MatM.empty).shp = shp := by
      have := h 0 (by simp)
      simpa using this
    simp only [allocOutputs]
    rw [if_neg (by push_neg; simpa using h0)]
    exact ih blobs sid (i + 1) (fun j hj => by
      have := h (j + 1) (by simpa using Nat.succ_lt_succ hj)
      simpa [Nat.add_comm, Nat.add_assoc, Nat.add_left_comm] using this)

/-- The output loop establishes the recorded-shape invariant: positions below
`i` are untouched, and every processed position records the inferred shape. -/
theorem allocOutputs_post (net : NetImpl) (inp : Bool) (pins : List Pin) :
    ∀ (shps : List (List Nat)) (blobs : List MatM) (sid i : Nat)
      (blobs' : List MatM) (sid' : Nat),
      i + shps.length ≤ blobs.length →
      allocOutputs net inp pins shps blobs sid i = .ok (blobs', sid') →
      blobs'.length = blobs.length ∧
      (∀ k, k < i → blobs'.get? k = blobs.get? k) ∧
      (∀ j, j < shps.length → (blobs'.getD (i + j) MatM.empty).shp = shps.getD j []) := by
  intro shps
  induction shps with
  | nil =>
    intro blobs sid i blobs' sid' hb h
    have h' : (Except.ok (blobs, sid) : Except NErr (List MatM × Nat)) =
        Except.ok (blobs', sid') := h
    rw [Except.ok.injEq, Prod.mk.injEq] at h'
    refine ⟨by rw [h'.1], fun k _ => by rw [h'.1], fun j hj => by simp at hj⟩
  | cons shp rest ih =>
    intro blobs sid i blobs' sid' hb h
    have hi : i < blobs.length := by simp at hb; omega
    simp only [allocOutputs] at h
    have hstep : ∀ (b2 : List MatM) (sid2 : Nat), b2 = blobs.set i ⟨shp, sid2⟩ →
        ∀ sid3, allocOutputs net inp pins rest b2 sid3 (i + 1) = .ok (blobs', sid') →
        blobs'.length = blobs.length ∧
        (∀ k, k < i → blobs'.get? k = blobs.get? k) ∧
        (∀ j, j < (shp :: rest).length →
          (blobs'.getD (i + j) MatM.empty).shp = (shp :: rest).getD j []) := by
      intro b2 sid2 hb2 sid3 hrec
      obtain ⟨hlen, hunt, hsh⟩ := ih b2 sid3 (i + 1) blobs' sid'
        (by rw [hb2]; simp at hb ⊢; omega) hrec
      refine ⟨by rw [hlen, hb2]; simp, ?_, ?_⟩
      · intro k hk
        rw [hunt k (by omega), hb2, List.get?_eq_getElem?, List.get?_eq_getElem?,
          List.getElem?_set_ne (by omega)]
      · intro j hj
        match j with
        | 0 =>
          have huse : blobs'.get? i = b2.get? i := hunt i (by omega)
          have hb2i : b2.get? i = some ⟨shp, sid2⟩ := by
            rw [hb2, List.get?_eq_getElem?, List.getElem?_set_self]
            simp [List.getElem?_eq_getElem, hi]
          simp only [List.getD, Nat.add_zero]
          rw [huse, hb2i]
          rfl
        | j + 1 =>
          have := hsh j (by simpa using hj)
          simpa [Nat.add_comm, Nat.add_assoc, Nat.add_left_comm] using this
    by_cases hne : (blobs.getD i MatM.empty).shp ≠ shp
    · rw [if_pos hne] at h
      by_cases hinp : inp
      · rw [if_pos hinp] at h
        by_cases hpl : pins.length ≠ blobs.length
        · rw [if_pos hpl] at h
          exact absurd h (by simp)
        · rw [if_neg hpl] at h
          match hd : derefPin net (pins.getD i Pin.default) with
          | none =>
            simp only [hd] at h
            exact absurd h (by simp)
          | some mat =>
            simp only [hd] at h
            by_cases ht : totalOf mat.shp ≠ totalOf shp
            · rw [if_pos ht] at h
              exact absurd h (by simp)
            · rw [if_neg ht] at h
              exact hstep _ mat.sid rfl sid h
      · rw [if_neg hinp] at h
        exact hstep _ sid rfl (sid + 1) h
    · rw [if_neg hne] at h
      obtain ⟨hlen, hunt, hsh⟩ := ih blobs sid (i + 1) blobs' sid'
        (by simp at hb ⊢; omega) h
      refine ⟨hlen, fun k hk => hunt k (by omega), ?_⟩
      intro j hj
      match j with
      | 0 =>
        have huse : blobs'.get? i = blobs.get? i := hunt i (by omega)
        push_neg at hne
        simp only [List.getD, Nat.add_zero]
        rw [huse]
        simpa [List.getD] using hne
      | j + 1 =>
        have := hsh j (by simpa using hj)
        simpa [Nat.add_comm, Nat.add_assoc, Nat.add_left_comm] using this

end Dnn

namespace Dnn

/-- Re-running the internal-buffer loop when every entry already matches or has
zero target size is a no-op. -/
theorem allocInternals_noop :
    ∀ (shps : List (List Nat)) (blobs : List MatM) (sid i : Nat),
      (∀ j, j < shps.length → (blobs.getD (i + j) MatM.empty).shp = shps.getD j [] ∨
        totalOf (shps.getD j []) = 0) →
      allocInternals shps blobs sid i = (blobs, sid) := by
  intro shps
  induction shps with
  | nil => intro blobs sid i h; rfl
  | cons shp rest ih =>
    intro blobs sid i h
    have h0 : (blobs.getD i MatM.empty).shp = shp ∨ totalOf shp = 0 := by
      have := h 0 (by simp)
      simpa using this
    simp only [allocInternals]
    rw [if_neg (by
      intro hc
      rcases h0 with h0 | h0
      · exact hc.1 h0
      · exact hc.2 h0)]
    exact ih blobs sid (i + 1) (fun j hj => by
      have := h (j + 1) (by simpa using Nat.succ_lt_succ hj)
      simpa [Nat.add_comm, Nat.add_assoc, Nat.add_left_comm] using this)

/-- The internal-buffer loop establishes: every processed entry matches the
inferred shape or that shape has zero element count. -/
theorem allocInternals_post :
    ∀ (shps : List (List Nat)) (blobs : List MatM) (sid i : Nat)
      (blobs' : List MatM) (sid' : Nat),
      i + shps.length ≤ blobs.length →
      allocInternals shps blobs sid i = (blobs', sid') →
      blobs'.length = blobs.length ∧
      (∀ k, k < i → blobs'.get? k = blobs.get? k) ∧
      (∀ j, j < shps.length → (blobs'.getD (i + j) MatM.empty).shp = shps.getD j [] ∨
        totalOf (shps.getD j []) = 0) := by
  intro shps
  induction shps with
  | nil =>
    intro blobs sid i blobs' sid' hb h
    have h' : (blobs, sid) = (blobs', sid') := h
    rw [Prod.mk.injEq] at h'
    refine ⟨by rw [h'.1], fun k _ => by rw [h'.1], fun j hj => by simp at hj⟩
  | cons shp rest ih =>
    intro blobs sid i blobs' sid' hb h
    have hi : i < blobs.length := by simp at hb; omega
    simp only [allocInternals] at h
    by_cases hc : (blobs.getD i MatM.empty).shp ≠ shp ∧ totalOf shp ≠ 0
    · rw [if_pos hc] at h
      obtain ⟨hlen, hunt, hsh⟩ := ih (blobs.set i ⟨shp, sid⟩) (sid + 1) (i + 1) blobs' sid'
        (by simp at hb ⊢; omega) h
      refine ⟨by rw [hlen]; simp, ?_, ?_⟩
      · intro k hk
        rw [hunt k (by omega), List.get?_eq_getElem?, List.get?_eq_getElem?,
          List.getElem?_set_ne (by omega)]
      · intro j hj
        match j with
        | 0 =>
          have huse : blobs'.get? i = (blobs.set i ⟨shp, sid⟩).get? i := hunt i (by omega)
          have hb2i : (blobs.set i ⟨shp, sid⟩).get? i = some ⟨shp, sid⟩ := by
            rw [List.get?_eq_getElem?, List.getElem?_set_self]
            simp [List.getElem?_eq_getElem, hi]
          left
          simp only [List.getD, Nat.add_zero]
          rw [huse, hb2i]
          rfl
        | j + 1 =>
          have := hsh j (by simpa using hj)
          simpa [Nat.add_comm, Nat.add_assoc, Nat.add_left_comm] using this
    · rw [if_neg hc] at h
      obtain ⟨hlen, hunt, hsh⟩ := ih blobs sid (i + 1) blobs' sid'
        (by simp at hb ⊢; omega) h
      refine ⟨hlen, fun k hk => hunt k (by omega), ?_⟩
      intro j hj
      match j with
      | 0 =>
        have huse : blobs'.get? i = blobs.get? i := hunt i (by omega)
        rw [Classical.not_and_iff_or_not_not] at hc
        rcases hc with hc | hc
        · push_neg at hc
          left
          simp only [List.getD, Nat.add_zero]
          rw [huse]
          simpa [List.getD] using hc
        · push_neg at hc
          right
          simpa using hc
      | j + 1 =>
        have := hsh j (by simpa using hj)
        simpa [Nat.add_comm, Nat.add_assoc, Nat.add_left_comm] using this

end Dnn

namespace Dnn

/-- A layer record in the exact normal form that `allocateLayer` writes, with
respect to an inferred shape map: pins recorded in `inputLayersId` (so the
recording fold is a no-op), valid input pins bound in `inputBlobs`, existing
parents, and output/internal tensors sized to the inferred shapes. -/
def LayerNormAt (shapes : ShapeMap) (layers : List (Int × LayerData)) (lid : Int)
    (ld : LayerData) : Prop :=
  lidFold ld.inputBlobsId ld.inputLayersId = ld.inputLayersId ∧
  ld.inputBlobsId.all Pin.valid = true ∧
  ld.inputBlobs = ld.inputBlobsId ∧
  (∀ pid ∈ ld.inputLayersId, (mapFind layers pid).isSome = true) ∧
  ∃ lsh, mapFind shapes lid = some lsh ∧
    ¬ lsh.outS.length < ld.requiredOutputs.length ∧
    ld.outputBlobs.length = max 1 lsh.outS.length ∧
    (∀ j, j < lsh.outS.length →
      (ld.outputBlobs.getD j MatM.empty).shp = lsh.outS.getD j []) ∧
    ld.internals.length = lsh.internalS.length ∧
    (∀ j, j < lsh.internalS.length →
      (ld.internals.getD j MatM.empty).shp = lsh.internalS.getD j [] ∨
      totalOf (lsh.internalS.getD j []) = 0)

/-- Every layer of the net is in allocation normal form. -/
def StNorm (shapes : ShapeMap) (st : ASt) : Prop :=
  ∀ lid ld, mapFind st.net.layers lid = some ld →
    LayerNormAt shapes st.net.layers lid ld

/-- Pointwise relation between a net's layer list before and after a pass that
may only set allocation flags. -/
def FlagRel (p q : Int × LayerData) : Prop :=
  q.1 = p.1 ∧ (q.2 = p.2 ∨ q.2 = { p.2 with flag := true })

/-- A state transition that only sets allocation flags: everything else —
including every tensor and the storage counter — is untouched. -/
def FlagStep (st st' : ASt) : Prop :=
  List.Forall₂ FlagRel st.net.layers st'.net.layers ∧
  st'.net.layerNameToId = st.net.layerNameToId ∧
  st'.net.lastLayerId = st.net.lastLayerId ∧
  st'.net.netWasAllocated = st.net.netWasAllocated ∧
  st'.net.netOutputs = st.net.netOutputs ∧
  st'.nextSid = st.nextSid

theorem flagRel_refl (p : Int × LayerData) : FlagRel p p := ⟨rfl, Or.inl rfl⟩

theorem flagStep_refl (st : ASt) : FlagStep st st :=
  ⟨List.forall₂_same.mpr (fun p _ => flagRel_refl p), rfl, rfl, rfl, rfl, rfl⟩

theorem flagRel_trans {p q r : Int × LayerData} (h1 : FlagRel p q) (h2 : FlagRel q r) :
    FlagRel p r := by
  obtain ⟨hk1, hv1⟩ := h1
  obtain ⟨hk2, hv2⟩ := h2
  refine ⟨hk2.trans hk1, ?_⟩
  rcases hv1 with hv1 | hv1 <;> rcases hv2 with hv2 | hv2
  · exact Or.inl (hv2.trans hv1)
  · exact Or.inr (by rw [hv2, hv1])
  · exact Or.inr (by rw [hv2, hv1])
  · exact Or.inr (by rw [hv2, hv1])

theorem forall₂_flagRel_trans {l₁ l₂ l₃ : List (Int × LayerData)}
    (h1 : List.Forall₂ FlagRel l₁ l₂) (h2 : List.Forall₂ FlagRel l₂ l₃) :
    List.Forall₂ FlagRel l₁ l₃ := by
  induction h1 generalizing l₃ with
  | nil => cases h2; exact List.Forall₂.nil
  | cons hpq hrest ih =>
    cases h2 with
    | cons hqr hrest₂ => exact List.Forall₂.cons (flagRel_trans hpq hqr) (ih hrest₂)

theorem flagStep_trans {st₁ st₂ st₃ : ASt} (h1 : FlagStep st₁ st₂) (h2 : FlagStep st₂ st₃) :
    FlagStep st₁ st₃ :=
  ⟨forall₂_flagRel_trans h1.1 h2.1, h2.2.1.trans h1.2.1, h2.2.2.1.trans h1.2.2.1,
   h2.2.2.2.1.trans h1.2.2.2.1, h2.2.2.2.2.1.trans h1.2.2.2.2.1,
   h2.2.2.2.2.2.trans h1.2.2.2.2.2⟩

/-- `mapFind` across a flag-only change: the entry is identical or merely
flagged. -/
theorem flagRel_find {l l' : List (Int × LayerData)}
    (h : List.Forall₂ FlagRel l l') (k : Int) :
    (mapFind l k = none ∧ mapFind l' k = none) ∨
    (∃ ld ld', mapFind l k = some ld ∧ mapFind l' k = some ld' ∧
      (ld' = ld ∨ ld' = { ld with flag := true })) := by
  induction h with
  | nil => exact Or.inl ⟨rfl, rfl⟩
  | cons hpq hrest ih =>
    rename_i p q l₁ l₂
    obtain ⟨k₁, v₁⟩ := p
    obtain ⟨k₂, v₂⟩ := q
    obtain ⟨hk, hv⟩ := hpq
    simp only at hk hv
    subst hk
    by_cases hkk : k₂ = k
    · exact Or.inr ⟨v₁, v₂, by simp [mapFind, hkk], by simp [mapFind, hkk], hv⟩
    · simp only [mapFind, if_neg hkk]
      exact ih

theorem flagRel_keys {l l' : List (Int × LayerData)}
    (h : List.Forall₂ FlagRel l l') : l'.map Prod.fst = l.map Prod.fst := by
  induction h with
  | nil => rfl
  | cons hpq hrest ih => simp [hpq.1, ih]

end Dnn

namespace Dnn

theorem flagRel_isSome {l l' : List (Int × LayerData)}
    (h : List.Forall₂ FlagRel l l') (k : Int) :
    (mapFind l' k).isSome = (mapFind l k).isSome := by
  rcases flagRel_find h k with ⟨h1, h2⟩ | ⟨ld, ld', h1, h2, _⟩
  · rw [h1, h2]
  · rw [h1, h2]
    rfl

theorem stNorm_flagStep {shapes : ShapeMap} {st st' : ASt}
    (hn : StNorm shapes st) (hf : FlagStep st st') : StNorm shapes st' := by
  intro lid ld' hfind'
  rcases flagRel_find hf.1 lid with ⟨h1, h2⟩ | ⟨ld, ld₂, h1, h2, hv⟩
  · rw [h2] at hfind'
    exact Option.noConfusion hfind'
  · rw [h2] at hfind'
    rw [Option.some.injEq] at hfind'
    subst hfind'
    obtain ⟨a, b, c, d, lsh, e, f, g, h, i, j⟩ := hn lid ld h1
    rcases hv with rfl | rfl
    · exact ⟨a, b, c, fun pid hp => by rw [flagRel_isSome hf.1]; exact d pid hp,
        lsh, e, f, g, h, i, j⟩
    · exact ⟨a, b, c, fun pid hp => by rw [flagRel_isSome hf.1]; exact d pid hp,
        lsh, e, f, g, h, i, j⟩

theorem forall₂_flagRel_mapSet {l : List (Int × LayerData)} {k : Int} {v : LayerData}
    (hs : SortedK l) (h : mapFind l k = some v) :
    List.Forall₂ FlagRel l (mapSet l k { v with flag := true }) := by
  induction l with
  | nil => simp [mapFind] at h
  | cons p rest ih =>
    obtain ⟨k', v'⟩ := p
    obtain ⟨hlt, hrest⟩ := sortedK_cons hs
    by_cases h2 : k' = k
    · subst h2
      have hv : v' = v := by simpa [mapFind] using h
      subst hv
      simp only [mapSet, if_neg (lt_irrefl k'), if_pos rfl]
      exact List.Forall₂.cons ⟨rfl, Or.inr rfl⟩
        (List.forall₂_same.mpr (fun p _ => flagRel_refl p))
    · simp only [mapFind, if_neg h2] at h
      have hk : k' < k := by
        obtain ⟨q, hq, hqk⟩ := List.mem_map.mp (mapFind_some_mem_keys h)
        have := hlt q hq
        omega
      simp only [mapSet, if_neg (by omega : ¬ k < k'),
        if_neg (show ¬ k = k' from by omega)]
      exact List.Forall₂.cons (flagRel_refl _) (ih hrest h)

end Dnn

namespace Dnn

theorem sortedK_keys_eq {α : Type} {l l' : List (Int × α)}
    (h : l'.map Prod.fst = l.map Prod.fst) (hs : SortedK l) : SortedK l' := by
  rw [SortedK, h]
  exact hs

/-- Second-pass allocation over a normalized net: every `allocateLayer` call
either runs out of fuel or succeeds while only setting allocation flags —
no tensor changes, no fresh storage. -/
theorem alloc2_combined : ∀ fuel : Nat,
    (∀ (shapes : ShapeMap) (st : ASt) (lid : Int),
      StNorm shapes st → SortedK st.net.layers →
      (mapFind st.net.layers lid).isSome = true →
      allocLayer fuel shapes lid st = .error .fuelErr ∨
      ∃ st', allocLayer fuel shapes lid st = .ok st' ∧ FlagStep st st' ∧
        ∃ ld', mapFind st'.net.layers lid = some ld' ∧ ld'.flag = true) ∧
    (∀ (shapes : ShapeMap) (st : ASt) (pids : List Int),
      StNorm shapes st → SortedK st.net.layers →
      (∀ pid ∈ pids, (mapFind st.net.layers pid).isSome = true) →
      allocParents fuel shapes pids st = .error .fuelErr ∨
      ∃ st', allocParents fuel shapes pids st = .ok st' ∧ FlagStep st st') := by
  intro fuel
  induction fuel with
  | zero => exact ⟨fun _ _ _ _ _ _ => Or.inl rfl, fun _ _ _ _ _ _ => Or.inl rfl⟩
  | succ f ih =>
    obtain ⟨ihA, ihB⟩ := ih
    constructor
    · intro shapes st lid hn hs hsome
      obtain ⟨ld, hld⟩ := Option.isSome_iff_exists.mp hsome
      by_cases hf : ld.flag
      · refine Or.inr ⟨st, ?_, flagStep_refl st, ld, hld, hf⟩
        simp only [allocLayer, hld, if_pos hf]
      · obtain ⟨hfold, hvalid, hinblobs, hpex, lsh, hlsh, hreq, holen, hosh, hilen, hish⟩ :=
          hn lid ld hld
        have hfold' : ld.inputBlobsId.foldl (fun acc p => setInsert acc p.lid)
            ld.inputLayersId = ld.inputLayersId := hfold
        have hbody : allocLayer (f + 1) shapes lid st =
            (match allocParents f shapes ld.inputLayersId st with
             | .error e => .error e
             | .ok st₂ =>
               match mapFind st₂.net.layers lid with
               | none => .error .ub
               | some ld₂ =>
                 if ¬ ld₂.inputBlobsId.all Pin.valid then .error .assertErr
                 else
                   match mapFind shapes lid with
                   | none => .error .assertErr
                   | some lsh =>
                     if lsh.outS.length < ld₂.requiredOutputs.length then .error .assertErr
                     else
                       let resized := resizeBlobs ld₂.outputBlobs (max 1 lsh.outS.length)
                       match allocOutputs st₂.net lsh.inplace ld₂.inputBlobsId
                           lsh.outS resized st₂.nextSid 0 with
                       | .error e => .error e
                       | .ok (outBlobs, sid₁) =>
                         let (intBlobs, sid₂) := allocInternals lsh.internalS
                           (resizeBlobs ld₂.internals lsh.internalS.length) sid₁ 0
                         let ld₃ := { ld₂ with inputBlobs := ld₂.inputBlobsId,
                                               outputBlobs := outBlobs,
                                               internals := intBlobs,
                                               flag := true }
                         .ok { net := { st₂.net with
                                 layers := mapSet st₂.net.layers lid ld₃ },
                               nextSid := sid₂ }) := by
          simp only [allocLayer, hld, if_neg hf]
          rw [hfold']
          rw [show ({ ld with inputLayersId := ld.inputLayersId } : LayerData) = ld from rfl]
          rw [mapSet_self hs hld]
        rw [hbody]
        rcases ihB shapes st ld.inputLayersId hn hs hpex with hfe | ⟨st₂, hok, hstep₂⟩
        · rw [hfe]
          exact Or.inl rfl
        · rcases flagRel_find hstep₂.1 lid with ⟨h1, _⟩ | ⟨ldx, ld₂, h1, hld₂, hv⟩
          · rw [h1] at hld
            exact Option.noConfusion hld
          · have hldeq : ldx = ld := by
              rw [h1, Option.some.injEq] at hld
              exact hld
            rw [hldeq] at hv
            have hpins₂ : ld₂.inputBlobsId = ld.inputBlobsId := by
              rcases hv with rfl | rfl <;> rfl
            have hreq₂ : ld₂.requiredOutputs = ld.requiredOutputs := by
              rcases hv with rfl | rfl <;> rfl
            have hout₂ : ld₂.outputBlobs = ld.outputBlobs := by
              rcases hv with rfl | rfl <;> rfl
            have hint₂ : ld₂.internals = ld.internals := by
              rcases hv with rfl | rfl <;> rfl
            have hinb₂ : ld₂.inputBlobs = ld.inputBlobs := by
              rcases hv with rfl | rfl <;> rfl
            have hs₂ : SortedK st₂.net.layers :=
              sortedK_keys_eq (flagRel_keys hstep₂.1) hs
            have e1 : ld₂.inputBlobsId = ld₂.inputBlobs := by
              rw [hpins₂, hinb₂]
              exact hinblobs.symm
            have hld3 : ({ ld₂ with
                  inputBlobs := ld₂.inputBlobsId,
                  outputBlobs := ld₂.outputBlobs,
                  internals := ld₂.internals,
                  flag := true } : LayerData) = { ld₂ with flag := true } := by
              rw [e1]
            have hosh₂ : ∀ j, j < lsh.outS.length →
                (ld₂.outputBlobs.getD (0 + j) MatM.empty).shp = lsh.outS.getD j [] := by
              intro j hj
              rw [hout₂]
              simpa using hosh j hj
            have hish₂ : ∀ j, j < lsh.internalS.length →
                (ld₂.internals.getD (0 + j) MatM.empty).shp = lsh.internalS.getD j [] ∨
                totalOf (lsh.internalS.getD j []) = 0 := by
              intro j hj
              rw [hint₂]
              simpa using hish j hj
            simp only [hok, hld₂]
            rw [if_neg (show ¬¬(ld₂.inputBlobsId.all Pin.valid = true) from
              not_not_intro (by rw [hpins₂]; exact hvalid))]
            simp only [hlsh]
            rw [if_neg (show ¬ lsh.outS.length < ld₂.requiredOutputs.length from by
              rw [hreq₂]; exact hreq)]
            simp only [resizeBlobs_self (show ld₂.outputBlobs.length = max 1 lsh.outS.length
                from by rw [hout₂]; exact holen),
              allocOutputs_noop st₂.net lsh.inplace ld₂.inputBlobsId lsh.outS
                ld₂.outputBlobs st₂.nextSid 0 hosh₂,
              resizeBlobs_self (show ld₂.internals.length = lsh.internalS.length
                from by rw [hint₂]; exact hilen),
              allocInternals_noop lsh.internalS ld₂.internals st₂.nextSid 0 hish₂]
            rw [hld3]
            refine Or.inr ⟨_, rfl, ?_, ?_⟩
            · exact flagStep_trans hstep₂
                ⟨forall₂_flagRel_mapSet hs₂ hld₂, rfl, rfl, rfl, rfl, rfl⟩
            · refine ⟨_, mapFind_mapSet_eq _ _ _, rfl⟩
    · intro shapes st pids hn hs hpex
      match pids with
      | [] => exact Or.inr ⟨st, rfl, flagStep_refl st⟩
      | pid :: rest =>
        rcases ihA shapes st pid hn hs (hpex pid (by simp)) with hfe | ⟨st', hok, hstep, _⟩
        · refine Or.inl ?_
          show (match allocLayer f shapes pid st with
            | Except.error e => (Except.error e : Except NErr ASt)
            | Except.ok st' => allocParents f shapes rest st') = _
          rw [hfe]
        · have hn' := stNorm_flagStep hn hstep
          have hs' := sortedK_keys_eq (flagRel_keys hstep.1) hs
          have hpex' : ∀ q ∈ rest, (mapFind st'.net.layers q).isSome = true := by
            intro q hq
            rw [flagRel_isSome hstep.1]
            exact hpex q (List.mem_cons_of_mem _ hq)
          rcases ihB shapes st' rest hn' hs' hpex' with hfe₂ | ⟨st'', hok₂, hstep₂⟩
          · refine Or.inl ?_
            show (match allocLayer f shapes pid st with
              | Except.error e => (Except.error e : Except NErr ASt)
              | Except.ok st' => allocParents f shapes rest st') = _
            simp only [hok]
            exact hfe₂
          · refine Or.inr ⟨st'', ?_, flagStep_trans hstep hstep₂⟩
            show (match allocLayer f shapes pid st with
              | Except.error e => (Except.error e : Except NErr ASt)
              | Except.ok st' => allocParents f shapes rest st') = _
            simp only [hok]
            exact hok₂

end Dnn

namespace Dnn

theorem flag_persists {st st' : ASt} (hf : FlagStep st st') {lid : Int} {ld : LayerData}
    (h : mapFind st.net.layers lid = some ld) (hfl : ld.flag = true) :
    ∃ ld', mapFind st'.net.layers lid = some ld' ∧ ld'.flag = true := by
  rcases flagRel_find hf.1 lid with ⟨h1, _⟩ | ⟨ldx, ld₂, h1, h2, hv⟩
  · rw [h1] at h
    exact Option.noConfusion h
  · rw [h1, Option.some.injEq] at h
    refine ⟨ld₂, h2, ?_⟩
    rcases hv with rfl | rfl
    · rw [h]
      exact hfl
    · rfl

theorem alloc2All : ∀ (ids : List Int) (fuel : Nat) (shapes : ShapeMap) (st : ASt),
    StNorm shapes st → SortedK st.net.layers →
    (∀ lid ∈ ids, (mapFind st.net.layers lid).isSome = true) →
    allocAll fuel shapes ids st = .error .fuelErr ∨
    ∃ st', allocAll fuel shapes ids st = .ok st' ∧ FlagStep st st' ∧
      ∀ lid ∈ ids, ∃ ld', mapFind st'.net.layers lid = some ld' ∧ ld'.flag = true := by
  intro ids
  induction ids with
  | nil =>
    intro fuel shapes st hn hs hex
    exact Or.inr ⟨st, rfl, flagStep_refl st, fun lid h => by simp at h⟩
  | cons lid rest ih =>
    intro fuel shapes st hn hs hex
    rcases (alloc2_combined fuel).1 shapes st lid hn hs (hex lid (by simp)) with
      hfe | ⟨st', hok, hstep, ld', hld', hfl'⟩
    · refine Or.inl ?_
      show (match allocLayer fuel shapes lid st with
        | Except.error e => (Except.error e : Except NErr ASt)
        | Except.ok st' => allocAll fuel shapes rest st') = _
      rw [hfe]
    · have hn' := stNorm_flagStep hn hstep
      have hs' := sortedK_keys_eq (flagRel_keys hstep.1) hs
      have hex' : ∀ q ∈ rest, (mapFind st'.net.layers q).isSome = true := by
        intro q hq
        rw [flagRel_isSome hstep.1]
        exact hex q (List.mem_cons_of_mem _ hq)
      rcases ih fuel shapes st' hn' hs' hex' with hfe₂ | ⟨st'', hok₂, hstep₂, hflags⟩
      · refine Or.inl ?_
        show (match allocLayer fuel shapes lid st with
          | Except.error e => (Except.error e : Except NErr ASt)
          | Except.ok st' => allocAll fuel shapes rest st') = _
        simp only [hok]
        exact hfe₂
      · refine Or.inr ⟨st'', ?_, flagStep_trans hstep hstep₂, ?_⟩
        · show (match allocLayer fuel shapes lid st with
            | Except.error e => (Except.error e : Except NErr ASt)
            | Except.ok st' => allocAll fuel shapes rest st') = _
          simp only [hok]
          exact hok₂
        · intro q hq
          rcases List.mem_cons.mp hq with rfl | hq
          · exact flag_persists hstep₂ hld' hfl'
          · exact hflags q hq

end Dnn

namespace Dnn

/-- Value-level relation between a layer record before and after a first
allocation pass: the shape-inference-relevant fields are untouched, the
recorded parent set is unchanged or the pin fold of the old one, and a set
flag is never cleared. -/
def PassRelV (ld ld' : LayerData) : Prop :=
  ld'.type = ld.type ∧ ld'.params = ld.params ∧
  ld'.inputBlobsId = ld.inputBlobsId ∧ ld'.requiredOutputs = ld.requiredOutputs ∧
  (ld'.inputLayersId = ld.inputLayersId ∨
   ld'.inputLayersId = lidFold ld.inputBlobsId ld.inputLayersId) ∧
  (ld.flag = true → ld'.flag = true)

def PassRel (p q : Int × LayerData) : Prop := q.1 = p.1 ∧ PassRelV p.2 q.2

theorem passRelV_refl (ld : LayerData) : PassRelV ld ld :=
  ⟨rfl, rfl, rfl, rfl, Or.inl rfl, id⟩

theorem passRelV_trans {a b c : LayerData} (h1 : PassRelV a b) (h2 : PassRelV b c) :
    PassRelV a c := by
  obtain ⟨t1, p1, i1, r1, l1, f1⟩ := h1
  obtain ⟨t2, p2, i2, r2, l2, f2⟩ := h2
  refine ⟨t2.trans t1, p2.trans p1, i2.trans i1, r2.trans r1, ?_, fun h => f2 (f1 h)⟩
  rcases l1 with l1 | l1 <;> rcases l2 with l2 | l2
  · exact Or.inl (l2.trans l1)
  · rw [l2, i1, l1]
    exact Or.inr rfl
  · rw [l2, l1]
    exact Or.inr rfl
  · rw [l2, i1, l1, lidFold_idem]
    exact Or.inr rfl

theorem passRel_refl (p : Int × LayerData) : PassRel p p := ⟨rfl, passRelV_refl p.2⟩

theorem passRel_trans {p q r : Int × LayerData} (h1 : PassRel p q) (h2 : PassRel q r) :
    PassRel p r := ⟨h2.1.trans h1.1, passRelV_trans h1.2 h2.2⟩

theorem forall₂_passRel_trans {l₁ l₂ l₃ : List (Int × LayerData)}
    (h1 : List.Forall₂ PassRel l₁ l₂) (h2 : List.Forall₂ PassRel l₂ l₃) :
    List.Forall₂ PassRel l₁ l₃ := by
  induction h1 generalizing l₃ with
  | nil => cases h2; exact List.Forall₂.nil
  | cons hpq hrest ih =>
    cases h2 with
    | cons hqr hrest₂ => exact List.Forall₂.cons (passRel_trans hpq hqr) (ih hrest₂)

theorem passRel_keys {l l' : List (Int × LayerData)}
    (h : List.Forall₂ PassRel l l') : l'.map Prod.fst = l.map Prod.fst := by
  induction h with
  | nil => rfl
  | cons hpq hrest ih => simp [hpq.1, ih]

theorem passRel_find {l l' : List (Int × LayerData)}
    (h : List.Forall₂ PassRel l l') (k : Int) :
    (mapFind l k = none ∧ mapFind l' k = none) ∨
    (∃ ld ld', mapFind l k = some ld ∧ mapFind l' k = some ld' ∧ PassRelV ld ld') := by
  induction h with
  | nil => exact Or.inl ⟨rfl, rfl⟩
  | cons hpq hrest ih =>
    rename_i p q l₁ l₂
    obtain ⟨k₁, v₁⟩ := p
    obtain ⟨k₂, v₂⟩ := q
    obtain ⟨hk, hv⟩ := hpq
    simp only at hk hv
    subst hk
    by_cases hkk : k₂ = k
    · exact Or.inr ⟨v₁, v₂, by simp [mapFind, hkk], by simp [mapFind, hkk], hv⟩
    · simp only [mapFind, if_neg hkk]
      exact ih

theorem forall₂_passRel_mapSet {l : List (Int × LayerData)} {k : Int} {v w : LayerData}
    (hs : SortedK l) (h : mapFind l k = some v) (hvw : PassRelV v w) :
    List.Forall₂ PassRel l (mapSet l k w) := by
  induction l with
  | nil => simp [mapFind] at h
  | cons p rest ih =>
    obtain ⟨k', v'⟩ := p
    obtain ⟨hlt, hrest⟩ := sortedK_cons hs
    by_cases h2 : k' = k
    · subst h2
      have hv : v' = v := by simpa [mapFind] using h
      subst hv
      simp only [mapSet, if_neg (lt_irrefl k'), if_pos rfl]
      exact List.Forall₂.cons ⟨rfl, hvw⟩
        (List.forall₂_same.mpr (fun p _ => passRel_refl p))
    · simp only [mapFind, if_neg h2] at h
      have hk : k' < k := by
        obtain ⟨q, hq, hqk⟩ := List.mem_map.mp (mapFind_some_mem_keys h)
        have := hlt q hq
        omega
      simp only [mapSet, if_neg (by omega : ¬ k < k'),
        if_neg (show ¬ k = k' from by omega)]
      exact List.Forall₂.cons (passRel_refl _) (ih hrest h)

/-- `LayerNormAt` only reads the key set of the ambient layer list. -/
theorem layerNormAt_keys {shapes : ShapeMap} {l l' : List (Int × LayerData)}
    {lid : Int} {ld : LayerData}
    (hk : l'.map Prod.fst = l.map Prod.fst)
    (h : LayerNormAt shapes l lid ld) : LayerNormAt shapes l' lid ld := by
  obtain ⟨a, b, c, d, lsh, e, f, g, h1, i, j⟩ := h
  refine ⟨a, b, c, fun pid hp => ?_, lsh, e, f, g, h1, i, j⟩
  have hsome := d pid hp
  obtain ⟨v, hv⟩ := Option.isSome_iff_exists.mp hsome
  have : pid ∈ l'.map Prod.fst := by
    rw [hk]
    exact mapFind_some_mem_keys hv
  exact mapFind_mem_isSome this

/-- The first-pass invariant: every already-flagged layer is in allocation
normal form. -/
def AInv (shapes : ShapeMap) (st : ASt) : Prop :=
  ∀ lid ld, mapFind st.net.layers lid = some ld → ld.flag = true →
    LayerNormAt shapes st.net.layers lid ld

end Dnn

namespace Dnn

/-- The recorded parent set `allocateLayer` computes. -/
def parentsOf (ld : LayerData) : List Int := lidFold ld.inputBlobsId ld.inputLayersId

def withParents (ld : LayerData) : LayerData :=
  { ld with inputLayersId := parentsOf ld }

def stWith (st : ASt) (lid : Int) (w : LayerData) : ASt :=
  { st with net := { st.net with layers := mapSet st.net.layers lid w } }

theorem isSome_keys_eq {l l' : List (Int × LayerData)} {k : Int}
    (hk : l'.map Prod.fst = l.map Prod.fst)
    (h : (mapFind l k).isSome = true) : (mapFind l' k).isSome = true := by
  obtain ⟨v, hv⟩ := Option.isSome_iff_exists.mp h
  exact mapFind_mem_isSome (by rw [hk]; exact mapFind_some_mem_keys hv)

/-- First pass: a successful `allocateLayer` changes a layer only in the ways
`PassRel` allows, and leaves the target layer flagged and — given that every
flagged layer was already normalized — in allocation normal form. -/
theorem pass1_combined : ∀ fuel : Nat,
    (∀ (shapes : ShapeMap) (lid : Int) (st st' : ASt),
      allocLayer fuel shapes lid st = .ok st' →
      SortedK st.net.layers →
      List.Forall₂ PassRel st.net.layers st'.net.layers ∧
      (mapFind st'.net.layers lid).isSome = true ∧
      st'.nextSid = st'.nextSid ∧
      (AInv shapes st →
        AInv shapes st' ∧ ∃ ld', mapFind st'.net.layers lid = some ld' ∧ ld'.flag = true)) ∧
    (∀ (shapes : ShapeMap) (pids : List Int) (st st' : ASt),
      allocParents fuel shapes pids st = .ok st' →
      SortedK st.net.layers →
      List.Forall₂ PassRel st.net.layers st'.net.layers ∧
      (AInv shapes st → AInv shapes st') ∧
      (∀ pid ∈ pids, (mapFind st'.net.layers pid).isSome = true)) := by
  intro fuel
  induction fuel with
  | zero =>
    constructor
    · intro shapes lid st st' h
      exact absurd h (by simp [allocLayer])
    · intro shapes pids st st' h
      exact absurd h (by simp [allocParents])
  | succ f ih =>
    obtain ⟨ihA, ihB⟩ := ih
    constructor
    · intro shapes lid st st' h hs
      rcases hld : mapFind st.net.layers lid with _ | ld
      · simp only [allocLayer, hld] at h
        exact absurd h (by simp)
      · by_cases hf : ld.flag
        · simp only [allocLayer, hld, if_pos hf, Except.ok.injEq] at h
          subst h
          exact ⟨List.forall₂_same.mpr (fun p _ => passRel_refl p),
            by rw [hld]; rfl, rfl,
            fun hI => ⟨hI, ld, hld, hf⟩⟩
        · have hbody : allocLayer (f + 1) shapes lid st =
              (match allocParents f shapes (parentsOf ld) (stWith st lid (withParents ld)) with
               | .error e => .error e
               | .ok st₂ =>
                 match mapFind st₂.net.layers lid with
                 | none => .error .ub
                 | some ld₂ =>
                   if ¬ ld₂.inputBlobsId.all Pin.valid then .error .assertErr
                   else
                     match mapFind shapes lid with
                     | none => .error .assertErr
                     | some lsh =>
                       if lsh.outS.length < ld₂.requiredOutputs.length then .error .assertErr
                       else
                         match allocOutputs st₂.net lsh.inplace ld₂.inputBlobsId
                             lsh.outS (resizeBlobs ld₂.outputBlobs (max 1 lsh.outS.length))
                             st₂.nextSid 0 with
                         | .error e => .error e
                         | .ok (outBlobs, sid₁) =>
                           match allocInternals lsh.internalS
                               (resizeBlobs ld₂.internals lsh.internalS.length) sid₁ 0 with
                           | (intBlobs, sid₂) =>
                             .ok { net := { st₂.net with
                                     layers := mapSet st₂.net.layers lid
                                       { ld₂ with inputBlobs := ld₂.inputBlobsId,
                                                  outputBlobs := outBlobs,
                                                  internals := intBlobs,
                                                  flag := true } },
                                   nextSid := sid₂ }) := by
            simp only [allocLayer, hld, if_neg hf]
            rfl
          rw [hbody] at h
          rcases hpar : allocParents f shapes (parentsOf ld) (stWith st lid (withParents ld))
            with e | st₂
          · simp only [hpar] at h
            exact absurd h (by simp)
          · simp only [hpar] at h
            have hfind₁ : mapFind (stWith st lid (withParents ld)).net.layers lid =
                some (withParents ld) := mapFind_mapSet_eq _ _ _
            have hkeys₁ : (stWith st lid (withParents ld)).net.layers.map Prod.fst =
                st.net.layers.map Prod.fst := mapSet_keys hs hld
            have hs₁ : SortedK (stWith st lid (withParents ld)).net.layers :=
              sortedK_keys_eq hkeys₁ hs
            have hrel₁ : List.Forall₂ PassRel st.net.layers
                (stWith st lid (withParents ld)).net.layers :=
              forall₂_passRel_mapSet hs hld
                ⟨rfl, rfl, rfl, rfl, Or.inr rfl, fun hx => hx⟩
            obtain ⟨hrel₂, hInv₂, hpex₂⟩ := ihB shapes (parentsOf ld)
              (stWith st lid (withParents ld)) st₂ hpar hs₁
            have hs₂ : SortedK st₂.net.layers :=
              sortedK_keys_eq (passRel_keys hrel₂) hs₁
            rcases hfind₂ : mapFind st₂.net.layers lid with _ | ld₂
            · simp only [hfind₂] at h
              exact absurd h (by simp)
            · simp only [hfind₂] at h
              rcases passRel_find hrel₂ lid with ⟨h1, _⟩ | ⟨ldx, ldy, h1, h2, hPRV⟩
              · rw [h1] at hfind₁
                exact Option.noConfusion hfind₁
              · rw [hfind₁, Option.some.injEq] at h1
                rw [hfind₂, Option.some.injEq] at h2
                rw [← h1] at hPRV
                rw [← h2] at hPRV
                obtain ⟨hty₂, hpa₂, hpin₂, hrq₂, hil₂, _⟩ := hPRV
                have hpin₂' : ld₂.inputBlobsId = ld.inputBlobsId := by
                  rw [hpin₂]
                  rfl
                have hil₂' : ld₂.inputLayersId = parentsOf ld := by
                  rcases hil₂ with hil₂ | hil₂
                  · rw [hil₂]
                    rfl
                  · rw [hil₂]
                    show lidFold (withParents ld).inputBlobsId (withParents ld).inputLayersId = _
                    show lidFold ld.inputBlobsId (parentsOf ld) = _
                    exact lidFold_idem _ _
                by_cases hval : ld₂.inputBlobsId.all Pin.valid = true
                · rw [if_neg (not_not_intro hval)] at h
                  rcases hlsh : mapFind shapes lid with _ | lsh
                  · simp only [hlsh] at h
                    exact absurd h (by simp)
                  · simp only [hlsh] at h
                    by_cases hlen : lsh.outS.length < ld₂.requiredOutputs.length
                    · rw [if_pos hlen] at h
                      exact absurd h (by simp)
                    · rw [if_neg hlen] at h
                      rcases hout : allocOutputs st₂.net lsh.inplace ld₂.inputBlobsId
                          lsh.outS (resizeBlobs ld₂.outputBlobs (max 1 lsh.outS.length))
                          st₂.nextSid 0 with e | p
                      · simp only [hout] at h
                        exact absurd h (by simp)
                      · obtain ⟨outBlobs, sid₁⟩ := p
                        simp only [hout] at h
                        rcases hint : allocInternals lsh.internalS
                            (resizeBlobs ld₂.internals lsh.internalS.length) sid₁ 0
                          with ⟨intBlobs, sid₂⟩
                        simp only [hint] at h
                        have hlay : st'.net.layers = mapSet st₂.net.layers lid
                            { ld₂ with inputBlobs := ld₂.inputBlobsId,
                                       outputBlobs := outBlobs,
                                       internals := intBlobs,
                                       flag := true } := by
                          rw [Except.ok.injEq] at h
                          rw [← h]
                        obtain ⟨hob_len, hob_unt, hob_sh⟩ := allocOutputs_post st₂.net
                          lsh.inplace ld₂.inputBlobsId lsh.outS
                          (resizeBlobs ld₂.outputBlobs (max 1 lsh.outS.length))
                          st₂.nextSid 0 outBlobs sid₁
                          (by rw [resizeBlobs_len]; omega) hout
                        obtain ⟨hib_len, hib_unt, hib_sh⟩ := allocInternals_post
                          lsh.internalS (resizeBlobs ld₂.internals lsh.internalS.length)
                          sid₁ 0 intBlobs sid₂ (by rw [resizeBlobs_len]; omega) hint
                        have hrel₃ : List.Forall₂ PassRel st₂.net.layers
                            st'.net.layers := by
                          rw [hlay]
                          exact forall₂_passRel_mapSet hs₂ hfind₂
                            ⟨rfl, rfl, rfl, rfl, Or.inl rfl, fun _ => rfl⟩
                        have hkeys₃ : st'.net.layers.map Prod.fst =
                            st₂.net.layers.map Prod.fst := by
                          rw [hlay]
                          exact mapSet_keys hs₂ hfind₂
                        have hfind₃ : mapFind st'.net.layers lid = some
                            { ld₂ with inputBlobs := ld₂.inputBlobsId,
                                       outputBlobs := outBlobs,
                                       internals := intBlobs,
                                       flag := true } := by
                          rw [hlay]
                          exact mapFind_mapSet_eq _ _ _
                        refine ⟨forall₂_passRel_trans (forall₂_passRel_trans hrel₁ hrel₂)
                          hrel₃, by rw [hfind₃]; rfl, rfl, ?_⟩
                        intro hI
                        have hI₁ : AInv shapes (stWith st lid (withParents ld)) := by
                          intro k ldk hfk hflk
                          have hfk' : mapFind (mapSet st.net.layers lid (withParents ld)) k =
                              some ldk := hfk
                          by_cases hkl : k = lid
                          · rw [hkl, mapFind_mapSet_eq, Option.some.injEq] at hfk'
                            rw [← hfk'] at hflk
                            exact absurd hflk (show ¬ ld.flag = true from hf)
                          · rw [mapFind_mapSet_ne _ _ _ _ hkl] at hfk'
                            exact layerNormAt_keys (by exact hkeys₁)
                              (hI k ldk hfk' hflk)
                        have hI₂ := hInv₂ hI₁
                        have hnorm₃ : LayerNormAt shapes st'.net.layers lid
                            { ld₂ with inputBlobs := ld₂.inputBlobsId,
                                       outputBlobs := outBlobs,
                                       internals := intBlobs,
                                       flag := true } := by
                          refine ⟨?_, hval, rfl, ?_, lsh, hlsh, hlen, ?_, ?_, ?_, ?_⟩
                          · show lidFold ld₂.inputBlobsId ld₂.inputLayersId =
                              ld₂.inputLayersId
                            rw [hpin₂', hil₂']
                            exact lidFold_idem _ _
                          · intro pid hp
                            show (mapFind st'.net.layers pid).isSome = true
                            exact isSome_keys_eq hkeys₃ (hpex₂ pid (by
                              rw [hil₂'] at hp
                              exact hp))
                          · show outBlobs.length = max 1 lsh.outS.length
                            rw [hob_len, resizeBlobs_len]
                          · intro j hj
                            have := hob_sh j hj
                            simpa using this
                          · show intBlobs.length = lsh.internalS.length
                            rw [hib_len, resizeBlobs_len]
                          · intro j hj
                            have := hib_sh j hj
                            simpa using this
                        constructor
                        · intro k ldk hfk hflk
                          by_cases hkl : k = lid
                          · rw [hkl] at hfk ⊢
                            rw [hfind₃, Option.some.injEq] at hfk
                            rw [← hfk]
                            exact hnorm₃
                          · rw [hlay, mapFind_mapSet_ne _ _ _ _ hkl] at hfk
                            exact layerNormAt_keys (by rw [hkeys₃])
                              (hI₂ k ldk hfk hflk)
                        · exact ⟨_, hfind₃, rfl⟩
                · rw [if_pos (by
                    intro hc
                    exact hval (by simpa using hc))] at h
                  exact absurd h (by simp)
    · intro shapes pids st st' h hs
      match pids with
      | [] =>
        have h' : (Except.ok st : Except NErr ASt) = Except.ok st' := h
        rw [Except.ok.injEq] at h'
        subst h'
        exact ⟨List.forall₂_same.mpr (fun p _ => passRel_refl p), fun hI => hI,
          fun pid hp => by simp at hp⟩
      | pid :: rest =>
        rcases hL : allocLayer f shapes pid st with e | stx
        · have h' : (Except.error e : Except NErr ASt) = Except.ok st' := by
            rw [← h]
            show _ = (match allocLayer f shapes pid st with
              | Except.error e => (Except.error e : Except NErr ASt)
              | Except.ok st' => allocParents f shapes rest st')
            rw [hL]
          exact absurd h' (by simp)
        · have h₂ : allocParents f shapes rest stx = Except.ok st' := by
            rw [← h]
            show _ = (match allocLayer f shapes pid st with
              | Except.error e => (Except.error e : Except NErr ASt)
              | Except.ok st' => allocParents f shapes rest st')
            rw [hL]
        -- impossible to finish in this direction; restated below
          obtain ⟨hrelA, hsomeA, _, hInvA⟩ := ihA shapes pid st stx hL hs
          have hsx : SortedK stx.net.layers :=
            sortedK_keys_eq (passRel_keys hrelA) hs
          obtain ⟨hrelB, hInvB, hpexB⟩ := ihB shapes rest stx st' h₂ hsx
          refine ⟨forall₂_passRel_trans hrelA hrelB, ?_, ?_⟩
          · intro hI
            exact hInvB (hInvA hI).1
          · intro q hq
            rcases List.mem_cons.mp hq with rfl | hq
            · exact isSome_keys_eq (passRel_keys hrelB) hsomeA
            · exact hpexB q hq

end Dnn

namespace Dnn

theorem pass_flag_persists {l l' : List (Int × LayerData)}
    (h : List.Forall₂ PassRel l l') {lid : Int} {ld : LayerData}
    (hf : mapFind l lid = some ld) (hfl : ld.flag = true) :
    ∃ ld', mapFind l' lid = some ld' ∧ ld'.flag = true := by
  rcases passRel_find h lid with ⟨h1, _⟩ | ⟨ldx, ld₂, h1, h2, hv⟩
  · rw [h1] at hf
    exact Option.noConfusion hf
  · rw [h1, Option.some.injEq] at hf
    refine ⟨ld₂, h2, hv.2.2.2.2.2 (by rw [hf]; exact hfl)⟩

theorem pass1_allocAll : ∀ (ids : List Int) (fuel : Nat) (shapes : ShapeMap) (st st' : ASt),
    allocAll fuel shapes ids st = .ok st' →
    SortedK st.net.layers →
    List.Forall₂ PassRel st.net.layers st'.net.layers ∧
    (AInv shapes st → AInv shapes st' ∧
      ∀ lid ∈ ids, ∃ ld', mapFind st'.net.layers lid = some ld' ∧ ld'.flag = true) := by
  intro ids
  induction ids with
  | nil =>
    intro fuel shapes st st' h hs
    have h' : (Except.ok st : Except NErr ASt) = Except.ok st' := h
    rw [Except.ok.injEq] at h'
    subst h'
    exact ⟨List.forall₂_same.mpr (fun p _ => passRel_refl p),
      fun hI => ⟨hI, fun lid hl => by simp at hl⟩⟩
  | cons lid rest ih =>
    intro fuel shapes st st' h hs
    rcases hL : allocLayer fuel shapes lid st with e | stx
    · have h' : (Except.error e : Except NErr ASt) = Except.ok st' := by
        rw [← h]
        show _ = (match allocLayer fuel shapes lid st with
          | Except.error e => (Except.error e : Except NErr ASt)
          | Except.ok stx => allocAll fuel shapes rest stx)
        rw [hL]
      exact absurd h' (by simp)
    · have h₂ : allocAll fuel shapes rest stx = Except.ok st' := by
        rw [← h]
        show _ = (match allocLayer fuel shapes lid st with
          | Except.error e => (Except.error e : Except NErr ASt)
          | Except.ok stx => allocAll fuel shapes rest stx)
        rw [hL]
      obtain ⟨hrelA, hsomeA, _, hInvA⟩ := (pass1_combined fuel).1 shapes lid st stx hL hs
      have hsx : SortedK stx.net.layers := sortedK_keys_eq (passRel_keys hrelA) hs
      obtain ⟨hrelB, hInvB⟩ := ih fuel shapes stx st' h₂ hsx
      refine ⟨forall₂_passRel_trans hrelA hrelB, fun hI => ?_⟩
      obtain ⟨hIx, ldf, hldf, hfl⟩ := hInvA hI
      obtain ⟨hI', hflags⟩ := hInvB hIx
      refine ⟨hI', fun q hq => ?_⟩
      rcases List.mem_cons.mp hq with rfl | hq
      · exact pass_flag_persists hrelB hldf hfl
      · exact hflags q hq

end Dnn

namespace Dnn

/-- The layer fields shape inference reads. -/
def ReadsEqV (ld ld' : LayerData) : Prop :=
  ld'.type = ld.type ∧ ld'.params = ld.params ∧
  ld'.inputBlobsId = ld.inputBlobsId ∧ ld'.requiredOutputs = ld.requiredOutputs

/-- Two nets that agree on everything shape inference looks at. -/
def NetReadsEq (n n' : NetImpl) : Prop :=
  List.Forall₂ (fun p q => q.1 = p.1 ∧ ReadsEqV p.2 q.2) n.layers n'.layers

theorem readsEqL_find {l l' : List (Int × LayerData)}
    (h : List.Forall₂ (fun p q => q.1 = p.1 ∧ ReadsEqV p.2 q.2) l l') (k : Int) :
    (mapFind l k = none ∧ mapFind l' k = none) ∨
    (∃ ld ld', mapFind l k = some ld ∧ mapFind l' k = some ld' ∧
      ReadsEqV ld ld') := by
  induction h with
  | nil => exact Or.inl ⟨rfl, rfl⟩
  | cons hpq hrest ih =>
    rename_i p q l₁ l₂
    obtain ⟨k₁, v₁⟩ := p
    obtain ⟨k₂, v₂⟩ := q
    obtain ⟨hk, hv⟩ := hpq
    simp only at hk hv
    subst hk
    by_cases hkk : k₂ = k
    · exact Or.inr ⟨v₁, v₂, by simp [mapFind, hkk], by simp [mapFind, hkk], hv⟩
    · simp only [mapFind, if_neg hkk]
      exact ih

theorem readsEqL_keys {l l' : List (Int × LayerData)}
    (h : List.Forall₂ (fun p q => q.1 = p.1 ∧ ReadsEqV p.2 q.2) l l') :
    l'.map Prod.fst = l.map Prod.fst := by
  induction h with
  | nil => rfl
  | cons hpq hrest ih => simp [hpq.1, ih]

theorem netReadsEq_find {n n' : NetImpl} (h : NetReadsEq n n') (k : Int) :
    (mapFind n.layers k = none ∧ mapFind n'.layers k = none) ∨
    (∃ ld ld', mapFind n.layers k = some ld ∧ mapFind n'.layers k = some ld' ∧
      ReadsEqV ld ld') := readsEqL_find h k

theorem netReadsEq_keys {n n' : NetImpl} (h : NetReadsEq n n') :
    n'.layers.map Prod.fst = n.layers.map Prod.fst := readsEqL_keys h

theorem gLSR_cong (sf : ShapeFn) : ∀ (fuel : Nat) (n n' : NetImpl), NetReadsEq n n' →
    (∀ (id : Int) (m : ShapeMap), gLSR sf fuel n id m = gLSR sf fuel n' id m) ∧
    (∀ (pins : List Pin) (id : Int) (m : ShapeMap),
      gatherIns sf fuel n pins id m = gatherIns sf fuel n' pins id m) := by
  intro fuel
  induction fuel with
  | zero => exact fun n n' _ => ⟨fun _ _ => rfl, fun _ _ _ => rfl⟩
  | succ f ih =>
    intro n n' hre
    obtain ⟨ihR, ihG⟩ := ih n n' hre
    constructor
    · intro id m
      rcases netReadsEq_find hre id with ⟨h1, h2⟩ | ⟨ld, ld', h1, h2, hty, hpar, hpins, hreq⟩
      · simp only [gLSR, h1, h2]
      · simp only [gLSR, h1, h2, hty, hpar, hpins, hreq, ihG]
    · intro pins id m
      match pins with
      | [] => rfl
      | pin :: rest =>
        simp only [gatherIns, ihR, ihG]

end Dnn

namespace Dnn

theorem gLSList_cong (sf : ShapeFn) (fuel : Nat) {n n' : NetImpl} (hre : NetReadsEq n n') :
    ∀ (ids : List Int) (m : ShapeMap),
      gLSList sf fuel n ids m = gLSList sf fuel n' ids m := by
  intro ids
  induction ids with
  | nil => intro m; rfl
  | cons id rest ih =>
    intro m
    show (match gLSR sf fuel n id m with
      | Except.error e => (Except.error e : Except NErr ShapeMap)
      | Except.ok m' => gLSList sf fuel n rest m') =
      (match gLSR sf fuel n' id m with
      | Except.error e => (Except.error e : Except NErr ShapeMap)
      | Except.ok m' => gLSList sf fuel n' rest m')
    rw [(gLSR_cong sf fuel n n' hre).1 id m]
    rcases h : gLSR sf fuel n' id m with e | m'
    · simp only [h]
    · simp only [h]
      exact ih m' 

theorem getLayersShapes_cong (sf : ShapeFn) (fuel : Nat) {n n' : NetImpl}
    (hre : NetReadsEq n n') (X : List (List Nat)) :
    getLayersShapes sf fuel n X = getLayersShapes sf fuel n' X := by
  unfold getLayersShapes
  rw [netReadsEq_keys hre, gLSList_cong sf fuel hre]

theorem gLSR_mono (sf : ShapeFn) : ∀ f : Nat,
    (∀ (n : NetImpl) (id : Int) (m : ShapeMap) (g : Nat), f ≤ g →
      gLSR sf f n id m ≠ .error .fuelErr → gLSR sf g n id m = gLSR sf f n id m) ∧
    (∀ (n : NetImpl) (pins : List Pin) (id : Int) (m : ShapeMap) (g : Nat), f ≤ g →
      gatherIns sf f n pins id m ≠ .error .fuelErr →
      gatherIns sf g n pins id m = gatherIns sf f n pins id m) := by
  intro f
  induction f with
  | zero =>
    constructor
    · intro n id m g _ hne
      exact absurd rfl hne
    · intro n pins id m g _ hne
      exact absurd rfl hne
  | succ f ih =>
    obtain ⟨ihR, ihG⟩ := ih
    constructor
    · intro n id m g hle hne
      obtain ⟨g', rfl⟩ : ∃ g', g = g' + 1 := ⟨g - 1, by omega⟩
      rcases hld : mapFind n.layers id with _ | ld
      · simp only [gLSR, hld]
      · by_cases hc : (msGet m id).inS = []
        · rcases hsub : gatherIns sf f n ld.inputBlobsId id m with e | m₁
          · have hef : e ≠ .fuelErr := by
              intro hcon
              subst hcon
              apply hne
              simp only [gLSR, hld, if_pos hc, hsub]
            have hsub' : gatherIns sf g' n ld.inputBlobsId id m = .error e := by
              rw [ihG n ld.inputBlobsId id m g' (by omega) (by rw [hsub]; simp [hef])]
              exact hsub
            simp only [gLSR, hld, if_pos hc, hsub, hsub']
          · have hsub' : gatherIns sf g' n ld.inputBlobsId id m = .ok m₁ := by
              rw [ihG n ld.inputBlobsId id m g' (by omega) (by rw [hsub]; simp)]
              exact hsub
            simp only [gLSR, hld, if_pos hc, hsub, hsub']
        · simp only [gLSR, hld, if_neg hc]
    · intro n pins id m g hle hne
      obtain ⟨g', rfl⟩ : ∃ g', g = g' + 1 := ⟨g - 1, by omega⟩
      match pins with
      | [] => rfl
      | pin :: rest =>
        by_cases hc : (mapFind m pin.lid).isNone ∨ (msGet m pin.lid).outS = []
        · rcases hsub : gLSR sf f n pin.lid m with e | m₁
          · have hef : e ≠ .fuelErr := by
              intro hcon
              subst hcon
              apply hne
              simp only [gatherIns, if_pos hc, hsub]
            have hsub' : gLSR sf g' n pin.lid m = .error e := by
              rw [ihR n pin.lid m g' (by omega) (by rw [hsub]; simp [hef])]
              exact hsub
            simp only [gatherIns, if_pos hc, hsub, hsub']
          · have hsub' : gLSR sf g' n pin.lid m = .ok m₁ := by
              rw [ihR n pin.lid m g' (by omega) (by rw [hsub]; simp)]
              exact hsub
            simp only [gatherIns, if_pos hc, hsub, hsub']
            by_cases hpo : pin.oid < 0
            · simp only [if_pos hpo]
            · simp only [if_neg hpo]
              rcases hget : (msGet m₁ pin.lid).outS.get? pin.oid.toNat with _ | shp
              · simp only [hget]
              · simp only [hget]
                apply ihG
                · omega
                · intro hcon
                  apply hne
                  simp only [gatherIns, if_pos hc, hsub, if_neg hpo, hget]
                  exact hcon
        · simp only [gatherIns, if_neg hc]
          by_cases hpo : pin.oid < 0
          · simp only [if_pos hpo]
          · simp only [if_neg hpo]
            rcases hget : (msGet m pin.lid).outS.get? pin.oid.toNat with _ | shp
            · simp only [hget]
            · simp only [hget]
              apply ihG
              · omega
              · intro hcon
                apply hne
                simp only [gatherIns, if_neg hc, if_neg hpo, hget]
                exact hcon

end Dnn

namespace Dnn

theorem gLSList_mono (sf : ShapeFn) {f g : Nat} (hle : f ≤ g) (n : NetImpl) :
    ∀ (ids : List Int) (m : ShapeMap),
      gLSList sf f n ids m ≠ .error .fuelErr →
      gLSList sf g n ids m = gLSList sf f n ids m := by
  intro ids
  induction ids with
  | nil => intro m _; rfl
  | cons id rest ih =>
    intro m hne
    show (match gLSR sf g n id m with
      | Except.error e => (Except.error e : Except NErr ShapeMap)
      | Except.ok m' => gLSList sf g n rest m') =
      (match gLSR sf f n id m with
      | Except.error e => (Except.error e : Except NErr ShapeMap)
      | Except.ok m' => gLSList sf f n rest m')
    rcases hsub : gLSR sf f n id m with e | m₁
    · have hef : e ≠ .fuelErr := by
        intro hcon
        subst hcon
        apply hne
        show (match gLSR sf f n id m with
          | Except.error e => (Except.error e : Except NErr ShapeMap)
          | Except.ok m' => gLSList sf f n rest m') = _
        rw [hsub]
      rw [(gLSR_mono sf f).1 n id m g hle (by rw [hsub]; simp [hef]), hsub]
    · rw [(gLSR_mono sf f).1 n id m g hle (by rw [hsub]; simp), hsub]
      simp only
      apply ih
      intro hcon
      apply hne
      show (match gLSR sf f n id m with
        | Except.error e => (Except.error e : Except NErr ShapeMap)
        | Except.ok m' => gLSList sf f n rest m') = _
      rw [hsub]
      exact hcon

theorem getLayersShapes_mono (sf : ShapeFn) {f g : Nat} (hle : f ≤ g) (n : NetImpl)
    (X : List (List Nat))
    (hne : getLayersShapes sf f n X ≠ .error .fuelErr) :
    getLayersShapes sf g n X = getLayersShapes sf f n X := by
  unfold getLayersShapes at hne ⊢
  exact gLSList_mono sf hle n _ _ hne

end Dnn

namespace Dnn

theorem mapFind_map_snd {α β : Type} (f : α → β) (l : List (Int × α)) (k : Int) :
    mapFind (l.map (fun p => (p.1, f p.2))) k = (mapFind l k).map f := by
  induction l with
  | nil => rfl
  | cons p rest ih =>
    obtain ⟨k', v⟩ := p
    by_cases hk : k' = k
    · simp [mapFind, hk]
    · simp only [List.map_cons, mapFind, if_neg hk]
      exact ih

theorem keys_map_snd {α β : Type} (f : α → β) (l : List (Int × α)) :
    (l.map (fun p => (p.1, f p.2))).map Prod.fst = l.map Prod.fst := by
  rw [List.map_map]
  rfl

theorem clearFlags_find (n : NetImpl) (k : Int) :
    mapFind (clearFlags n).layers k =
      (mapFind n.layers k).map (fun ld => { ld with flag := false }) :=
  @mapFind_map_snd LayerData LayerData (fun ld => { ld with flag := false }) n.layers k

theorem clearFlags_keys (n : NetImpl) :
    (clearFlags n).layers.map Prod.fst = n.layers.map Prod.fst :=
  @keys_map_snd LayerData LayerData (fun ld => { ld with flag := false }) n.layers

theorem flag_update_self {ld : LayerData} (h : ld.flag = true) :
    ({ ld with flag := true } : LayerData) = ld := by
  cases ld
  simp only at h
  rw [h]

theorem stNorm_clearFlags {shapes : ShapeMap} {st : ASt} (h : StNorm shapes st) :
    StNorm shapes { st with net := clearFlags st.net } := by
  intro lid ld hld
  have hld' : mapFind (clearFlags st.net).layers lid =
      (mapFind st.net.layers lid).map (fun ld => { ld with flag := false }) :=
    clearFlags_find st.net lid
  rw [hld] at hld'
  rcases hfd : mapFind st.net.layers lid with _ | ld₀
  · rw [hfd] at hld'
    exact Option.noConfusion hld'
  · rw [hfd] at hld'
    simp only [Option.map_some', Option.some.injEq] at hld'
    obtain ⟨a, b, c, d, lsh, e, f, g, h1, i, j⟩ := h lid ld₀ hfd
    rw [hld']
    refine ⟨a, b, c, fun pid hp => ?_, lsh, e, f, g, h1, i, j⟩
    exact isSome_keys_eq (by
      show (clearFlags st.net).layers.map Prod.fst = _
      exact clearFlags_keys st.net) (d pid hp)

theorem aInv_cleared (shapes : ShapeMap) (st : ASt) :
    AInv shapes { st with net := clearFlags st.net } := by
  intro lid ld hld hfl
  have hld' : mapFind (clearFlags st.net).layers lid =
      (mapFind st.net.layers lid).map (fun ld => { ld with flag := false }) :=
    clearFlags_find st.net lid
  rw [hld] at hld'
  rcases hfd : mapFind st.net.layers lid with _ | ld₀
  · rw [hfd] at hld'
    exact Option.noConfusion hld'
  · rw [hfd] at hld'
    simp only [Option.map_some', Option.some.injEq] at hld'
    rw [hld'] at hfl
    exact absurd hfl (by simp)

end Dnn

namespace Dnn

theorem readsEq_of_passRel_clear {l l' : List (Int × LayerData)}
    (h : List.Forall₂ PassRel l l') :
    List.Forall₂ (fun p q => q.1 = p.1 ∧ ReadsEqV p.2 q.2) l
      (l'.map (fun p => (p.1, { p.2 with flag := false }))) := by
  induction h with
  | nil => exact List.Forall₂.nil
  | cons hpq hrest ih =>
    refine List.Forall₂.cons ⟨hpq.1, ?_⟩ ih
    obtain ⟨t, pr, pi, rq, _, _⟩ := hpq.2
    exact ⟨t, pr, pi, rq⟩

/-- C7 (confirmed, with the recursion-depth budget of the embedding made
explicit): once `allocateLayers` has succeeded and the network input tensors
are unchanged, running `allocateLayers` again either exhausts the recursion
budget or returns a state whose layer map — every output shape AND every
output storage id, for every layer — is identical to the first allocation's,
with no fresh storage allocated; and the real second-allocation entry point
`setUpNet` is a literal no-op once `netWasAllocated` is set. -/
theorem c7_realloc_invariant (sf : ShapeFn) (fuel : Nat) (st st₁ : ASt)
    (hS : SortedK st.net.layers)
    (h1 : allocLayers sf fuel st = Except.ok st₁)
    (hl0 : (mapFind st₁.net.layers 0).map LayerData.outputBlobs =
           (mapFind st.net.layers 0).map LayerData.outputBlobs) :
    (∀ fuel₂,
      allocLayers sf fuel₂ st₁ = Except.error NErr.fuelErr ∨
      ∃ st₂, allocLayers sf fuel₂ st₁ = Except.ok st₂ ∧
        (∀ lid, mapFind st₂.net.layers lid = mapFind st₁.net.layers lid) ∧
        st₂.nextSid = st₁.nextSid ∧
        (∀ lid ld₁ ld₂, mapFind st₁.net.layers lid = some ld₁ →
          mapFind st₂.net.layers lid = some ld₂ →
          ld₂.outputBlobs.map MatM.shp = ld₁.outputBlobs.map MatM.shp ∧
          ld₂.outputBlobs.map MatM.sid = ld₁.outputBlobs.map MatM.sid)) ∧
    (∀ (stA : ASt) (fuelA : Nat), stA.net.netWasAllocated = true →
      setUpNet sf fuelA stA = Except.ok stA) := by
  constructor
  swap
  · intro stA fuelA hA
    simp [setUpNet, hA]
  intro fuel₂
  rcases hl0f : mapFind (clearFlags st.net).layers 0 with _ | l0
  · simp only [allocLayers, hl0f] at h1
    exact absurd h1 (by simp)
  · simp only [allocLayers, hl0f] at h1
    by_cases hemp : l0.outputBlobs = []
    · rw [if_pos hemp] at h1
      exact absurd h1 (by simp)
    · rw [if_neg hemp] at h1
      by_cases htot : l0.outputBlobs.all (fun m => totalOf m.shp ≠ 0) = true
      · rw [if_neg (not_not_intro htot)] at h1
        rcases hsh : getLayersShapes sf fuel (clearFlags st.net)
            (l0.outputBlobs.map MatM.shp) with e | shapes
        · simp only [hsh] at h1
          exact absurd h1 (by simp)
        · simp only [hsh] at h1
          have hS₀ : SortedK (clearFlags st.net).layers :=
            sortedK_keys_eq (clearFlags_keys st.net) hS
          obtain ⟨hrel, hInv⟩ := pass1_allocAll
            ((clearFlags st.net).layers.map Prod.fst) fuel shapes
            { st with net := clearFlags st.net } st₁ h1 hS₀
          obtain ⟨hInv₁, hflags₁⟩ := hInv (aInv_cleared shapes st)
          have hkeys₁₀ : st₁.net.layers.map Prod.fst =
              (clearFlags st.net).layers.map Prod.fst := passRel_keys hrel
          have hnorm₁ : StNorm shapes st₁ := by
            intro lid ld hld
            have hmem : lid ∈ (clearFlags st.net).layers.map Prod.fst := by
              rw [← hkeys₁₀]
              exact mapFind_some_mem_keys hld
            obtain ⟨ld', hld', hfl'⟩ := hflags₁ lid hmem
            rw [hld, Option.some.injEq] at hld'
            exact hInv₁ lid ld hld (by rw [hld']; exact hfl')
          -- the original layer 0 and its blobs
          obtain ⟨l0s, hfs, hl0eq⟩ : ∃ l0s, mapFind st.net.layers 0 = some l0s ∧
              l0 = { l0s with flag := false } := by
            have := clearFlags_find st.net 0
            rw [hl0f] at this
            rcases hfs : mapFind st.net.layers 0 with _ | l0s
            · rw [hfs] at this
              exact Option.noConfusion this
            · rw [hfs] at this
              simp only [Option.map_some', Option.some.injEq] at this
              exact ⟨l0s, rfl, this⟩
          obtain ⟨ld01, hf01, hb01⟩ : ∃ ld01, mapFind st₁.net.layers 0 = some ld01 ∧
              ld01.outputBlobs = l0.outputBlobs := by
            rw [hfs] at hl0
            rcases hf01 : mapFind st₁.net.layers 0 with _ | ld01
            · rw [hf01] at hl0
              exact Option.noConfusion hl0
            · rw [hf01] at hl0
              simp only [Option.map_some', Option.some.injEq] at hl0
              refine ⟨ld01, rfl, ?_⟩
              rw [hl0, hl0eq]
          have hfind0₂ : mapFind (clearFlags st₁.net).layers 0 =
              some { ld01 with flag := false } := by
            rw [clearFlags_find, hf01]
            rfl
          have hb0₂ : ({ ld01 with flag := false } : LayerData).outputBlobs =
              l0.outputBlobs := hb01
          have hre : NetReadsEq (clearFlags st.net) (clearFlags st₁.net) :=
            readsEq_of_passRel_clear hrel
          have hcong : getLayersShapes sf fuel₂ (clearFlags st.net)
              (l0.outputBlobs.map MatM.shp) =
              getLayersShapes sf fuel₂ (clearFlags st₁.net)
              (l0.outputBlobs.map MatM.shp) :=
            getLayersShapes_cong sf fuel₂ hre _
          by_cases hf2 : getLayersShapes sf fuel₂ (clearFlags st.net)
              (l0.outputBlobs.map MatM.shp) = Except.error NErr.fuelErr
          · refine Or.inl ?_
            simp only [allocLayers, hfind0₂]
            rw [if_neg (show ¬({ ld01 with flag := false } : LayerData).outputBlobs = []
              from by rw [hb0₂]; exact hemp)]
            rw [if_neg (not_not_intro (show ({ ld01 with flag := false } :
                LayerData).outputBlobs.all (fun m => totalOf m.shp ≠ 0) = true
              from by rw [hb0₂]; exact htot))]
            rw [show ({ ld01 with flag := false } : LayerData).outputBlobs =
              l0.outputBlobs from hb0₂]
            have hrun₂ : getLayersShapes sf fuel₂ (clearFlags st₁.net)
                (l0.outputBlobs.map MatM.shp) = Except.error NErr.fuelErr := by
              rw [← hcong]
              exact hf2
            rw [hrun₂]
          · have hsh₂ : getLayersShapes sf fuel₂ (clearFlags st₁.net)
                (l0.outputBlobs.map MatM.shp) = Except.ok shapes := by
              rw [← hcong]
              rcases le_total fuel fuel₂ with hle | hle
              · rw [getLayersShapes_mono sf hle (clearFlags st.net) _ (by
                  rw [hsh]
                  simp)]
                exact hsh
              · rw [getLayersShapes_mono sf hle (clearFlags st.net) _ hf2] at hsh
                exact hsh
            have hnormC : StNorm shapes { st₁ with net := clearFlags st₁.net } :=
              stNorm_clearFlags hnorm₁
            have hSC : SortedK (clearFlags st₁.net).layers :=
              sortedK_keys_eq (clearFlags_keys st₁.net)
                (sortedK_keys_eq hkeys₁₀ (sortedK_keys_eq (clearFlags_keys st.net) hS))
            have hexC : ∀ lid ∈ (clearFlags st₁.net).layers.map Prod.fst,
                (mapFind (clearFlags st₁.net).layers lid).isSome = true := by
              intro lid hl
              exact mapFind_mem_isSome hl
            rcases alloc2All ((clearFlags st₁.net).layers.map Prod.fst) fuel₂ shapes
              { st₁ with net := clearFlags st₁.net } hnormC hSC hexC with
              hfe | ⟨st₂, hok₂, hstep₂, hflags₂⟩
            · refine Or.inl ?_
              simp only [allocLayers, hfind0₂]
              rw [if_neg (show ¬({ ld01 with flag := false } : LayerData).outputBlobs = []
                from by rw [hb0₂]; exact hemp)]
              rw [if_neg (not_not_intro (show ({ ld01 with flag := false } :
                  LayerData).outputBlobs.all (fun m => totalOf m.shp ≠ 0) = true
                from by rw [hb0₂]; exact htot))]
              rw [show ({ ld01 with flag := false } : LayerData).outputBlobs =
                l0.outputBlobs from hb0₂]
              simp only [hsh₂]
              exact hfe
            · have hperlid : ∀ lid, mapFind st₂.net.layers lid =
                  mapFind st₁.net.layers lid := by
                intro lid
                rcases flagRel_find hstep₂.1 lid with ⟨ha, hb⟩ | ⟨cld, ld₂, ha, hb, hv⟩
                · have ha' : mapFind (clearFlags st₁.net).layers lid = none := ha
                  rw [clearFlags_find] at ha'
                  rcases hx : mapFind st₁.net.layers lid with _ | ld₁
                  · rw [hb]
                  · rw [hx] at ha'
                    exact Option.noConfusion ha'
                · have ha' : mapFind (clearFlags st₁.net).layers lid = some cld := ha
                  rw [clearFlags_find] at ha'
                  rcases hx : mapFind st₁.net.layers lid with _ | ld₁
                  · rw [hx] at ha'
                    exact Option.noConfusion ha'
                  · rw [hx] at ha'
                    simp only [Option.map_some', Option.some.injEq] at ha'
                    have hmem₂ : lid ∈ (clearFlags st₁.net).layers.map Prod.fst :=
                      mapFind_some_mem_keys ha
                    obtain ⟨ldf, hldf, hflf⟩ := hflags₂ lid hmem₂
                    rw [hb, Option.some.injEq] at hldf
                    have hfl1 : ld₁.flag = true := by
                      have hmem₁ : lid ∈ (clearFlags st.net).layers.map Prod.fst := by
                        rw [← hkeys₁₀]
                        exact mapFind_some_mem_keys hx
                      obtain ⟨ldg, hldg, hflg⟩ := hflags₁ lid hmem₁
                      rw [hx, Option.some.injEq] at hldg
                      rw [hldg]
                      exact hflg
                    rcases hv with rfl | hv2
                    · rw [← hldf] at hflf
                      rw [← ha'] at hflf
                      exact absurd hflf (by simp)
                    · rw [hb, hv2, ← ha']
                      rw [show ({ ({ ld₁ with flag := false } : LayerData) with
                        flag := true } : LayerData) = { ld₁ with flag := true } from rfl]
                      rw [flag_update_self hfl1]
              refine Or.inr ⟨st₂, ?_, hperlid, hstep₂.2.2.2.2.2, ?_⟩
              · simp only [allocLayers, hfind0₂]
                rw [if_neg (show ¬({ ld01 with flag := false } :
                    LayerData).outputBlobs = [] from by rw [hb0₂]; exact hemp)]
                rw [if_neg (not_not_intro (show ({ ld01 with flag := false } :
                    LayerData).outputBlobs.all (fun m => totalOf m.shp ≠ 0) = true
                  from by rw [hb0₂]; exact htot))]
                rw [show ({ ld01 with flag := false } : LayerData).outputBlobs =
                  l0.outputBlobs from hb0₂]
                simp only [hsh₂]
                exact hok₂
              · intro lid ld₁ ld₂ hfx hfy
                rw [hperlid lid, hfx, Option.some.injEq] at hfy
                rw [hfy]
                exact ⟨rfl, rfl⟩
      · rw [if_pos (by
          intro hc
          exact htot (by simpa using hc))] at h1
        exact absurd h1 (by simp)

end Dnn

namespace Dnn

/-- A concrete two-layer net for the C7 witness: the synthetic input layer
holding one bound input tensor, and one user layer. -/
def c7inputLD : LayerData :=
  ⟨0, "_input", "__NetInputLayer__", [], [], [], [], [⟨[2], 7⟩], [], [], false⟩

def c7net : NetImpl :=
  ⟨[(0, c7inputLD), (2, LayerData.mkNew 2 "a" "t" [])],
   [("_input", 0), ("a", 2)], 2, false, []⟩

def c7st : ASt := ⟨c7net, 100⟩

/-- A shape function echoing input shapes, with a fixed output for type `t`. -/
def c7sf : ShapeFn := fun ty _ ins _ =>
  if ty = "t" then some ([[5]], [], false) else some (ins, [], false)

def c7st₁ : ASt :=
  ⟨⟨[(0, ⟨0, "_input", "__NetInputLayer__", [], [], [], [], [⟨[2], 7⟩], [], [], true⟩),
     (2, ⟨2, "a", "t", [], [], [], [], [⟨[5], 100⟩], [], [], true⟩)],
    [("_input", 0), ("a", 2)], 2, false, []⟩, 101⟩

theorem c7_realloc_invariant_witness :
    SortedK c7st.net.layers ∧
    allocLayers c7sf 4 c7st = Except.ok c7st₁ ∧
    Option.map LayerData.outputBlobs (mapFind c7st₁.net.layers 0) =
      Option.map LayerData.outputBlobs (mapFind c7st.net.layers 0) ∧
    ((∀ fuel₂,
      allocLayers c7sf fuel₂ c7st₁ = Except.error NErr.fuelErr ∨
      ∃ st₂, allocLayers c7sf fuel₂ c7st₁ = Except.ok st₂ ∧
        (∀ lid, mapFind st₂.net.layers lid = mapFind c7st₁.net.layers lid) ∧
        st₂.nextSid = c7st₁.nextSid ∧
        (∀ lid ld₁ ld₂, mapFind c7st₁.net.layers lid = some ld₁ →
          mapFind st₂.net.layers lid = some ld₂ →
          ld₂.outputBlobs.map MatM.shp = ld₁.outputBlobs.map MatM.shp ∧
          ld₂.outputBlobs.map MatM.sid = ld₁.outputBlobs.map MatM.sid)) ∧
    (∀ (stA : ASt) (fuelA : Nat), stA.net.netWasAllocated = true →
      setUpNet c7sf fuelA stA = Except.ok stA)) := by
  have h1 : allocLayers c7sf 4 c7st = Except.ok c7st₁ := by with_unfolding_all rfl
  have hS : SortedK c7st.net.layers := by
    show (c7st.net.layers.map Prod.fst).Pairwise (· < ·)
    decide
  have hl0 : Option.map LayerData.outputBlobs (mapFind c7st₁.net.layers 0) =
      Option.map LayerData.outputBlobs (mapFind c7st.net.layers 0) := rfl
  exact ⟨hS, h1, hl0, c7_realloc_invariant c7sf 4 c7st c7st₁ hS h1 hl0⟩

end Dnn
